import Mathlib

set_option linter.unusedVariables false

/-!
# Verification of the cellular growth simulation (`Analysis_Simulation_Simple.py`)

This file shallowly embeds the grid-based growth engine of the repository's
second module (the `Grid`, `VerticalHolesTracker`, `Constraints`, `GrowthPoint`,
`SmoothnessCalculator`, `GrowthEngine` and `Simulation` classes starting at the
`=== Python Skript klein.py ===` marker) and proves properties of that
embedding.

Modelling conventions:
* Cell coordinates are `ℤ × ℤ`; a grid stores `Bool` cell states row-major
  (`true` models the Python cell value `1`, `false` the value `0`; the source
  only ever stores these two values).
* External Rhino geometry queries (`Curve.Contains`, `ClosestPoint`, ...)
  are out of scope for the core per the spec; they enter the embedding as
  opaque boolean/real-valued fields of `Constraints` / `GrowthPoint`.
* Python floats are modelled by `ℝ` where transcendental functions appear
  (scores, growth-point influence) and by `ℚ`/`ℤ` where the code only
  branches on comparisons of plain config constants.
* The breadth-first searches of the source compute reachability closures and
  hop distances; the closure computations are embedded as iterated one-step
  expansions (same result set as the queue-based BFS of the source), the
  distance/bounded searches as fuelled queue loops whose fuel strictly exceeds
  the number of possible queue pops, so the fuel never runs out before the
  source's loop would have ended.
* Python's `random` draws are abstracted by an explicit oracle argument; the
  oracle only chooses *which* legality-passing candidate is placed, matching
  the source where every placed cell comes from the `scored` list.
-/

namespace GrowthSim

/-- A cell coordinate `(x, y)`. The source uses Python ints. -/
abbrev Cell := ℤ × ℤ

/-! ## Grid (source class `Grid`, lines 984–1081) -/

/-- `Grid`: the 2D cell lattice of one layer. `cells` is row-major
(`cells[y][x]`), exactly as in the Python source. -/
structure Grid where
  cols : ℕ
  rows : ℕ
  cells : List (List Bool)
  deriving Repr, DecidableEq

namespace Grid

/-- `Grid.__init__`: all cells empty. -/
def init (cols rows : ℕ) : Grid :=
  ⟨cols, rows, List.replicate rows (List.replicate cols false)⟩

/-- `Grid.in_bounds`. -/
def in_bounds (g : Grid) (x y : ℤ) : Prop :=
  0 ≤ x ∧ x < (g.cols : ℤ) ∧ 0 ≤ y ∧ y < (g.rows : ℤ)

instance (g : Grid) (x y : ℤ) : Decidable (g.in_bounds x y) := by
  unfold in_bounds; infer_instance

/-- `Grid.get`: cell value, `false` (= 0) outside the grid. -/
def get (g : Grid) (x y : ℤ) : Bool :=
  if g.in_bounds x y then ((g.cells.getD y.toNat []).getD x.toNat false) else false

/-- `Grid.set`: writes a cell value, no-op outside the grid. -/
def set (g : Grid) (x y : ℤ) (v : Bool) : Grid :=
  if g.in_bounds x y then
    { g with cells := g.cells.set y.toNat ((g.cells.getD y.toNat []).set x.toNat v) }
  else g

/-- `Grid.is_empty`. -/
def is_empty (g : Grid) (x y : ℤ) : Bool :=
  decide (g.in_bounds x y) && !(g.get x y)

/-- `Grid.is_alive`. -/
def is_alive (g : Grid) (x y : ℤ) : Bool :=
  decide (g.in_bounds x y) && g.get x y

/-- The four orthogonal neighbour offsets, in the order of `Grid.neighbors_4`. -/
def offsets4 : List (ℤ × ℤ) := [(1, 0), (-1, 0), (0, 1), (0, -1)]

/-- `Grid.neighbors_4`: in-bounds orthogonal neighbours, source order. -/
def neighbors_4 (g : Grid) (x y : ℤ) : List Cell :=
  offsets4.filterMap fun d =>
    if g.in_bounds (x + d.1) (y + d.2) then some (x + d.1, y + d.2) else none

/-- `Grid.count_alive_neighbors_4`. -/
def count_alive_neighbors_4 (g : Grid) (x y : ℤ) : ℕ :=
  (g.neighbors_4 x y).countP fun c => g.is_alive c.1 c.2

/-- `Grid.has_alive_neighbor_4`. -/
def has_alive_neighbor_4 (g : Grid) (x y : ℤ) : Bool :=
  (g.neighbors_4 x y).any fun c => g.is_alive c.1 c.2

/-- `Grid.neighbors_8` as a cell list (dy outer, dx inner, skipping (0,0)),
source order. -/
def neighbors_8 (g : Grid) (x y : ℤ) : List Cell :=
  ([(-1 : ℤ), 0, 1].flatMap fun dy => [(-1 : ℤ), 0, 1].filterMap fun dx =>
    if dx = 0 ∧ dy = 0 then none
    else if g.in_bounds (x + dx) (y + dy) then some (x + dx, y + dy) else none)

/-- `Grid.count_alive_neighbors_8`. -/
def count_alive_neighbors_8 (g : Grid) (x y : ℤ) : ℕ :=
  (g.neighbors_8 x y).countP fun c => g.is_alive c.1 c.2

/-- `Grid.alive_count`: `sum(sum(row) for row in cells)` — with boolean cells
the row sum is the number of `true` entries. -/
def alive_count (g : Grid) : ℕ :=
  (g.cells.map (List.count true)).sum

/-- `Grid.get_all_alive_cells`: row-major list of alive cells (y outer, x
inner), exactly the source's iteration order. -/
def get_all_alive_cells (g : Grid) : List Cell :=
  (List.range g.rows).flatMap fun y =>
    (List.range g.cols).filterMap fun x =>
      if (g.cells.getD y []).getD x false then some ((x : ℤ), (y : ℤ)) else none

/-- All in-bounds coordinates as a finite set (not in the source as such; used
to bound the flood-fill iteration). -/
def allCells (g : Grid) : Finset Cell :=
  Finset.Icc (0 : ℤ) ((g.cols : ℤ) - 1) ×ˢ Finset.Icc (0 : ℤ) ((g.rows : ℤ) - 1)

theorem mem_allCells {g : Grid} {c : Cell} :
    c ∈ g.allCells ↔ g.in_bounds c.1 c.2 := by
  cases c with
  | mk x y =>
    simp only [allCells, Finset.mem_product, Finset.mem_Icc, in_bounds]
    omega

end Grid

/-! ## Flood fill

The source runs several queue-based BFS flood fills (`Grid.get_component`,
`GrowthEngine._get_outside_cells`).  A queue-based BFS computes exactly the
reachability closure of its seed set; we embed that closure as an iterated
one-step expansion, bounded by the number of grid cells, and prove that the
result is exactly the set of cells reachable from a seed through cells
satisfying the expansion predicate. -/

/-- One expansion step: add every in-bounds cell satisfying `ok` that is a
4-neighbour of a cell already in the set. -/
def floodStep (g : Grid) (ok : Cell → Bool) (s : Finset Cell) : Finset Cell :=
  s ∪ g.allCells.filter (fun c => ok c = true ∧ ∃ d ∈ s, c ∈ g.neighbors_4 d.1 d.2)

/-- The flood-fill closure of `seeds` through cells satisfying `ok`. -/
def flood (g : Grid) (ok : Cell → Bool) (seeds : Finset Cell) : Finset Cell :=
  (floodStep g ok)^[g.cols * g.rows] (seeds.filter (fun c => ok c = true))

/-- One BFS edge: `v` is an in-bounds 4-neighbour of `u` and satisfies `ok`. -/
def FloodEdge (g : Grid) (ok : Cell → Bool) (u v : Cell) : Prop :=
  v ∈ g.neighbors_4 u.1 u.2 ∧ ok v = true

/-- Reachability along `FloodEdge`s (the paths a BFS flood fill explores). -/
def ReachThrough (g : Grid) (ok : Cell → Bool) (a c : Cell) : Prop :=
  Relation.ReflTransGen (FloodEdge g ok) a c

theorem floodStep_subset (g : Grid) (ok : Cell → Bool) (s : Finset Cell) :
    s ⊆ floodStep g ok s :=
  Finset.subset_union_left

theorem floodStep_mem_all (g : Grid) (ok : Cell → Bool) (s : Finset Cell)
    (hs : ∀ c ∈ s, ok c = true) :
    ∀ c ∈ floodStep g ok s, ok c = true := by
  intro c hc
  rcases Finset.mem_union.mp hc with h | h
  · exact hs c h
  · exact (Finset.mem_filter.mp h).2.1

theorem floodStep_subset_all (g : Grid) (ok : Cell → Bool)
    (hok : ∀ c : Cell, ok c = true → g.in_bounds c.1 c.2) (s : Finset Cell)
    (hs : ∀ c ∈ s, ok c = true) :
    ∀ c ∈ floodStep g ok s, c ∈ g.allCells.filter (fun c => ok c = true) := by
  intro c hc
  have hokc := floodStep_mem_all g ok s hs c hc
  exact Finset.mem_filter.mpr ⟨Grid.mem_allCells.mpr (hok c hokc), hokc⟩

/-- Iterating preserves membership in the `ok` cells. -/
theorem flood_iter_ok (g : Grid) (ok : Cell → Bool) (seeds : Finset Cell) :
    ∀ k, ∀ c ∈ (floodStep g ok)^[k] (seeds.filter (fun c => ok c = true)),
      ok c = true := by
  intro k
  induction k with
  | zero => intro c hc; exact (Finset.mem_filter.mp hc).2
  | succ n ih =>
      intro c hc
      rw [Function.iterate_succ_apply'] at hc
      exact floodStep_mem_all g ok _ ih c hc

theorem flood_iter_subset_all (g : Grid) (ok : Cell → Bool)
    (hok : ∀ c : Cell, ok c = true → g.in_bounds c.1 c.2) (seeds : Finset Cell) :
    ∀ k, (floodStep g ok)^[k] (seeds.filter (fun c => ok c = true)) ⊆
      g.allCells.filter (fun c => ok c = true) := by
  intro k c hc
  have hokc := flood_iter_ok g ok seeds k c hc
  exact Finset.mem_filter.mpr ⟨Grid.mem_allCells.mpr (hok c hokc), hokc⟩

theorem flood_iter_mono (g : Grid) (ok : Cell → Bool) (s : Finset Cell) :
    ∀ k, s ⊆ (floodStep g ok)^[k] s := by
  intro k
  induction k with
  | zero => exact Finset.Subset.refl s
  | succ n ih =>
      rw [Function.iterate_succ_apply']
      exact ih.trans (floodStep_subset g ok _)

/-- Once an iterate is a fixed point, all later iterates agree with it. -/
theorem flood_iter_fix_propagate (g : Grid) (ok : Cell → Bool) (s : Finset Cell)
    (k : ℕ) (hfix : (floodStep g ok)^[k + 1] s = (floodStep g ok)^[k] s) :
    ∀ j, (floodStep g ok)^[k + j] s = (floodStep g ok)^[k] s := by
  rw [Function.iterate_succ_apply'] at hfix
  intro j
  induction j with
  | zero => rfl
  | succ n ih =>
      have : k + (n + 1) = (k + n) + 1 := by omega
      rw [this, Function.iterate_succ_apply', ih]
      exact hfix

/-- The iteration reaches a fixed point within `card` of the ambient set. -/
theorem flood_exists_fix (g : Grid) (ok : Cell → Bool)
    (hok : ∀ c : Cell, ok c = true → g.in_bounds c.1 c.2) (seeds : Finset Cell) :
    ∃ k ≤ (g.allCells.filter (fun c => ok c = true)).card,
      (floodStep g ok)^[k + 1] (seeds.filter (fun c => ok c = true)) =
      (floodStep g ok)^[k] (seeds.filter (fun c => ok c = true)) := by
  set s₀ := seeds.filter (fun c => ok c = true) with hs₀
  set T := g.allCells.filter (fun c => ok c = true) with hT
  by_contra hcon
  push_neg at hcon
  have hgrow : ∀ k ≤ T.card, k ≤ ((floodStep g ok)^[k] s₀).card := by
    intro k
    induction k with
    | zero => intro _; exact Nat.zero_le _
    | succ n ih =>
        intro hn
        have hne := hcon n (by omega)
        have hsub : (floodStep g ok)^[n] s₀ ⊆ (floodStep g ok)^[n + 1] s₀ := by
          rw [Function.iterate_succ_apply']
          exact floodStep_subset g ok _
        have hlt : ((floodStep g ok)^[n] s₀).card < ((floodStep g ok)^[n + 1] s₀).card :=
          Finset.card_lt_card (Finset.ssubset_iff_subset_ne.mpr ⟨hsub, (Ne.symm hne)⟩)
        have := ih (by omega)
        omega
  have h1 : T.card + 1 ≤ ((floodStep g ok)^[T.card + 1] s₀).card := by
    have hne := hcon T.card le_rfl
    have hsub : (floodStep g ok)^[T.card] s₀ ⊆ (floodStep g ok)^[T.card + 1] s₀ := by
      rw [Function.iterate_succ_apply']
      exact floodStep_subset g ok _
    have hlt : ((floodStep g ok)^[T.card] s₀).card <
        ((floodStep g ok)^[T.card + 1] s₀).card :=
      Finset.card_lt_card (Finset.ssubset_iff_subset_ne.mpr ⟨hsub, (Ne.symm hne)⟩)
    have := hgrow T.card le_rfl
    omega
  have h2 : ((floodStep g ok)^[T.card + 1] s₀).card ≤ T.card :=
    Finset.card_le_card (flood_iter_subset_all g ok hok seeds (T.card + 1))
  omega

theorem card_allCells (g : Grid) : g.allCells.card = g.cols * g.rows := by
  unfold Grid.allCells
  rw [Finset.card_product, Int.card_Icc, Int.card_Icc]
  have h1 : (g.cols : ℤ) - 1 + 1 - 0 = (g.cols : ℤ) := by ring
  have h2 : (g.rows : ℤ) - 1 + 1 - 0 = (g.rows : ℤ) := by ring
  rw [h1, h2, Int.toNat_natCast, Int.toNat_natCast]

/-- `flood` is a fixed point of `floodStep`. -/
theorem flood_fix (g : Grid) (ok : Cell → Bool)
    (hok : ∀ c : Cell, ok c = true → g.in_bounds c.1 c.2) (seeds : Finset Cell) :
    floodStep g ok (flood g ok seeds) = flood g ok seeds := by
  obtain ⟨k, hk, hfix⟩ := flood_exists_fix g ok hok seeds
  have hkN : k ≤ g.cols * g.rows := by
    have := Finset.card_le_card
      (Finset.filter_subset (fun c => ok c = true) g.allCells)
    have := card_allCells g
    omega
  unfold flood
  have h1 := flood_iter_fix_propagate g ok (seeds.filter (fun c => ok c = true)) k hfix
    (g.cols * g.rows - k)
  have h2 := flood_iter_fix_propagate g ok (seeds.filter (fun c => ok c = true)) k hfix
    (g.cols * g.rows - k + 1)
  have e1 : k + (g.cols * g.rows - k) = g.cols * g.rows := by omega
  have e2 : k + (g.cols * g.rows - k + 1) = g.cols * g.rows + 1 := by omega
  rw [e1] at h1
  rw [e2] at h2
  rw [Function.iterate_succ_apply'] at h2
  rw [h1]
  rw [Function.iterate_succ_apply'] at hfix
  rw [h1] at h2
  exact h2

/-- Soundness: every cell produced by the flood fill is reachable from an
`ok` seed through `ok` cells. -/
theorem flood_sound (g : Grid) (ok : Cell → Bool) (seeds : Finset Cell) :
    ∀ c ∈ flood g ok seeds, ∃ a ∈ seeds, ok a = true ∧ ReachThrough g ok a c := by
  unfold flood
  generalize g.cols * g.rows = N
  induction N with
  | zero =>
      intro c hc
      simp only [Function.iterate_zero, id] at hc
      exact ⟨c, (Finset.mem_filter.mp hc).1, (Finset.mem_filter.mp hc).2,
        Relation.ReflTransGen.refl⟩
  | succ n ih =>
      intro c hc
      rw [Function.iterate_succ_apply'] at hc
      rcases Finset.mem_union.mp hc with h | h
      · exact ih c h
      · obtain ⟨-, hokc, d, hd, hnb⟩ := Finset.mem_filter.mp h
        obtain ⟨a, ha, hoka, hreach⟩ := ih d hd
        exact ⟨a, ha, hoka, hreach.tail ⟨hnb, hokc⟩⟩

/-- Completeness: every cell reachable from an `ok` seed through `ok` cells is
produced by the flood fill. -/
theorem flood_complete (g : Grid) (ok : Cell → Bool)
    (hok : ∀ c : Cell, ok c = true → g.in_bounds c.1 c.2) (seeds : Finset Cell)
    (a c : Cell) (ha : a ∈ seeds) (hoka : ok a = true)
    (hreach : ReachThrough g ok a c) : c ∈ flood g ok seeds := by
  induction hreach with
  | refl =>
      exact flood_iter_mono g ok _ _ (Finset.mem_filter.mpr ⟨ha, hoka⟩)
  | tail hstep hedge ih =>
      rename_i b c'
      rw [← flood_fix g ok hok seeds]
      apply Finset.mem_union_right
      refine Finset.mem_filter.mpr ⟨Grid.mem_allCells.mpr (hok _ hedge.2), hedge.2, b, ih, hedge.1⟩

/-- The flood fill computes exactly the reachability closure. -/
theorem flood_spec (g : Grid) (ok : Cell → Bool)
    (hok : ∀ c : Cell, ok c = true → g.in_bounds c.1 c.2) (seeds : Finset Cell)
    (c : Cell) :
    c ∈ flood g ok seeds ↔ ∃ a ∈ seeds, ok a = true ∧ ReachThrough g ok a c := by
  constructor
  · exact flood_sound g ok seeds c
  · rintro ⟨a, ha, hoka, hreach⟩
    exact flood_complete g ok hok seeds a c ha hoka hreach

theorem is_alive_in_bounds {g : Grid} {x y : ℤ} (h : g.is_alive x y = true) :
    g.in_bounds x y := by
  have := (Bool.and_eq_true _ _).mp h
  exact of_decide_eq_true this.1

theorem is_empty_in_bounds {g : Grid} {x y : ℤ} (h : g.is_empty x y = true) :
    g.in_bounds x y := by
  have := (Bool.and_eq_true _ _).mp h
  exact of_decide_eq_true this.1

/-- `Grid.get_component` (source lines 1048–1064): the 4-connected alive
component of a seed, empty if the seed is not alive. -/
def Grid.get_component (g : Grid) (sx sy : ℤ) : Finset Cell :=
  if g.is_alive sx sy then flood g (fun c => g.is_alive c.1 c.2) {(sx, sy)} else ∅

/-- Membership in the alive component is reachability from the (alive) seed
through alive cells. -/
theorem get_component_spec (g : Grid) (sx sy : ℤ) (c : Cell) :
    c ∈ g.get_component sx sy ↔
      g.is_alive sx sy = true ∧
        ReachThrough g (fun d => g.is_alive d.1 d.2) (sx, sy) c := by
  unfold Grid.get_component
  by_cases h : g.is_alive sx sy = true
  · rw [if_pos h]
    rw [flood_spec g _ (fun d hd => is_alive_in_bounds hd) {(sx, sy)} c]
    constructor
    · rintro ⟨a, ha, -, hreach⟩
      rw [Finset.mem_singleton] at ha
      subst ha
      exact ⟨h, hreach⟩
    · rintro ⟨-, hreach⟩
      exact ⟨(sx, sy), Finset.mem_singleton_self _, h, hreach⟩
  · rw [if_neg h]
    simp only [Finset.not_mem_empty, false_iff, not_and]
    intro hc
    exact absurd hc h

/-- A cell on the edge of the grid (the `is_edge` test of
`_get_outside_cells`). -/
def Grid.onBorder (g : Grid) (c : Cell) : Prop :=
  c.1 = 0 ∨ c.1 = (g.cols : ℤ) - 1 ∨ c.2 = 0 ∨ c.2 = (g.rows : ℤ) - 1

instance (g : Grid) (c : Cell) : Decidable (g.onBorder c) := by
  unfold Grid.onBorder; infer_instance

/-- The seed set of `_get_outside_cells`: all empty edge cells. -/
def borderSeeds (g : Grid) : Finset Cell :=
  g.allCells.filter fun c => g.onBorder c ∧ g.is_empty c.1 c.2 = true

/-- `GrowthEngine._get_outside_cells` (source lines 1546–1585), without the
content-hash cache (the cache only avoids recomputation): flood fill through
empty cells seeded at every empty edge cell. -/
def get_outside_cells (g : Grid) : Finset Cell :=
  flood g (fun c => g.is_empty c.1 c.2) (borderSeeds g)

theorem get_outside_cells_spec (g : Grid) (c : Cell) :
    c ∈ get_outside_cells g ↔
      ∃ a : Cell, g.onBorder a ∧ g.is_empty a.1 a.2 = true ∧
        ReachThrough g (fun d => g.is_empty d.1 d.2) a c := by
  unfold get_outside_cells
  rw [flood_spec g _ (fun d hd => is_empty_in_bounds hd) (borderSeeds g) c]
  constructor
  · rintro ⟨a, ha, hemp, hreach⟩
    obtain ⟨-, hb, -⟩ := Finset.mem_filter.mp ha
    exact ⟨a, hb, hemp, hreach⟩
  · rintro ⟨a, hb, hemp, hreach⟩
    refine ⟨a, Finset.mem_filter.mpr ⟨Grid.mem_allCells.mpr (is_empty_in_bounds hemp), hb, hemp⟩,
      hemp, hreach⟩

/-- Every cell the outside flood fill returns is empty. -/
theorem get_outside_cells_empty (g : Grid) {c : Cell}
    (h : c ∈ get_outside_cells g) : g.is_empty c.1 c.2 = true :=
  flood_iter_ok g _ (borderSeeds g) (g.cols * g.rows) c h

/-- The hollow-square test grid of the spec: a 3×3 ring of alive cells inside
a 5×5 grid, one enclosed empty interior cell `(2,2)`, empty exterior. -/
def hollowSquare : Grid :=
  ⟨5, 5,
   [[false, false, false, false, false],
    [false, true,  true,  true,  false],
    [false, true,  false, true,  false],
    [false, true,  true,  true,  false],
    [false, false, false, false, false]]⟩

set_option maxRecDepth 40000

/-- On the hollow square, the outside flood fill returns exactly the sixteen
(empty) edge cells. -/
theorem hollowSquare_outside_eval :
    get_outside_cells hollowSquare = borderSeeds hollowSquare := by decide

/-- **C3.** `_get_outside_cells` returns exactly the set of empty cells that
are 4-reachable from some empty border cell through empty cells only; on the
hollow-square grid the enclosed interior cell `(2,2)` is not in the returned
set, while every empty border cell is. -/
theorem C3_get_outside_cells_exact :
    (∀ (g : Grid) (c : Cell),
        c ∈ get_outside_cells g ↔
          (g.is_empty c.1 c.2 = true ∧
            ∃ a : Cell, g.onBorder a ∧ g.is_empty a.1 a.2 = true ∧
              ReachThrough g (fun d => g.is_empty d.1 d.2) a c)) ∧
      (((2 : ℤ), (2 : ℤ)) ∉ get_outside_cells hollowSquare) ∧
      (∀ c : Cell, hollowSquare.in_bounds c.1 c.2 → hollowSquare.onBorder c →
        hollowSquare.is_empty c.1 c.2 = true ∧ c ∈ get_outside_cells hollowSquare) := by
  refine ⟨?_, ?_, ?_⟩
  · intro g c
    constructor
    · intro h
      exact ⟨get_outside_cells_empty g h, (get_outside_cells_spec g c).mp h⟩
    · rintro ⟨-, h⟩
      exact (get_outside_cells_spec g c).mpr h
  · rw [hollowSquare_outside_eval]
    decide
  · intro c hin hb
    have hall : ∀ c ∈ hollowSquare.allCells, hollowSquare.onBorder c →
        hollowSquare.is_empty c.1 c.2 = true ∧ c ∈ borderSeeds hollowSquare := by
      decide
    obtain ⟨h1, h2⟩ := hall c (Grid.mem_allCells.mpr hin) hb
    refine ⟨h1, ?_⟩
    rw [hollowSquare_outside_eval]
    exact h2

/-- Witness for C3: the empty border cell `(0,4)` of the hollow square is
classified as true-outside. -/
theorem C3_witness :
    hollowSquare.is_empty 0 4 = true ∧
      ((0 : ℤ), (4 : ℤ)) ∈ get_outside_cells hollowSquare :=
  C3_get_outside_cells_exact.2.2 (0, 4) (by decide) (by decide)

/-! ## Basic grid lemmas -/

theorem is_alive_iff {g : Grid} {x y : ℤ} :
    g.is_alive x y = true ↔ g.in_bounds x y ∧ g.get x y = true := by
  unfold Grid.is_alive
  rw [Bool.and_eq_true, decide_eq_true_iff]

theorem is_empty_iff {g : Grid} {x y : ℤ} :
    g.is_empty x y = true ↔ g.in_bounds x y ∧ g.get x y = false := by
  unfold Grid.is_empty
  rw [Bool.and_eq_true, decide_eq_true_iff, Bool.not_eq_true']

theorem is_empty_of_not_alive {g : Grid} {x y : ℤ} (hb : g.in_bounds x y)
    (h : g.is_alive x y = false) : g.is_empty x y = true := by
  rw [is_empty_iff]
  refine ⟨hb, ?_⟩
  by_contra hget
  rw [Bool.not_eq_false] at hget
  rw [is_alive_iff.mpr ⟨hb, hget⟩] at h
  exact Bool.true_eq_false.mp h

theorem mem_neighbors_4 {g : Grid} {x y : ℤ} {c : Cell} :
    c ∈ g.neighbors_4 x y ↔
      g.in_bounds c.1 c.2 ∧
        (c = (x + 1, y) ∨ c = (x - 1, y) ∨ c = (x, y + 1) ∨ c = (x, y - 1)) := by
  unfold Grid.neighbors_4
  rw [List.mem_filterMap]
  constructor
  · rintro ⟨d, hd, hfd⟩
    have hc : g.in_bounds (x + d.1) (y + d.2) ∧ c = (x + d.1, y + d.2) := by
      by_cases hbb : g.in_bounds (x + d.1) (y + d.2)
      · rw [if_pos hbb] at hfd
        exact ⟨hbb, (Option.some_inj.mp hfd).symm⟩
      · rw [if_neg hbb] at hfd
        cases hfd
    obtain ⟨hbb, rfl⟩ := hc
    refine ⟨hbb, ?_⟩
    unfold Grid.offsets4 at hd
    simp only [List.mem_cons, List.not_mem_nil, or_false] at hd
    rcases hd with h | h | h | h <;> subst h <;> simp only [Prod.mk.injEq] <;> norm_num <;> omega
  · rintro ⟨hb, h⟩
    rcases h with h | h | h | h <;> subst h
    · exact ⟨(1, 0), by simp [Grid.offsets4], by simp only [add_zero]; simp [hb]⟩
    · refine ⟨(-1, 0), by simp [Grid.offsets4], ?_⟩
      have hx : x + (-1 : ℤ) = x - 1 := by ring
      simp only [add_zero, hx]
      simp [hb]
    · exact ⟨(0, 1), by simp [Grid.offsets4], by simp only [add_zero]; simp [hb]⟩
    · refine ⟨(0, -1), by simp [Grid.offsets4], ?_⟩
      have hy : y + (-1 : ℤ) = y - 1 := by ring
      simp only [add_zero, hy]
      simp [hb]

/-- Seeds are contained in their flood closure. -/
theorem borderSeeds_subset_outside (g : Grid) : borderSeeds g ⊆ get_outside_cells g := by
  intro c hc
  obtain ⟨-, hb, hemp⟩ := Finset.mem_filter.mp hc
  exact (get_outside_cells_spec g c).mpr ⟨c, hb, hemp, Relation.ReflTransGen.refl⟩

/-- The outside set is closed under adding empty neighbours. -/
theorem outside_closed {g : Grid} {d c : Cell} (hd : d ∈ get_outside_cells g)
    (hnb : c ∈ g.neighbors_4 d.1 d.2) (hemp : g.is_empty c.1 c.2 = true) :
    c ∈ get_outside_cells g := by
  unfold get_outside_cells at *
  rw [← flood_fix g _ (fun d hd => is_empty_in_bounds hd) (borderSeeds g)]
  apply Finset.mem_union_right
  exact Finset.mem_filter.mpr
    ⟨Grid.mem_allCells.mpr (is_empty_in_bounds hemp), hemp, d, hd, hnb⟩

/-! ## VerticalHolesTracker and hole synchronisation (source lines 1088–1116,
2594–2623)

`VerticalHolesTracker` is a growing set of positions; `add_permanent_empty`
inserts, `is_permanent_empty` is membership.  We represent the tracker state
as a `Finset Cell`. -/

/-- Horizontal/vertical extremes of a nonempty alive-cell list (the four
`min`/`max` generator expressions of `sync_holes_from_previous_layer`). -/
def listMinInt (l : List ℤ) : ℤ := l.foldl min (l.headD 0)

def listMaxInt (l : List ℤ) : ℤ := l.foldl max (l.headD 0)

theorem foldl_min_le_init (l : List ℤ) : ∀ d : ℤ, l.foldl min d ≤ d := by
  induction l with
  | nil => intro d; exact le_rfl
  | cons b l ih => intro d; exact le_trans (ih (min d b)) (min_le_left _ _)

theorem le_foldl_max_init (l : List ℤ) : ∀ d : ℤ, d ≤ l.foldl max d := by
  induction l with
  | nil => intro d; exact le_rfl
  | cons b l ih => intro d; exact le_trans (le_max_left _ _) (ih (max d b))

theorem foldl_min_le (l : List ℤ) (d : ℤ) : ∀ x ∈ l, l.foldl min d ≤ x := by
  induction l generalizing d with
  | nil => intro x hx; cases hx
  | cons a l ih =>
      intro x hx
      rcases List.mem_cons.mp hx with h | h
      · subst h
        exact le_trans (foldl_min_le_init l (min d x)) (min_le_right _ _)
      · exact ih (min d a) x h

theorem le_foldl_max (l : List ℤ) (d : ℤ) : ∀ x ∈ l, x ≤ l.foldl max d := by
  induction l generalizing d with
  | nil => intro x hx; cases hx
  | cons a l ih =>
      intro x hx
      rcases List.mem_cons.mp hx with h | h
      · subst h
        exact le_trans (le_max_right d x) (le_foldl_max_init l (max d x))
      · exact ih (max d a) x h

theorem listMinInt_le (l : List ℤ) : ∀ x ∈ l, listMinInt l ≤ x :=
  foldl_min_le l _

theorem le_listMaxInt (l : List ℤ) : ∀ x ∈ l, x ≤ listMaxInt l :=
  le_foldl_max l _

/-- `GrowthEngine.sync_holes_from_previous_layer` (source lines 2594–2623):
if the grid has alive cells, scan the bounding box of the alive cells and mark
every non-alive cell that is not reachable from the outside as a permanent
hole in the tracker. -/
def sync_holes_from_previous_layer (g : Grid) (tracker : Finset Cell) : Finset Cell :=
  if (g.get_all_alive_cells).isEmpty then tracker
  else
    tracker ∪
      ((Finset.Icc (listMinInt ((g.get_all_alive_cells).map Prod.fst))
                   (listMaxInt ((g.get_all_alive_cells).map Prod.fst)) ×ˢ
        Finset.Icc (listMinInt ((g.get_all_alive_cells).map Prod.snd))
                   (listMaxInt ((g.get_all_alive_cells).map Prod.snd))).filter
        (fun c => g.is_alive c.1 c.2 = false ∧ c ∉ get_outside_cells g))

theorem is_alive_eq_false_of_is_empty {g : Grid} {x y : ℤ}
    (h : g.is_empty x y = true) : g.is_alive x y = false := by
  obtain ⟨hb, hget⟩ := is_empty_iff.mp h
  unfold Grid.is_alive
  rw [hget]
  exact Bool.and_false _

theorem mem_get_all_alive_cells {g : Grid} {c : Cell} :
    c ∈ g.get_all_alive_cells ↔ g.is_alive c.1 c.2 = true := by
  unfold Grid.get_all_alive_cells
  rw [List.mem_flatMap]
  constructor
  · rintro ⟨y', hy', hx⟩
    rw [List.mem_filterMap] at hx
    obtain ⟨x', hx', hfx⟩ := hx
    rw [List.mem_range] at hy' hx'
    by_cases hcell : (g.cells.getD y' []).getD x' false = true
    · rw [if_pos hcell] at hfx
      obtain rfl := Option.some_inj.mp hfx
      have hb : g.in_bounds (x' : ℤ) (y' : ℤ) := by
        unfold Grid.in_bounds; omega
      rw [is_alive_iff]
      refine ⟨hb, ?_⟩
      unfold Grid.get
      rw [if_pos hb, Int.toNat_natCast, Int.toNat_natCast]
      exact hcell
    · rw [if_neg hcell] at hfx
      cases hfx
  · intro h
    obtain ⟨hb, hget⟩ := is_alive_iff.mp h
    obtain ⟨h0x, hxc, h0y, hyr⟩ := hb
    refine ⟨c.2.toNat, List.mem_range.mpr (by omega), ?_⟩
    rw [List.mem_filterMap]
    refine ⟨c.1.toNat, List.mem_range.mpr (by omega), ?_⟩
    unfold Grid.get at hget
    rw [if_pos ⟨h0x, hxc, h0y, hyr⟩] at hget
    rw [if_pos hget]
    rw [Int.toNat_of_nonneg h0x, Int.toNat_of_nonneg h0y]

theorem is_alive_mem_allAlive {g : Grid} {x y : ℤ} (h : g.is_alive x y = true) :
    ((x, y) : Cell) ∈ g.get_all_alive_cells :=
  mem_get_all_alive_cells.mpr h

/-! ### Escaping the bounding box

A cell outside the bounding box of the alive cells can walk straight to the
grid edge through non-alive cells, so it is always a true-outside cell.  These
four lemmas justify that `sync_holes_from_previous_layer` loses nothing by
scanning only the bounding box. -/

theorem ray_to_outside_left (g : Grid) (x y : ℤ) (hb : g.in_bounds x y)
    (hne : ∀ x' : ℤ, 0 ≤ x' → x' ≤ x → g.is_alive x' y = false) :
    ((x, y) : Cell) ∈ get_outside_cells g := by
  obtain ⟨h0x, hxc, h0y, hyr⟩ := hb
  have aux : ∀ n : ℕ, (n : ℤ) ≤ x → (((n : ℤ), y) : Cell) ∈ get_outside_cells g := by
    intro n
    induction n with
    | zero =>
        intro hn
        apply borderSeeds_subset_outside
        refine Finset.mem_filter.mpr ⟨Grid.mem_allCells.mpr ?_, Or.inl rfl, ?_⟩
        · unfold Grid.in_bounds; constructor; omega; omega
        · exact is_empty_of_not_alive (by unfold Grid.in_bounds; omega)
            (hne 0 le_rfl (by omega))
    | succ n ih =>
        intro hn
        have hprev := ih (by push_cast at hn ⊢; omega)
        apply outside_closed hprev
        · rw [mem_neighbors_4]
          refine ⟨?_, Or.inl ?_⟩
          · show g.in_bounds ((n : ℕ) + 1 : ℕ) y
            unfold Grid.in_bounds
            push_cast
            push_cast at hn
            omega
          · show (((n + 1 : ℕ) : ℤ), y) = ((n : ℤ) + 1, y)
            push_cast
            rfl
        · apply is_empty_of_not_alive
          · unfold Grid.in_bounds
            push_cast at hn ⊢
            omega
          · exact hne _ (by positivity) (by push_cast at hn ⊢; omega)
  have := aux x.toNat (by rw [Int.toNat_of_nonneg h0x])
  rw [Int.toNat_of_nonneg h0x] at this
  exact this

theorem ray_to_outside_right (g : Grid) (x y : ℤ) (hb : g.in_bounds x y)
    (hne : ∀ x' : ℤ, x ≤ x' → x' < (g.cols : ℤ) → g.is_alive x' y = false) :
    ((x, y) : Cell) ∈ get_outside_cells g := by
  obtain ⟨h0x, hxc, h0y, hyr⟩ := hb
  have aux : ∀ n : ℕ, x ≤ (g.cols : ℤ) - 1 - n →
      ((((g.cols : ℤ) - 1 - n), y) : Cell) ∈ get_outside_cells g := by
    intro n
    induction n with
    | zero =>
        intro hn
        push_cast at hn
        apply borderSeeds_subset_outside
        refine Finset.mem_filter.mpr ⟨Grid.mem_allCells.mpr ?_, ?_, ?_⟩
        · dsimp only
          unfold Grid.in_bounds
          push_cast
          omega
        · refine Or.inr (Or.inl ?_)
          dsimp only
          push_cast
          ring
        · refine is_empty_of_not_alive ?_ (hne _ (by dsimp only; push_cast; omega)
            (by dsimp only; push_cast; omega))
          dsimp only
          unfold Grid.in_bounds
          push_cast
          omega
    | succ n ih =>
        intro hn
        push_cast at hn
        have hprev := ih (by omega)
        apply outside_closed hprev
        · rw [mem_neighbors_4]
          constructor
          · dsimp only
            unfold Grid.in_bounds
            push_cast
            omega
          · refine Or.inr (Or.inl ?_)
            dsimp only
            rw [Prod.mk.injEq]
            constructor
            · push_cast
              ring
            · rfl
        · refine is_empty_of_not_alive ?_ (hne _ (by dsimp only; push_cast; omega)
            (by dsimp only; push_cast; omega))
          dsimp only
          unfold Grid.in_bounds
          push_cast
          omega
  have hkey := aux ((g.cols : ℤ) - 1 - x).toNat
  rw [Int.toNat_of_nonneg (by omega)] at hkey
  have := hkey (by omega)
  have heq : (g.cols : ℤ) - 1 - ((g.cols : ℤ) - 1 - x) = x := by ring
  rw [heq] at this
  exact this

theorem ray_to_outside_up (g : Grid) (x y : ℤ) (hb : g.in_bounds x y)
    (hne : ∀ y' : ℤ, 0 ≤ y' → y' ≤ y → g.is_alive x y' = false) :
    ((x, y) : Cell) ∈ get_outside_cells g := by
  obtain ⟨h0x, hxc, h0y, hyr⟩ := hb
  have aux : ∀ n : ℕ, (n : ℤ) ≤ y → ((x, (n : ℤ)) : Cell) ∈ get_outside_cells g := by
    intro n
    induction n with
    | zero =>
        intro hn
        apply borderSeeds_subset_outside
        refine Finset.mem_filter.mpr ⟨Grid.mem_allCells.mpr ?_,
          Or.inr (Or.inr (Or.inl rfl)), ?_⟩
        · unfold Grid.in_bounds; constructor; omega; omega
        · exact is_empty_of_not_alive (by unfold Grid.in_bounds; omega)
            (hne 0 le_rfl (by omega))
    | succ n ih =>
        intro hn
        have hprev := ih (by push_cast at hn ⊢; omega)
        apply outside_closed hprev
        · rw [mem_neighbors_4]
          refine ⟨?_, Or.inr (Or.inr (Or.inl ?_))⟩
          · show g.in_bounds x ((n : ℕ) + 1 : ℕ)
            unfold Grid.in_bounds
            push_cast
            push_cast at hn
            omega
          · show (x, ((n + 1 : ℕ) : ℤ)) = (x, (n : ℤ) + 1)
            push_cast
            rfl
        · apply is_empty_of_not_alive
          · unfold Grid.in_bounds
            push_cast at hn ⊢
            omega
          · exact hne _ (by positivity) (by push_cast at hn ⊢; omega)
  have := aux y.toNat (by rw [Int.toNat_of_nonneg h0y])
  rw [Int.toNat_of_nonneg h0y] at this
  exact this

theorem ray_to_outside_down (g : Grid) (x y : ℤ) (hb : g.in_bounds x y)
    (hne : ∀ y' : ℤ, y ≤ y' → y' < (g.rows : ℤ) → g.is_alive x y' = false) :
    ((x, y) : Cell) ∈ get_outside_cells g := by
  obtain ⟨h0x, hxc, h0y, hyr⟩ := hb
  have aux : ∀ n : ℕ, y ≤ (g.rows : ℤ) - 1 - n →
      ((x, ((g.rows : ℤ) - 1 - n)) : Cell) ∈ get_outside_cells g := by
    intro n
    induction n with
    | zero =>
        intro hn
        push_cast at hn
        apply borderSeeds_subset_outside
        refine Finset.mem_filter.mpr ⟨Grid.mem_allCells.mpr ?_, ?_, ?_⟩
        · dsimp only
          unfold Grid.in_bounds
          push_cast
          omega
        · refine Or.inr (Or.inr (Or.inr ?_))
          dsimp only
          push_cast
          ring
        · refine is_empty_of_not_alive ?_ (hne _ (by dsimp only; push_cast; omega)
            (by dsimp only; push_cast; omega))
          dsimp only
          unfold Grid.in_bounds
          push_cast
          omega
    | succ n ih =>
        intro hn
        push_cast at hn
        have hprev := ih (by omega)
        apply outside_closed hprev
        · rw [mem_neighbors_4]
          constructor
          · dsimp only
            unfold Grid.in_bounds
            push_cast
            omega
          · refine Or.inr (Or.inr (Or.inr ?_))
            dsimp only
            rw [Prod.mk.injEq]
            constructor
            · rfl
            · push_cast
              ring
        · refine is_empty_of_not_alive ?_ (hne _ (by dsimp only; push_cast; omega)
            (by dsimp only; push_cast; omega))
          dsimp only
          unfold Grid.in_bounds
          push_cast
          omega
  have hkey := aux ((g.rows : ℤ) - 1 - y).toNat
  rw [Int.toNat_of_nonneg (by omega)] at hkey
  have := hkey (by omega)
  have heq : (g.rows : ℤ) - 1 - ((g.rows : ℤ) - 1 - y) = y := by ring
  rw [heq] at this
  exact this

/-- **C2.** After `sync_holes_from_previous_layer` runs on a grid with at
least one alive cell, every in-bounds empty cell that is not a true-outside
cell is in the tracker's permanent-empty set, although the code only scans
the bounding box of the alive cells: any empty cell outside that bounding box
can reach the grid edge in a straight line through empty cells, so it is
always true-outside. -/
theorem C2_sync_holes_marks_all_interior (g : Grid) (tracker : Finset Cell)
    (c : Cell) (halive : g.get_all_alive_cells ≠ [])
    (hemp : g.is_empty c.1 c.2 = true) (hout : c ∉ get_outside_cells g) :
    c ∈ sync_holes_from_previous_layer g tracker := by
  unfold sync_holes_from_previous_layer
  rw [if_neg (by simpa [List.isEmpty_iff] using halive)]
  apply Finset.mem_union_right
  have hna := is_alive_eq_false_of_is_empty hemp
  have hb : g.in_bounds c.1 c.2 := is_empty_in_bounds hemp
  refine Finset.mem_filter.mpr ⟨?_, hna, hout⟩
  rw [Finset.mem_product, Finset.mem_Icc, Finset.mem_Icc]
  obtain ⟨h0x, hxc, h0y, hyr⟩ := hb
  have hmkc : ((c.1, c.2) : Cell) = c := rfl
  refine ⟨⟨?_, ?_⟩, ?_, ?_⟩
  · by_contra hlt
    push_neg at hlt
    refine hout ?_
    rw [← hmkc]
    apply ray_to_outside_left g c.1 c.2 ⟨h0x, hxc, h0y, hyr⟩
    intro x' h0 hxle
    by_contra hal
    rw [Bool.not_eq_false] at hal
    have hm : x' ∈ (g.get_all_alive_cells).map Prod.fst :=
      List.mem_map.mpr ⟨(x', c.2), is_alive_mem_allAlive hal, rfl⟩
    have := listMinInt_le _ x' hm
    omega
  · by_contra hlt
    push_neg at hlt
    refine hout ?_
    rw [← hmkc]
    apply ray_to_outside_right g c.1 c.2 ⟨h0x, hxc, h0y, hyr⟩
    intro x' hxle hcols
    by_contra hal
    rw [Bool.not_eq_false] at hal
    have hm : x' ∈ (g.get_all_alive_cells).map Prod.fst :=
      List.mem_map.mpr ⟨(x', c.2), is_alive_mem_allAlive hal, rfl⟩
    have := le_listMaxInt _ x' hm
    omega
  · by_contra hlt
    push_neg at hlt
    refine hout ?_
    rw [← hmkc]
    apply ray_to_outside_up g c.1 c.2 ⟨h0x, hxc, h0y, hyr⟩
    intro y' h0 hyle
    by_contra hal
    rw [Bool.not_eq_false] at hal
    have hm : y' ∈ (g.get_all_alive_cells).map Prod.snd :=
      List.mem_map.mpr ⟨(c.1, y'), is_alive_mem_allAlive hal, rfl⟩
    have := listMinInt_le _ y' hm
    omega
  · by_contra hlt
    push_neg at hlt
    refine hout ?_
    rw [← hmkc]
    apply ray_to_outside_down g c.1 c.2 ⟨h0x, hxc, h0y, hyr⟩
    intro y' hyle hrows
    by_contra hal
    rw [Bool.not_eq_false] at hal
    have hm : y' ∈ (g.get_all_alive_cells).map Prod.snd :=
      List.mem_map.mpr ⟨(c.1, y'), is_alive_mem_allAlive hal, rfl⟩
    have := le_listMaxInt _ y' hm
    omega

/-- Witness for C2: the enclosed interior cell `(2,2)` of the hollow square
is recorded as a permanent hole. -/
theorem C2_witness :
    hollowSquare.get_all_alive_cells ≠ [] ∧
      hollowSquare.is_empty 2 2 = true ∧
      ((2 : ℤ), (2 : ℤ)) ∉ get_outside_cells hollowSquare ∧
      ((2 : ℤ), (2 : ℤ)) ∈ sync_holes_from_previous_layer hollowSquare ∅ := by
  have h1 : hollowSquare.get_all_alive_cells ≠ [] := by decide
  have h2 : hollowSquare.is_empty 2 2 = true := by decide
  have h3 : ((2 : ℤ), (2 : ℤ)) ∉ get_outside_cells hollowSquare := by
    rw [hollowSquare_outside_eval]
    decide
  exact ⟨h1, h2, h3,
    C2_sync_holes_marks_all_interior hollowSquare ∅ (2, 2) h1 h2 h3⟩

/-! ## Configuration and function presets (source `Config`, lines 829–977)

Only the constants actually read by the embedded growth code are modelled.
Values that only feed real-valued scoring are `ℝ`; values the code branches
on are `ℕ`/`ℤ`/`ℚ` (the Python floats involved, e.g. `0.3 < 0.1`, are exact
decimal constants, so rational comparison agrees with float comparison). -/

structure Config where
  MIN_WIDTH : ℕ
  PREFERRED_WIDTH : ℕ
  WIDTH_SCORE_BONUS : ℚ
  MAX_LINE : ℕ
  MIN_BRANCH_END_WIDTH : ℕ
  MIN_CELLS_FOR_WIDTH_CHECK : ℕ
  MAX_THIN_FINGER_LENGTH : ℕ
  BALANCE_BONUS_WEIGHT : ℚ
  GROW_PER_GEN_LAYER : List ℕ
  MIN_CELLS_LAYER : List ℕ
  MAX_CELLS_LAYER : List ℕ
  WEIGHT_GROWTHPOINT : ℝ
  WEIGHT_CONNECTED : ℝ
  WEIGHT_SMOOTHNESS : ℝ
  WEIGHT_CONVEXITY : ℝ
  WEIGHT_LIGHT : ℝ
  WEIGHT_OBSTACLE : ℝ
  HARD_BLOCKADE_THRESHOLD : ℝ
  NEGATIVE_SCORE_WEIGHT : ℝ
  STRONGLY_NEGATIVE_THRESHOLD : ℝ
  LAYER_INHERITANCE : ℝ
  LAYER_GROWTH_FREEDOM : ℚ
  LAYER_SUPPORT_BONUS : ℝ
  LAYER_OVERHANG_PENALTY : ℝ
  STRICT_SUPPORT_THRESHOLD : ℚ
  LIGHT_DISTANCE : String → Option ℤ
  DEFAULT_LIGHT_DISTANCE : ℤ
  EDGE_DISTANCE_THRESHOLD : ℕ
  EDGE_BONUS_SCORE : ℝ
  MAX_GROW_ATTEMPTS : ℕ
  FRONTIER_RADIUS : ℤ
  SUN_DIRECTION : ℝ × ℝ × ℝ
  CELL_SIZE : ℝ
  DEFAULT_PRESET : String

/-- One entry of `Config.FUNCTION_PRESETS`: a partial override bundle; a
`none` field means the key is absent from the Python dict. -/
structure Preset where
  LIGHT_DISTANCE : Option ℤ := none
  PREFERRED_WIDTH : Option ℕ := none
  MIN_WIDTH : Option ℕ := none
  EDGE_BONUS_SCORE : Option ℝ := none
  WEIGHT_SMOOTHNESS : Option ℝ := none
  WEIGHT_CONVEXITY : Option ℝ := none
  MAX_THIN_FINGER_LENGTH : Option ℕ := none
  WIDTH_SCORE_BONUS : Option ℚ := none
  BALANCE_BONUS_WEIGHT : Option ℚ := none
  WEIGHT_CONNECTED : Option ℝ := none
  MIN_BRANCH_END_WIDTH : Option ℕ := none
  MIN_CELLS_FOR_WIDTH_CHECK : Option ℕ := none
  MAX_LINE : Option ℕ := none
  EDGE_DISTANCE_THRESHOLD : Option ℕ := none

/-- The `"Living"` preset (source lines 921–933). -/
def livingPreset : Preset :=
  { LIGHT_DISTANCE := some 5
    PREFERRED_WIDTH := some 5
    MIN_WIDTH := some 2
    EDGE_BONUS_SCORE := some 2
    WEIGHT_SMOOTHNESS := some 2
    WEIGHT_CONVEXITY := some 1.5
    MAX_THIN_FINGER_LENGTH := some 2
    WIDTH_SCORE_BONUS := some 5
    BALANCE_BONUS_WEIGHT := some 0.5
    WEIGHT_CONNECTED := some 3
    MIN_BRANCH_END_WIDTH := some 2 }

/-- The `"Work"` preset (source lines 940–952). -/
def workPreset : Preset :=
  { LIGHT_DISTANCE := some 8
    PREFERRED_WIDTH := some 8
    MIN_WIDTH := some 2
    EDGE_BONUS_SCORE := some 0.5
    WEIGHT_SMOOTHNESS := some 3
    WEIGHT_CONVEXITY := some 2.5
    MAX_THIN_FINGER_LENGTH := some 1
    WIDTH_SCORE_BONUS := some 8
    BALANCE_BONUS_WEIGHT := some 0.6
    WEIGHT_CONNECTED := some 6
    MIN_BRANCH_END_WIDTH := some 3 }

/-- The `"Industry"` preset (source lines 959–973). -/
def industryPreset : Preset :=
  { LIGHT_DISTANCE := some 100
    PREFERRED_WIDTH := some 25
    MIN_WIDTH := some 1
    EDGE_BONUS_SCORE := some (-1)
    WEIGHT_SMOOTHNESS := some 6
    WEIGHT_CONVEXITY := some 4
    MAX_THIN_FINGER_LENGTH := some 2
    WIDTH_SCORE_BONUS := some 15
    BALANCE_BONUS_WEIGHT := some 0.8
    WEIGHT_CONNECTED := some 12
    MIN_BRANCH_END_WIDTH := some 2
    MIN_CELLS_FOR_WIDTH_CHECK := some 50
    MAX_LINE := some 100 }

/-- `Config.FUNCTION_PRESETS` as a lookup function. -/
def functionPresets : String → Option Preset := fun f =>
  if f = "Living" then some livingPreset
  else if f = "Work" then some workPreset
  else if f = "Industry" then some industryPreset
  else none

/-- The shipped configuration values (source lines 829–977). -/
def shippedConfig : Config :=
  { MIN_WIDTH := 1
    PREFERRED_WIDTH := 4
    WIDTH_SCORE_BONUS := 5
    MAX_LINE := 4
    MIN_BRANCH_END_WIDTH := 2
    MIN_CELLS_FOR_WIDTH_CHECK := 30
    MAX_THIN_FINGER_LENGTH := 2
    BALANCE_BONUS_WEIGHT := 0.5
    GROW_PER_GEN_LAYER :=
      [28, 13, 12, 12, 12, 11, 10, 10, 10, 9, 8, 8, 8, 7, 6, 6, 6, 5, 4, 4]
    MIN_CELLS_LAYER :=
      [120, 120, 115, 110, 105, 100, 95, 90, 85, 80, 75, 70, 65, 60, 55, 50, 45, 40, 35, 30]
    MAX_CELLS_LAYER :=
      [150, 145, 140, 135, 130, 125, 120, 115, 110, 105, 100, 95, 90, 85, 80, 75, 70, 65, 60, 55]
    WEIGHT_GROWTHPOINT := 2
    WEIGHT_CONNECTED := 1.8
    WEIGHT_SMOOTHNESS := 1.5
    WEIGHT_CONVEXITY := 1.2
    WEIGHT_LIGHT := 0.6
    WEIGHT_OBSTACLE := -1.2
    HARD_BLOCKADE_THRESHOLD := -5
    NEGATIVE_SCORE_WEIGHT := 0.3
    STRONGLY_NEGATIVE_THRESHOLD := -20
    LAYER_INHERITANCE := 0.5
    LAYER_GROWTH_FREEDOM := 0.3
    LAYER_SUPPORT_BONUS := 3
    LAYER_OVERHANG_PENALTY := 2
    STRICT_SUPPORT_THRESHOLD := 0.1
    LIGHT_DISTANCE := fun f =>
      if f = "Work" then some 6
      else if f = "Living" then some 4
      else if f = "Industry" then some 100
      else none
    DEFAULT_LIGHT_DISTANCE := 3
    EDGE_DISTANCE_THRESHOLD := 2
    EDGE_BONUS_SCORE := 3
    MAX_GROW_ATTEMPTS := 2000
    FRONTIER_RADIUS := 2
    SUN_DIRECTION := (0.5, 0.7, 0.8)
    CELL_SIZE := 3
    DEFAULT_PRESET := "Work" }

/-! ## Constraints (source class `Constraints`, lines 1137–1293)

The geometric queries (`is_in_boundary`, `is_in_membrane`,
`is_blocked_by_outer_line`) delegate to Rhino curve operations, which the
spec treats as black boxes; they appear here as opaque boolean-valued
fields.  The pre-rasterised `blocked_cells`/`obstacle_cells` sets are
ordinary finite sets. -/

structure Constraints where
  cols : ℕ
  rows : ℕ
  blocked_cells : Finset Cell
  obstacle_cells : Finset Cell
  boundary_contains : ℤ → ℤ → Bool
  membrane_contains : ℤ → ℤ → Bool
  outer_line_blocks : ℤ → ℤ → Bool
  origin : ℝ × ℝ × ℝ

namespace Constraints

/-- `Constraints.is_allowed` (source lines 1271–1293): bounds, blocked cells,
boundary, membranes, outer lines, in that short-circuit order. -/
def is_allowed (cs : Constraints) (x y : ℤ) : Bool :=
  if ¬(0 ≤ x ∧ x < (cs.cols : ℤ) ∧ 0 ≤ y ∧ y < (cs.rows : ℤ)) then false
  else if (x, y) ∈ cs.blocked_cells then false
  else if ¬cs.boundary_contains x y then false
  else if cs.membrane_contains x y then false
  else if cs.outer_line_blocks x y then false
  else true

end Constraints

/-! ## GrowthPoint (source class `GrowthPoint`, lines 1300–1358)

A line attractor's geometry query `curve.ClosestPoint`/`PointAt` is an
external Rhino call; it is abstracted as `curve : Option (ℝ × ℝ → Option ℝ)`
returning the distance to the curve (`none` models both a missing curve and
the query failing, which the source maps to influence `0.0`). -/

structure GrowthPoint where
  position : Option (ℝ × ℝ)
  strength : ℝ
  radius : ℝ
  is_line : Bool
  curve : Option (ℝ × ℝ → Option ℝ)

namespace GrowthPoint

/-- World coordinates of a cell centre, as computed inside
`_point_influence`/`_line_influence`. -/
def cellCenter (cell_size : ℝ) (origin : ℝ × ℝ × ℝ) (x y : ℤ) : ℝ × ℝ :=
  (origin.1 + x * cell_size + cell_size * 0.5,
   origin.2.1 + y * cell_size + cell_size * 0.5)

/-- `GrowthPoint._point_influence`. -/
noncomputable def point_influence (gp : GrowthPoint) (x y : ℤ) (cell_size : ℝ)
    (origin : ℝ × ℝ × ℝ) : ℝ :=
  match gp.position with
  | none => 0
  | some p =>
      let w := cellCenter cell_size origin x y
      let dist := Real.sqrt ((w.1 - p.1) ^ 2 + (w.2 - p.2) ^ 2)
      if gp.radius * cell_size < dist then 0
      else gp.strength * (1 - dist / (gp.radius * cell_size))

/-- `GrowthPoint._line_influence`. -/
noncomputable def line_influence (gp : GrowthPoint) (x y : ℤ) (cell_size : ℝ)
    (origin : ℝ × ℝ × ℝ) : ℝ :=
  match gp.curve with
  | none => 0
  | some closestDist =>
      match closestDist (cellCenter cell_size origin x y) with
      | none => 0
      | some dist =>
          if gp.radius * cell_size < dist then 0
          else gp.strength * (1 - dist / (gp.radius * cell_size))

/-- `GrowthPoint.get_influence`. -/
noncomputable def get_influence (gp : GrowthPoint) (x y : ℤ) (cell_size : ℝ)
    (origin : ℝ × ℝ × ℝ) : ℝ :=
  if gp.is_line ∧ gp.curve.isSome then gp.line_influence x y cell_size origin
  else gp.point_influence x y cell_size origin

end GrowthPoint

/-! ## SmoothnessCalculator (source lines 1365–1454) -/

namespace Smoothness

/-- `SmoothnessCalculator.smoothness_score`. -/
def smoothness_score (g : Grid) (x y : ℤ) : ℚ :=
  let neighbors_4 := g.count_alive_neighbors_4 x y
  let neighbors_8 := g.count_alive_neighbors_8 x y
  let base : ℚ := (neighbors_4 : ℚ) * 2 + ((neighbors_8 : ℚ) - neighbors_4) * 1.5
  let peninsula : ℚ := if neighbors_4 = 1 then -2 else 0
  let corner : ℚ :=
    if neighbors_4 = 2 then
      let alive := (g.neighbors_4 x y).filter fun c => g.is_alive c.1 c.2
      match alive with
      | [n1, n2] => if n1.1 ≠ n2.1 ∧ n1.2 ≠ n2.2 then 3 else 0
      | _ => 0
    else 0
  let bay : ℚ := if 3 ≤ neighbors_4 then 4 else 0
  base + peninsula + corner + bay

/-- The four diagonal corner offsets of `convexity_score`, source order. -/
def cornerOffsets : List (ℤ × ℤ) := [(-1, -1), (-1, 1), (1, -1), (1, 1)]

/-- `SmoothnessCalculator.convexity_score`. -/
def convexity_score (g : Grid) (x y : ℤ) : ℚ :=
  let corners_filled :=
    cornerOffsets.countP fun d => g.is_alive (x + d.1) (y + d.2)
  let filling_concave :=
    cornerOffsets.countP fun d =>
      g.is_alive (x + d.1) y && g.is_alive x (y + d.2) &&
        !(g.is_alive (x + d.1) (y + d.2))
  (corners_filled : ℚ) * 0.5 + (filling_concave : ℚ) * 2

end Smoothness

/-! ## GrowthEngine state (source lines 1461–1544) -/

structure GrowthEngine where
  config : Config
  constraints : Constraints
  vertical_holes_tracker : Finset Cell
  growth_points : List GrowthPoint
  start_cells : List Cell
  start_groups : List (List Cell)
  current_group_start : List Cell
  current_function : String
  current_preset : Preset

namespace GrowthEngine

/-- `_get_preset_value`, specialised per key: the preset wins, the config is
the fallback (an empty preset has every field `none`, which matches the
source's `if self.current_preset and key in self.current_preset` test). -/
def presetMinWidth (e : GrowthEngine) : ℕ :=
  (e.current_preset.MIN_WIDTH).getD e.config.MIN_WIDTH

def presetPreferredWidth (e : GrowthEngine) : ℕ :=
  (e.current_preset.PREFERRED_WIDTH).getD e.config.PREFERRED_WIDTH

def presetWidthScoreBonus (e : GrowthEngine) : ℚ :=
  (e.current_preset.WIDTH_SCORE_BONUS).getD e.config.WIDTH_SCORE_BONUS

def presetBalanceBonusWeight (e : GrowthEngine) : ℚ :=
  (e.current_preset.BALANCE_BONUS_WEIGHT).getD e.config.BALANCE_BONUS_WEIGHT

def presetMaxLine (e : GrowthEngine) : ℕ :=
  (e.current_preset.MAX_LINE).getD e.config.MAX_LINE

def presetMinCellsForWidthCheck (e : GrowthEngine) : ℕ :=
  (e.current_preset.MIN_CELLS_FOR_WIDTH_CHECK).getD e.config.MIN_CELLS_FOR_WIDTH_CHECK

def presetMaxThinFingerLength (e : GrowthEngine) : ℕ :=
  (e.current_preset.MAX_THIN_FINGER_LENGTH).getD e.config.MAX_THIN_FINGER_LENGTH

def presetMinBranchEndWidth (e : GrowthEngine) : ℕ :=
  (e.current_preset.MIN_BRANCH_END_WIDTH).getD e.config.MIN_BRANCH_END_WIDTH

noncomputable def presetWeightConnected (e : GrowthEngine) : ℝ :=
  (e.current_preset.WEIGHT_CONNECTED).getD e.config.WEIGHT_CONNECTED

noncomputable def presetWeightSmoothness (e : GrowthEngine) : ℝ :=
  (e.current_preset.WEIGHT_SMOOTHNESS).getD e.config.WEIGHT_SMOOTHNESS

noncomputable def presetWeightConvexity (e : GrowthEngine) : ℝ :=
  (e.current_preset.WEIGHT_CONVEXITY).getD e.config.WEIGHT_CONVEXITY

noncomputable def presetEdgeBonusScore (e : GrowthEngine) : ℝ :=
  (e.current_preset.EDGE_BONUS_SCORE).getD e.config.EDGE_BONUS_SCORE

def presetEdgeDistanceThreshold (e : GrowthEngine) : ℕ :=
  (e.current_preset.EDGE_DISTANCE_THRESHOLD).getD e.config.EDGE_DISTANCE_THRESHOLD

/-- The effective light-distance threshold used by `can_place`,
`_check_light_distance` and `sync_vertical_holes_from_base`: preset first,
then `Config.LIGHT_DISTANCE[current_function]`, then
`Config.DEFAULT_LIGHT_DISTANCE`. -/
def effLightDistance (e : GrowthEngine) : ℤ :=
  (e.current_preset.LIGHT_DISTANCE).getD
    ((e.config.LIGHT_DISTANCE e.current_function).getD e.config.DEFAULT_LIGHT_DISTANCE)

end GrowthEngine

/-! ## Contiguous run lengths

`_compute_width_score`, `_check_min_width`, `_check_max_line` and
`_count_perpendicular_width` all walk `while <in bounds> and is_alive(...)`
in one of the four axis directions.  `runLen f fuel i δ` is the length of the
run of `true` cells at `i, i+δ, i+2δ, ...`; `is_alive` is `false` outside the
grid, so every such run is shorter than `cols + rows`, and with fuel
`cols + rows + 1` the fuel can never run out before the loop condition
fails. -/

def runLen (f : ℤ → Bool) : ℕ → ℤ → ℤ → ℕ
  | 0, _, _ => 0
  | fuel + 1, i, δ => if f i then runLen f fuel (i + δ) δ + 1 else 0

/-- `runLen` only depends on the pointwise behaviour of the cell test. -/
theorem runLen_congr {f₁ f₂ : ℤ → Bool} (h : ∀ i, f₁ i = f₂ i) :
    ∀ (fuel : ℕ) (i δ : ℤ), runLen f₁ fuel i δ = runLen f₂ fuel i δ := by
  intro fuel
  induction fuel with
  | zero => intro i δ; rfl
  | succ n ih =>
      intro i δ
      unfold runLen
      rw [h i, ih]

/-- The horizontal run count of `_compute_width_score` (candidate included):
walk left from `x-1`, then right from `x+1`. -/
def count_h (g : Grid) (x y : ℤ) : ℕ :=
  1 + runLen (fun cx => g.is_alive cx y) (g.cols + g.rows + 1) (x - 1) (-1)
    + runLen (fun cx => g.is_alive cx y) (g.cols + g.rows + 1) (x + 1) 1

/-- The vertical run count: walk up from `y-1`, then down from `y+1`. -/
def count_v (g : Grid) (x y : ℤ) : ℕ :=
  1 + runLen (fun cy => g.is_alive x cy) (g.cols + g.rows + 1) (y - 1) (-1)
    + runLen (fun cy => g.is_alive x cy) (g.cols + g.rows + 1) (y + 1) 1

/-- The per-axis width score of `_compute_width_score` (lines 1798–1812):
penalty below the minimum width, growing bonus up to the preferred width,
capped bonus beyond it. -/
def scoreAxis (width_bonus : ℚ) (min_width preferred_width : ℕ) (count : ℕ) : ℚ :=
  if count < min_width then -width_bonus * ((min_width : ℚ) - count) * 0.5
  else if count ≤ preferred_width then width_bonus * ((count : ℚ) - min_width) * 0.5
  else width_bonus * ((preferred_width : ℚ) - min_width) * 0.5

/-- The balance bonus of `_compute_width_score` (lines 1816–1823). -/
def balanceBonus (width_bonus balance_weight : ℚ) (ch cv : ℕ) : ℚ :=
  if 2 ≤ ch ∧ 2 ≤ cv then
    if 0 < max ch cv then
      width_bonus * ((min ch cv : ℚ) / (max ch cv : ℚ)) * balance_weight
    else 0
  else 0

/-- `GrowthEngine._compute_width_score` (source lines 1757–1825). -/
def GrowthEngine.compute_width_score (e : GrowthEngine) (g : Grid) (x y : ℤ) : ℚ :=
  scoreAxis e.presetWidthScoreBonus e.presetMinWidth e.presetPreferredWidth (count_h g x y)
    + scoreAxis e.presetWidthScoreBonus e.presetMinWidth e.presetPreferredWidth (count_v g x y)
    + balanceBonus e.presetWidthScoreBonus e.presetBalanceBonusWeight
        (count_h g x y) (count_v g x y)

/-- `GrowthEngine._check_min_width` (source lines 1992–2030).  Note that it
reads `self.config.MIN_WIDTH`, not the preset value. -/
def GrowthEngine.check_min_width (e : GrowthEngine) (g : Grid) (x y : ℤ) : Bool :=
  if e.config.MIN_WIDTH ≤ 1 then true
  else decide (e.config.MIN_WIDTH ≤ count_h g x y)
    || decide (e.config.MIN_WIDTH ≤ count_v g x y)

/-- `GrowthEngine._check_max_line` (source lines 2180–2211). -/
def GrowthEngine.check_max_line (e : GrowthEngine) (g : Grid) (x y : ℤ) : Bool :=
  if 50 ≤ e.presetMaxLine then true
  else decide (count_h g x y ≤ e.presetMaxLine)
    || decide (count_v g x y ≤ e.presetMaxLine)

/-- `GrowthEngine._count_perpendicular_width` (source lines 2133–2178). -/
def count_perpendicular_width (g : Grid) (x y px py : ℤ) : ℕ :=
  if x - px = 0 ∧ y - py = 0 then 1
  else if x - px ≠ 0 then
    1 + runLen (fun cy => g.is_alive x cy) (g.cols + g.rows + 1) (y - 1) (-1)
      + runLen (fun cy => g.is_alive x cy) (g.cols + g.rows + 1) (y + 1) 1
  else
    1 + runLen (fun cx => g.is_alive cx y) (g.cols + g.rows + 1) (x - 1) (-1)
      + runLen (fun cx => g.is_alive cx y) (g.cols + g.rows + 1) (x + 1) 1

/-- The next-cell search of the finger walk (source lines 2115–2119): the
first alive 4-neighbour other than the cell we came from, in
`neighbors_4` order. -/
def findNextInChain (g : Grid) (cx cy : ℤ) (previous : Cell) : Option Cell :=
  (g.neighbors_4 cx cy).find? fun c => g.is_alive c.1 c.2 && decide (c ≠ previous)

/-- The thin-finger walk of `_check_branch_end_width` (source lines
2088–2131): follow the chain backwards, stopping at the first position whose
perpendicular width reaches `min_end`, when the thin length exceeds
`max_len`, or at the end of the chain; the candidate is legal iff the thin
length stayed within `max_len`. -/
def fingerWalk (g : Grid) (min_end max_len : ℕ) :
    ℕ → Cell → Cell → Bool := fun thin current previous =>
  if min_end ≤ count_perpendicular_width g current.1 current.2 previous.1 previous.2 then
    decide (thin ≤ max_len)
  else if _h : max_len < thin + 1 then
    decide (thin + 1 ≤ max_len)
  else
    match findNextInChain g current.1 current.2 previous with
    | none => decide (thin + 1 ≤ max_len)
    | some nxt => fingerWalk g min_end max_len (thin + 1) nxt current
  termination_by thin _ _ => max_len + 1 - thin
  decreasing_by omega

/-- `GrowthEngine._check_branch_end_width` (source lines 2032–2131).  The
tentative placement (`grid.set(x, y, 1)` ... `grid.set(x, y, 0)`) becomes a
local grid value. -/
def GrowthEngine.check_branch_end_width (e : GrowthEngine) (g : Grid) (x y : ℤ) : Bool :=
  let min_cells_check := e.presetMinCellsForWidthCheck
  let max_finger_length := e.presetMaxThinFingerLength
  let min_end_width := e.presetMinBranchEndWidth
  if g.alive_count < min_cells_check then true
  else if min_end_width ≤ 1 then true
  else
    let g1 := g.set x y true
    if 2 ≤ g1.count_alive_neighbors_4 x y then true
    else
      match (g1.neighbors_4 x y).find? (fun c => g1.is_alive c.1 c.2) with
      | none => false
      | some np => fingerWalk g1 min_end_width max_finger_length 1 np (x, y)

/-! ## Grid transposition (spec-side construction for the width-score
symmetry property; not a source function) -/

theorem getD_map_range {α : Type} (f : ℕ → α) (n i : ℕ) (d : α) :
    ((List.range n).map f).getD i d = if i < n then f i else d := by
  by_cases h : i < n
  · rw [List.getD_eq_getElem?_getD, List.getElem?_map, List.getElem?_range h, if_pos h]
    rfl
  · rw [List.getD_eq_getElem?_getD, List.getElem?_eq_none, if_neg h]
    · rfl
    · simpa using not_lt.mp h

/-- The transposed grid: rows and columns swapped, cell `(a,b)` of the
transpose holds cell `(b,a)` of the original. -/
def Grid.transpose (g : Grid) : Grid :=
  ⟨g.rows, g.cols,
   (List.range g.cols).map fun x => (List.range g.rows).map fun y =>
     (g.cells.getD y []).getD x false⟩

theorem in_bounds_transpose {g : Grid} {a b : ℤ} :
    g.transpose.in_bounds a b ↔ g.in_bounds b a := by
  show ((0 ≤ a ∧ a < (g.rows : ℤ) ∧ 0 ≤ b ∧ b < (g.cols : ℤ)) ↔ _)
  unfold Grid.in_bounds
  omega

theorem get_transpose (g : Grid) (a b : ℤ) :
    g.transpose.get a b = g.get b a := by
  unfold Grid.get
  by_cases h : g.in_bounds b a
  · rw [if_pos (in_bounds_transpose.mpr h), if_pos h]
    obtain ⟨h0b, hbc, h0a, har⟩ := h
    show (((List.range g.cols).map fun x => (List.range g.rows).map fun y =>
      (g.cells.getD y []).getD x false).getD b.toNat []).getD a.toNat false = _
    rw [getD_map_range, if_pos (by omega : b.toNat < g.cols),
      getD_map_range, if_pos (by omega : a.toNat < g.rows)]
  · rw [if_neg (fun hT => h (in_bounds_transpose.mp hT)), if_neg h]

theorem is_alive_transpose (g : Grid) (a b : ℤ) :
    g.transpose.is_alive a b = g.is_alive b a := by
  unfold Grid.is_alive
  rw [get_transpose]
  congr 1
  exact decide_eq_decide.mpr in_bounds_transpose

theorem count_h_transpose (g : Grid) (x y : ℤ) :
    count_h g.transpose y x = count_v g x y := by
  unfold count_h count_v
  have hfuel : g.transpose.cols + g.transpose.rows + 1 = g.cols + g.rows + 1 := by
    have hc : g.transpose.cols = g.rows := rfl
    have hr : g.transpose.rows = g.cols := rfl
    omega
  have hf : (fun cx => g.transpose.is_alive cx x) = (fun cy => g.is_alive x cy) :=
    funext fun i => is_alive_transpose g i x
  rw [hfuel, hf]

theorem count_v_transpose (g : Grid) (x y : ℤ) :
    count_v g.transpose y x = count_h g x y := by
  unfold count_h count_v
  have hfuel : g.transpose.cols + g.transpose.rows + 1 = g.cols + g.rows + 1 := by
    have hc : g.transpose.cols = g.rows := rfl
    have hr : g.transpose.rows = g.cols := rfl
    omega
  have hf : (fun cy => g.transpose.is_alive y cy) = (fun cx => g.is_alive cx y) :=
    funext fun i => is_alive_transpose g y i
  rw [hfuel, hf]

theorem balanceBonus_comm (wb bw : ℚ) (ch cv : ℕ) :
    balanceBonus wb bw cv ch = balanceBonus wb bw ch cv := by
  unfold balanceBonus
  by_cases h : 2 ≤ ch ∧ 2 ≤ cv
  · rw [if_pos ⟨h.2, h.1⟩, if_pos h, max_comm cv ch,
      min_comm (cv : ℚ) (ch : ℚ), max_comm (cv : ℚ) (ch : ℚ)]
  · rw [if_neg (fun hc => h ⟨hc.2, hc.1⟩), if_neg h]

/-- **C8.** `_compute_width_score` is symmetric under transposition: its value
on a grid `g` at `(x, y)` equals its value on the transposed grid at the
mirrored coordinate `(y, x)`, for the same preset parameters. -/
theorem C8_width_score_transpose_symmetric (e : GrowthEngine) (g : Grid) (x y : ℤ) :
    e.compute_width_score g.transpose y x = e.compute_width_score g x y := by
  unfold GrowthEngine.compute_width_score
  rw [count_h_transpose, count_v_transpose, balanceBonus_comm]
  ring

/-- **C10.** With the shipped configuration (`Config.MIN_WIDTH = 1`),
`_check_min_width` returns `True` for every grid and cell because it reads
the global config value rather than the active preset's `MIN_WIDTH` — even
though the Living and Work presets both declare `MIN_WIDTH = 2`. -/
theorem C10_min_width_check_never_blocks :
    shippedConfig.MIN_WIDTH = 1 ∧
      livingPreset.MIN_WIDTH = some 2 ∧
      workPreset.MIN_WIDTH = some 2 ∧
      (∀ e : GrowthEngine, e.config.MIN_WIDTH = 1 →
        ∀ (g : Grid) (x y : ℤ), e.check_min_width g x y = true) := by
  refine ⟨rfl, rfl, rfl, ?_⟩
  intro e he g x y
  unfold GrowthEngine.check_min_width
  rw [he]
  simp

/-- A constraint set that allows everything (used only to build concrete
engines for witnesses). -/
def openConstraints : Constraints :=
  ⟨6, 6, ∅, ∅, fun _ _ => true, fun _ _ => false, fun _ _ => false, (0, 0, 0)⟩

/-- A concrete engine running the Living preset over the shipped config. -/
noncomputable def livingEngine : GrowthEngine :=
  ⟨shippedConfig, openConstraints, ∅, [], [(1, 1)], [[(1, 1)]], [], "Living", livingPreset⟩

/-- Witness for C10: under the Living preset (which declares `MIN_WIDTH = 2`)
the minimum-width check still passes everywhere. -/
theorem C10_witness :
    livingEngine.config.MIN_WIDTH = 1 ∧
      livingEngine.check_min_width (Grid.init 3 3) 1 1 = true :=
  ⟨rfl, C10_min_width_check_never_blocks.2.2.2 livingEngine rfl (Grid.init 3 3) 1 1⟩

/-! ## `Grid.set` lemmas -/

theorem List.getD_set_self {α : Type} (l : List α) (i : ℕ) (a d : α)
    (h : i < l.length) : (l.set i a).getD i d = a := by
  induction l generalizing i with
  | nil => cases h
  | cons b l ih =>
      cases i with
      | zero => rfl
      | succ n => exact ih n (by simpa using h)

theorem List.getD_set_ne {α : Type} (l : List α) (i j : ℕ) (a : α) (d : α)
    (h : i ≠ j) : (l.set i a).getD j d = l.getD j d := by
  induction l generalizing i j with
  | nil => rfl
  | cons b l ih =>
      cases i with
      | zero =>
          cases j with
          | zero => exact absurd rfl h
          | succ m => rfl
      | succ n =>
          cases j with
          | zero => rfl
          | succ m => exact ih n m (by omega)

theorem List.set_getD_self {α : Type} (l : List α) (i : ℕ) (d : α) :
    l.set i (l.getD i d) = l := by
  induction l generalizing i with
  | nil => rfl
  | cons b l ih =>
      cases i with
      | zero => rfl
      | succ n => simpa using ih n

theorem Grid.cols_set (g : Grid) (x y : ℤ) (v : Bool) : (g.set x y v).cols = g.cols := by
  unfold Grid.set
  split_ifs <;> rfl

theorem Grid.rows_set (g : Grid) (x y : ℤ) (v : Bool) : (g.set x y v).rows = g.rows := by
  unfold Grid.set
  split_ifs <;> rfl

theorem in_bounds_set {g : Grid} {x y : ℤ} {v : Bool} {a b : ℤ} :
    (g.set x y v).in_bounds a b ↔ g.in_bounds a b := by
  unfold Grid.in_bounds
  rw [Grid.cols_set, Grid.rows_set]

theorem List.set_oob {α : Type} (l : List α) (n : ℕ) (a : α)
    (h : l.length ≤ n) : l.set n a = l := by
  induction l generalizing n with
  | nil => rfl
  | cons b l ih =>
      cases n with
      | zero => simp at h
      | succ m =>
          show b :: l.set m a = b :: l
          rw [ih m (by simpa using h)]

/-- The data-structure invariant of the Python `Grid` class: the cell matrix
really has `rows` rows of `cols` cells.  `Grid.__init__` establishes it and
`set` preserves it. -/
def Grid.Wf (g : Grid) : Prop :=
  g.cells.length = g.rows ∧ ∀ r ∈ g.cells, r.length = g.cols

theorem Grid.wf_init (cols rows : ℕ) : (Grid.init cols rows).Wf := by
  constructor
  · exact List.length_replicate _ _
  · intro r hr
    rw [List.eq_of_mem_replicate hr]
    exact List.length_replicate _ _

theorem List.getD_mem {α : Type} (l : List α) (i : ℕ) (d : α)
    (h : i < l.length) : l.getD i d ∈ l := by
  induction l generalizing i with
  | nil => cases h
  | cons b l ih =>
      cases i with
      | zero => exact List.mem_cons_self _ _
      | succ n => exact List.mem_cons_of_mem _ (ih n (by simpa using h))

theorem Grid.wf_set {g : Grid} (hwf : g.Wf) (x y : ℤ) (v : Bool) :
    (g.set x y v).Wf := by
  obtain ⟨hlen, hrow⟩ := hwf
  unfold Grid.set
  split_ifs with hb
  · refine ⟨by simpa using hlen, ?_⟩
    intro r hr
    rcases List.mem_or_eq_of_mem_set hr with h | h
    · exact hrow r h
    · subst h
      rw [List.length_set]
      by_cases hl : y.toNat < g.cells.length
      · exact hrow _ (List.getD_mem _ _ _ hl)
      · rw [List.getD_eq_default _ _ (by omega)] at *
        obtain ⟨h0x, hxc, h0y, hyr⟩ := hb
        omega
  · exact ⟨hlen, hrow⟩

/-- The cell matrix written by an (in-bounds) `Grid.set`. -/
theorem set_eq_of_in_bounds {g : Grid} {x y : ℤ} (hb : g.in_bounds x y) (v : Bool) :
    g.set x y v =
      Grid.mk g.cols g.rows
        (g.cells.set y.toNat ((g.cells.getD y.toNat []).set x.toNat v)) := by
  unfold Grid.set
  rw [if_pos hb]

/-- `Grid.get` through the constructor, for an in-bounds position. -/
theorem get_mk_of_in_bounds {cols rows : ℕ} {cells : List (List Bool)} {x y : ℤ}
    (hb : (Grid.mk cols rows cells).in_bounds x y) :
    (Grid.mk cols rows cells).get x y = (cells.getD y.toNat []).getD x.toNat false := by
  unfold Grid.get
  rw [if_pos hb]

/-- Reading any other position is unaffected by a write. -/
theorem get_set_ne (g : Grid) (x y : ℤ) (v : Bool) (a b : ℤ)
    (hne : ¬(a = x ∧ b = y)) : (g.set x y v).get a b = g.get a b := by
  by_cases hxy : g.in_bounds x y
  · by_cases hab : g.in_bounds a b
    · obtain ⟨cols, rows, cells⟩ := g
      rw [set_eq_of_in_bounds hxy]
      dsimp only
      rw [get_mk_of_in_bounds (show (Grid.mk cols rows (cells.set y.toNat ((cells.getD y.toNat []).set x.toNat v))).in_bounds a b from hab)]
      rw [get_mk_of_in_bounds hab]
      by_cases hby : b = y
      · subst hby
        have hax : a ≠ x := fun h => hne ⟨h, rfl⟩
        by_cases hlen : b.toNat < cells.length
        · rw [List.getD_set_self _ _ _ _ hlen]
          refine List.getD_set_ne _ _ _ _ _ ?_
          obtain ⟨h0x, -, -, -⟩ := hxy
          obtain ⟨h0a, -, -, -⟩ := hab
          omega
        · rw [List.set_oob _ _ _ (by omega)]
      · have hyb : y.toNat ≠ b.toNat := by
          obtain ⟨-, -, h0y, -⟩ := hxy
          obtain ⟨-, -, h0b, -⟩ := hab
          omega
        rw [List.getD_set_ne _ _ _ _ _ hyb]
    · have hset : ¬(g.set x y v).in_bounds a b := fun h => hab (in_bounds_set.mp h)
      unfold Grid.get
      rw [if_neg hset, if_neg hab]
  · unfold Grid.set
    rw [if_neg hxy]

/-- Reading back a written in-bounds position on a well-formed grid. -/
theorem get_set_self {g : Grid} (hwf : g.Wf) {x y : ℤ} (hb : g.in_bounds x y)
    (v : Bool) : (g.set x y v).get x y = v := by
  obtain ⟨hlen, hrow⟩ := hwf
  obtain ⟨cols, rows, cells⟩ := g
  rw [set_eq_of_in_bounds hb]
  dsimp only
  rw [get_mk_of_in_bounds (show (Grid.mk cols rows (cells.set y.toNat ((cells.getD y.toNat []).set x.toNat v))).in_bounds x y from hb)]
  unfold Grid.in_bounds at hb
  dsimp only at hb hlen hrow
  obtain ⟨h0x, hxc, h0y, hyr⟩ := hb
  have hylen : y.toNat < cells.length := by omega
  rw [List.getD_set_self _ _ _ _ hylen]
  have hxlen : x.toNat < (cells.getD y.toNat []).length := by
    rw [hrow _ (List.getD_mem _ _ _ hylen)]
    omega
  exact List.getD_set_self _ _ _ _ hxlen

/-- Writing `true` to an empty cell and then `false` restores the grid
exactly — the algebraic core of every "place, test, revert" pattern. -/
theorem set_set_restore (g : Grid) (x y : ℤ) (v v₀ : Bool)
    (hval : g.get x y = v₀) : (g.set x y v).set x y v₀ = g := by
  by_cases hb : g.in_bounds x y
  · obtain ⟨cols, rows, cells⟩ := g
    rw [get_mk_of_in_bounds hb] at hval
    rw [set_eq_of_in_bounds hb]
    dsimp only
    rw [set_eq_of_in_bounds (show (Grid.mk cols rows (cells.set y.toNat ((cells.getD y.toNat []).set x.toNat v))).in_bounds x y from hb)]
    dsimp only
    refine congrArg (Grid.mk cols rows) ?_
    by_cases hlen : y.toNat < cells.length
    · rw [List.getD_set_self _ _ _ _ hlen, List.set_set, List.set_set]
      have hrowfix : (cells.getD y.toNat []).set x.toNat v₀ = cells.getD y.toNat [] := by
        conv_lhs => rw [← hval]
        exact List.set_getD_self _ _ _
      rw [hrowfix, List.set_getD_self]
    · rw [List.set_oob cells _ _ (by omega)]
      rw [List.getD_eq_default _ _ (by omega)]
      rw [List.set_oob ([] : List Bool) _ _ (by simp)]
      exact List.set_oob _ _ _ (by omega)
  · have h1 : g.set x y v = g := by
      unfold Grid.set
      rw [if_neg hb]
    rw [h1]
    unfold Grid.set
    rw [if_neg hb]

theorem set_set_revert (g : Grid) (x y : ℤ)
    (hempty : g.get x y = false) : (g.set x y true).set x y false = g :=
  set_set_restore g x y true false hempty

/-! ## BFS distances (source lines 1619–1647) and the bounded edge search
(source lines 1914–1940)

Both are queue-based loops.  Every enqueued cell is simultaneously added to
the `visited` set and never enqueued again, so the number of pops is at most
`cols*rows` plus the initial queue length; the fuel `cols*rows + 2` therefore
never runs out before the source's loop would have terminated on its own. -/

/-- The queue loop of `distance_to_true_outside`: pop `(cell, dist)`, return
`dist + 1` as soon as a 4-neighbour lies in the outside set, otherwise
enqueue the unvisited neighbours. -/
def distBFSAux (g : Grid) (outside : Finset Cell) :
    ℕ → List (Cell × ℕ) → Finset Cell → ℕ
  | 0, _, _ => 9999
  | _ + 1, [], _ => 9999
  | fuel + 1, (c, dist) :: queue, visited =>
      if (g.neighbors_4 c.1 c.2).any (fun n => decide (n ∈ outside)) then dist + 1
      else
        let fresh := (g.neighbors_4 c.1 c.2).filter fun n => decide (n ∉ visited)
        distBFSAux g outside fuel (queue ++ fresh.map (fun n => (n, dist + 1)))
          (visited ∪ fresh.toFinset)

/-- `GrowthEngine.distance_to_true_outside` (source lines 1619–1647): BFS hop
distance to the nearest true-outside cell, `9999` when enclosed. -/
def distance_to_true_outside (g : Grid) (x y : ℤ) : ℕ :=
  if (x, y) ∈ get_outside_cells g then 0
  else distBFSAux g (get_outside_cells g) (g.cols * g.rows + 2) [((x, y), 0)] {(x, y)}

/-- The queue loop of `_can_reach_edge`: report `True` when the depth bound
is hit or an empty edge cell is adjacent, else expand through empty cells. -/
def canReachEdgeAux (g : Grid) (max_depth : ℕ) :
    ℕ → List (Cell × ℕ) → Finset Cell → Bool
  | 0, _, _ => false
  | _ + 1, [], _ => false
  | fuel + 1, (c, depth) :: queue, visited =>
      if max_depth ≤ depth then true
      else if (g.neighbors_4 c.1 c.2).any
          (fun n => decide (g.onBorder n) && g.is_empty n.1 n.2) then true
      else
        let fresh := (g.neighbors_4 c.1 c.2).filter fun n =>
          decide (n ∉ visited) && g.is_empty n.1 n.2
        canReachEdgeAux g max_depth fuel
          (queue ++ fresh.map (fun n => (n, depth + 1))) (visited ∪ fresh.toFinset)

/-- `GrowthEngine._can_reach_edge` (source lines 1914–1940). -/
def can_reach_edge (g : Grid) (sx sy : ℤ) (max_depth : ℕ) : Bool :=
  if g.onBorder (sx, sy) then true
  else canReachEdgeAux g max_depth (g.cols * g.rows + 2) [((sx, sy), 0)] {(sx, sy)}

/-! ## Tentative-placement checks, with their grid effect

The source's `_would_create_internal_hole`, `_check_light_distance` and
`_check_connectivity` temporarily mutate the shared grid and revert it.  To
make that revert a provable property rather than a modelling assumption,
these three are embedded state-passing style: each returns the answer
*and* the grid as it is left when the method returns. -/

/-- `GrowthEngine._would_create_internal_hole` (source lines 1889–1912),
answer plus resulting grid. -/
def would_create_internal_hole_st (g : Grid) (x y : ℤ) : Bool × Grid :=
  if ((g.neighbors_4 x y).filter fun c => g.is_empty c.1 c.2) = [] then (false, g)
  else
    ((((g.neighbors_4 x y).filter fun c => g.is_empty c.1 c.2).any
        fun n => !can_reach_edge (g.set x y true) n.1 n.2 20),
     (g.set x y true).set x y false)

namespace GrowthEngine

/-- `GrowthEngine._check_connectivity` (source lines 2213–2238), answer plus
resulting grid: the anchor search runs on the untouched grid, the component
on the grid with the candidate tentatively placed. -/
def checkCells (e : GrowthEngine) : List Cell :=
  if e.current_group_start ≠ [] then e.current_group_start else e.start_cells

/-- `GrowthEngine._check_connectivity` continued: the legality test and the
grid it leaves behind. -/
def check_connectivity_st (e : GrowthEngine) (g : Grid) (x y : ℤ) : Bool × Grid :=
  if e.checkCells = [] then (true, g)
  else
    match e.checkCells.find? (fun s => g.is_alive s.1 s.2) with
    | none => (true, g)
    | some a =>
        (decide ((x, y) ∈ (g.set x y true).get_component a.1 a.2),
         (g.set x y true).set x y false)

/-- `GrowthEngine._check_light_distance` (source lines 1942–1990), answer
plus resulting grid.  The `try/finally` of the source reverts the tentative
placement on every exit path, including the two early `return False`s. -/
def check_light_distance_st (e : GrowthEngine) (g : Grid) (x y : ℤ) : Bool × Grid :=
  if 30 ≤ e.effLightDistance then (true, g)
  else if (would_create_internal_hole_st g x y).1 then
    (false, (would_create_internal_hole_st g x y).2)
  else
    ((if e.effLightDistance <
        (distance_to_true_outside ((would_create_internal_hole_st g x y).2.set x y true) x y : ℤ)
      then false
      else if (((would_create_internal_hole_st g x y).2.set x y true).neighbors_4 x y).any
          fun n =>
            ((would_create_internal_hole_st g x y).2.set x y true).is_alive n.1 n.2 &&
              decide (e.effLightDistance <
                (distance_to_true_outside
                  ((would_create_internal_hole_st g x y).2.set x y true) n.1 n.2 : ℤ))
        then false
      else true),
     ((would_create_internal_hole_st g x y).2.set x y true).set x y false)

end GrowthEngine

/-- **C6.** On every grid whose candidate cell reads empty, each of the three
tentative-placement checks (`_check_light_distance`, `_check_connectivity`,
`_would_create_internal_hole`) returns with the grid holding exactly the
cell values it held before the call: the temporary placement is reverted on
every exit path. -/
theorem C6_tentative_checks_revert (e : GrowthEngine) (g : Grid) (x y : ℤ)
    (hempty : g.get x y = false) :
    (e.check_light_distance_st g x y).2 = g ∧
      (e.check_connectivity_st g x y).2 = g ∧
      (would_create_internal_hole_st g x y).2 = g := by
  have hhole : (would_create_internal_hole_st g x y).2 = g := by
    unfold would_create_internal_hole_st
    split_ifs
    · rfl
    · exact set_set_revert g x y hempty
  refine ⟨?_, ?_, hhole⟩
  · unfold GrowthEngine.check_light_distance_st
    by_cases h1 : 30 ≤ e.effLightDistance
    · rw [if_pos h1]
    · rw [if_neg h1]
      by_cases h2 : (would_create_internal_hole_st g x y).1 = true
      · rw [if_pos h2]
        exact hhole
      · rw [if_neg h2]
        show ((would_create_internal_hole_st g x y).2.set x y true).set x y false = g
        rw [hhole]
        exact set_set_revert g x y hempty
  · unfold GrowthEngine.check_connectivity_st
    split_ifs with h1
    · rfl
    · cases hfind : e.checkCells.find? (fun s => g.is_alive s.1 s.2) with
      | none => rfl
      | some a => exact set_set_revert g x y hempty

/-- Witness for C6 on a concrete empty 2×2 grid. -/
noncomputable def witnessEngineC6 : GrowthEngine :=
  ⟨shippedConfig, openConstraints, ∅, [], [(0, 0)], [[(0, 0)]], [], "Living", livingPreset⟩

theorem C6_witness :
    (Grid.init 2 2).get 0 0 = false ∧
      (witnessEngineC6.check_light_distance_st (Grid.init 2 2) 0 0).2 = Grid.init 2 2 ∧
      (witnessEngineC6.check_connectivity_st (Grid.init 2 2) 0 0).2 = Grid.init 2 2 ∧
      (would_create_internal_hole_st (Grid.init 2 2) 0 0).2 = Grid.init 2 2 := by
  have h := C6_tentative_checks_revert witnessEngineC6 (Grid.init 2 2) 0 0 (by decide)
  exact ⟨by decide, h.1, h.2.1, h.2.2⟩

/-! ## Placement legality (`GrowthEngine.can_place`, source lines 1827–1887)

The checks that tentatively mutate the grid all revert it before returning
(theorem `C6_tentative_checks_revert`; the candidate is known to read empty
at that point because the `grid.is_alive` test already failed), so the
sequential checks of the source all see the same grid `g` and `can_place`
can pass `g` to each of them. -/

/-- The strict-support test of `can_place` (source lines 1849–1851): blocks
when a lower grid exists, the growth freedom is below the strict-support
threshold and the cell below is not alive. -/
def strict_support_blocks (e : GrowthEngine) (lower_grid : Option Grid)
    (x y : ℤ) : Bool :=
  match lower_grid with
  | none => false
  | some lg =>
      decide (e.config.LAYER_GROWTH_FREEDOM < e.config.STRICT_SUPPORT_THRESHOLD) &&
        !lg.is_alive x y

/-- `GrowthEngine.can_place` (source lines 1827–1887).  `layer_index` is a
parameter of the source method but is never read inside it. -/
def GrowthEngine.can_place (e : GrowthEngine) (g : Grid) (x y : ℤ)
    (layer_index : ℕ) (lower_grid : Option Grid) : Bool :=
  if e.constraints.is_allowed x y = false then false
  else if (x, y) ∈ e.vertical_holes_tracker then false
  else if g.is_alive x y = true then false
  else if g.has_alive_neighbor_4 x y = false then false
  else if strict_support_blocks e lower_grid x y = true then false
  else if (e.check_connectivity_st g x y).1 = false then false
  else if 30 ≤ e.effLightDistance then true
  else if e.check_min_width g x y = false then false
  else if e.check_max_line g x y = false then false
  else if (e.check_light_distance_st g x y).1 = false then false
  else if e.check_branch_end_width g x y = false then false
  else true

/-- **C4.** Whenever the basic legality checks of `can_place` pass (spatial
constraints, no tracked vertical hole, not already alive, at least one alive
4-neighbour, strict support, connectivity to the anchor) and the effective
light-distance threshold — preset first, config fallback — is at least the
free-form cutover of 30, `can_place` returns `True` without consulting the
minimum-width, maximum-line-length, light-distance or branch-end-width
rules. -/
theorem C4_free_form_cutover_skips_shape_rules (e : GrowthEngine) (g : Grid)
    (x y : ℤ) (layer_index : ℕ) (lower_grid : Option Grid)
    (h1 : e.constraints.is_allowed x y = true)
    (h2 : (x, y) ∉ e.vertical_holes_tracker)
    (h3 : g.is_alive x y = false)
    (h4 : g.has_alive_neighbor_4 x y = true)
    (h5 : strict_support_blocks e lower_grid x y = false)
    (h6 : (e.check_connectivity_st g x y).1 = true)
    (h30 : 30 ≤ e.effLightDistance) :
    e.can_place g x y layer_index lower_grid = true := by
  unfold GrowthEngine.can_place
  rw [if_neg (by rw [h1]; exact fun hc => Bool.true_eq_false.mp hc)]
  rw [if_neg h2]
  rw [if_neg (by rw [h3]; exact fun hc => Bool.false_eq_true.mp hc)]
  rw [if_neg (by rw [h4]; exact fun hc => Bool.true_eq_false.mp hc)]
  rw [if_neg (by rw [h5]; exact fun hc => Bool.false_eq_true.mp hc)]
  rw [if_neg (by rw [h6]; exact fun hc => Bool.true_eq_false.mp hc)]
  rw [if_pos h30]

/-- A concrete engine running the Industry preset (light distance 100). -/
noncomputable def industryEngine : GrowthEngine :=
  ⟨shippedConfig, openConstraints, ∅, [], [(1, 1)], [[(1, 1)]], [], "Industry",
    industryPreset⟩

/-- Witness for C4: with one alive anchor cell at `(1,1)` and candidate
`(1,2)`, all basic checks pass and the Industry threshold of 100 triggers the
free-form early `True`. -/
theorem C4_witness :
    industryEngine.constraints.is_allowed 1 2 = true ∧
      (30 : ℤ) ≤ industryEngine.effLightDistance ∧
      industryEngine.can_place ((Grid.init 4 4).set 1 1 true) 1 2 0 none = true := by
  refine ⟨by decide, by decide, ?_⟩
  exact C4_free_form_cutover_skips_shape_rules industryEngine
    ((Grid.init 4 4).set 1 1 true) 1 2 0 none (by decide) (by decide) (by decide)
    (by decide) (by decide) (by decide) (by decide)

/-! ## Candidate scoring (`GrowthEngine.score_candidate`, source lines
1649–1719)

The Python function returns `float('-inf')` from inside the growth-point
loop when any influence falls below the hard blockade threshold; that
sentinel is modelled as `Option ℝ` with `none` standing for `-inf` (the
caller `grow_layer` only ever compares the sentinel for equality and filters
it out). -/

/-- `GrowthEngine._compute_light_score` (source lines 1721–1742). -/
noncomputable def GrowthEngine.compute_light_score (e : GrowthEngine) (x y : ℤ)
    (layer_index : ℕ) : ℝ :=
  if Real.sqrt (e.config.SUN_DIRECTION.1 ^ 2 + e.config.SUN_DIRECTION.2.1 ^ 2) = 0
  then 0.5
  else
    (((((x : ℝ) - (e.constraints.cols : ℝ) / 2) / (max 1 e.constraints.cols : ℕ)) *
          e.config.SUN_DIRECTION.1 +
        (((y : ℝ) - (e.constraints.rows : ℝ) / 2) / (max 1 e.constraints.rows : ℕ)) *
          e.config.SUN_DIRECTION.2.1) /
        Real.sqrt (e.config.SUN_DIRECTION.1 ^ 2 + e.config.SUN_DIRECTION.2.1 ^ 2) + 1) / 2 +
      (layer_index : ℝ) * 0.05

/-- `GrowthEngine._compute_obstacle_penalty` (source lines 1744–1755). -/
noncomputable def GrowthEngine.compute_obstacle_penalty (e : GrowthEngine)
    (x y : ℤ) : ℝ :=
  if (x, y) ∈ e.constraints.obstacle_cells then -10
  else -((Grid.offsets4.countP fun d =>
      decide ((x + d.1, y + d.2) ∈ e.constraints.obstacle_cells) : ℕ) : ℝ) * 0.5

/-- The growth-point loop of `score_candidate` (source lines 1656–1664):
accumulate weighted influences, returning the `-inf` sentinel as soon as one
influence is below `HARD_BLOCKADE_THRESHOLD`. -/
noncomputable def gpLoop (e : GrowthEngine) (x y : ℤ) :
    List GrowthPoint → ℝ → Option ℝ
  | [], acc => some acc
  | gp :: rest, acc =>
      if gp.get_influence x y e.config.CELL_SIZE e.constraints.origin <
          e.config.HARD_BLOCKADE_THRESHOLD then none
      else gpLoop e x y rest
        (acc + gp.get_influence x y e.config.CELL_SIZE e.constraints.origin *
          e.config.WEIGHT_GROWTHPOINT)

/-- `GrowthEngine.score_candidate` (source lines 1649–1719).  The edge-bonus
term tentatively places the candidate before measuring the distance to the
true outside; the tentative grid is the local value `g.set x y true`. -/
noncomputable def GrowthEngine.score_candidate (e : GrowthEngine) (g : Grid)
    (x y : ℤ) (layer_index : ℕ) (lower_grid : Option Grid) : Option ℝ :=
  (gpLoop e x y e.growth_points 0).map fun base =>
    base
    + (g.count_alive_neighbors_4 x y : ℝ) * e.presetWeightConnected
    + (Smoothness.smoothness_score g x y : ℝ) * e.presetWeightSmoothness
    + (Smoothness.convexity_score g x y : ℝ) * e.presetWeightConvexity
    + (match lower_grid with
       | none => 0
       | some lg =>
           if lg.is_alive x y then e.config.LAYER_SUPPORT_BONUS * e.config.LAYER_INHERITANCE
           else -(e.config.LAYER_OVERHANG_PENALTY *
             (1 - (e.config.LAYER_GROWTH_FREEDOM : ℝ)) * e.config.LAYER_INHERITANCE))
    + e.compute_light_score x y layer_index * e.config.WEIGHT_LIGHT
    + e.compute_obstacle_penalty x y * e.config.WEIGHT_OBSTACLE
    + (if distance_to_true_outside (g.set x y true) x y ≤ e.presetEdgeDistanceThreshold
       then e.presetEdgeBonusScore else 0)
    + (e.compute_width_score g x y : ℝ)

theorem gpLoop_blocked (e : GrowthEngine) (x y : ℤ) :
    ∀ (l : List GrowthPoint) (acc : ℝ),
      (∃ gp ∈ l, gp.get_influence x y e.config.CELL_SIZE e.constraints.origin <
        e.config.HARD_BLOCKADE_THRESHOLD) →
      gpLoop e x y l acc = none := by
  intro l
  induction l with
  | nil =>
      rintro acc ⟨gp, hmem, -⟩
      cases hmem
  | cons gp rest ih =>
      rintro acc ⟨gp', hmem, hlt⟩
      unfold gpLoop
      by_cases hhead : gp.get_influence x y e.config.CELL_SIZE e.constraints.origin <
          e.config.HARD_BLOCKADE_THRESHOLD
      · rw [if_pos hhead]
      · rw [if_neg hhead]
        rcases List.mem_cons.mp hmem with h | h
        · subst h
          exact absurd hlt hhead
        · exact ih _ ⟨gp', h, hlt⟩

/-- **C5.** Whenever the influence of at least one configured growth point
at the candidate cell is below `HARD_BLOCKADE_THRESHOLD`, `score_candidate`
returns the `-inf` sentinel, whatever the grid, layer index, lower grid and
all remaining scoring terms are. -/
theorem C5_hard_blockade_vetoes (e : GrowthEngine) (g : Grid) (x y : ℤ)
    (layer_index : ℕ) (lower_grid : Option Grid)
    (h : ∃ gp ∈ e.growth_points,
      gp.get_influence x y e.config.CELL_SIZE e.constraints.origin <
        e.config.HARD_BLOCKADE_THRESHOLD) :
    e.score_candidate g x y layer_index lower_grid = none := by
  unfold GrowthEngine.score_candidate
  rw [gpLoop_blocked e x y e.growth_points 0 h]
  rfl

/-- A growth point sitting exactly on the centre of cell `(0,0)` with
strength −10: its influence there is −10, below the −5 blockade. -/
noncomputable def blockingPoint : GrowthPoint :=
  ⟨some (1.5, 1.5), -10, 5, false, none⟩

noncomputable def blockadeEngine : GrowthEngine :=
  ⟨shippedConfig, openConstraints, ∅, [blockingPoint], [(1, 1)], [[(1, 1)]], [],
    "Living", livingPreset⟩

theorem blockingPoint_influence :
    blockingPoint.get_influence 0 0 blockadeEngine.config.CELL_SIZE
      blockadeEngine.constraints.origin = -10 := by
  unfold GrowthPoint.get_influence GrowthPoint.point_influence GrowthPoint.cellCenter
    blockadeEngine blockingPoint shippedConfig openConstraints
  norm_num [Real.sqrt_zero]

/-- Witness for C5: the −10 influence of `blockingPoint` at cell `(0,0)`
forces the sentinel score. -/
theorem C5_witness :
    (∃ gp ∈ blockadeEngine.growth_points,
      gp.get_influence 0 0 blockadeEngine.config.CELL_SIZE
          blockadeEngine.constraints.origin <
        blockadeEngine.config.HARD_BLOCKADE_THRESHOLD) ∧
      blockadeEngine.score_candidate (Grid.init 4 4) 0 0 0 none = none := by
  have hmem : blockingPoint ∈ blockadeEngine.growth_points := List.mem_singleton_self _
  have hlt : blockingPoint.get_influence 0 0 blockadeEngine.config.CELL_SIZE
      blockadeEngine.constraints.origin <
        blockadeEngine.config.HARD_BLOCKADE_THRESHOLD := by
    rw [blockingPoint_influence]
    show (-10 : ℝ) < shippedConfig.HARD_BLOCKADE_THRESHOLD
    unfold shippedConfig
    norm_num
  exact ⟨⟨blockingPoint, hmem, hlt⟩,
    C5_hard_blockade_vetoes blockadeEngine (Grid.init 4 4) 0 0 0 none
      ⟨blockingPoint, hmem, hlt⟩⟩

/-! ## Sampling weights (`grow_layer`, source lines 2302–2312) -/

/-- The weight-construction loop over the top-20 scored candidates: a fixed
near-zero weight below the strongly-negative threshold, the fixed reduced
weight for other negative scores, `exp(score × 0.5)` otherwise. -/
noncomputable def buildWeights (cfg : Config) (scored : List (Cell × ℝ)) : List ℝ :=
  (scored.take 20).map fun ps =>
    if ps.2 < cfg.STRONGLY_NEGATIVE_THRESHOLD then 0.001
    else if ps.2 < 0 then cfg.NEGATIVE_SCORE_WEIGHT
    else Real.exp (ps.2 * 0.5)

/-- **C9.** In the weighted selection of the frontier growth loop, the
sampling weight of each of the top-ranked candidates is a function of its
score alone: `0.001` below `STRONGLY_NEGATIVE_THRESHOLD`, the fixed
`NEGATIVE_SCORE_WEIGHT` for other negative scores, and `exp(score × 0.5)`
for non-negative scores. -/
theorem C9_sampling_weights (cfg : Config) (scored : List (Cell × ℝ)) (i : ℕ)
    (hT : cfg.STRONGLY_NEGATIVE_THRESHOLD < 0)
    (hi : i < scored.length) (h20 : i < 20) :
    ∃ w : ℝ, (buildWeights cfg scored)[i]? = some w ∧
      ((scored.get ⟨i, hi⟩).2 < cfg.STRONGLY_NEGATIVE_THRESHOLD → w = 0.001) ∧
      (cfg.STRONGLY_NEGATIVE_THRESHOLD ≤ (scored.get ⟨i, hi⟩).2 →
        (scored.get ⟨i, hi⟩).2 < 0 → w = cfg.NEGATIVE_SCORE_WEIGHT) ∧
      (0 ≤ (scored.get ⟨i, hi⟩).2 → w = Real.exp ((scored.get ⟨i, hi⟩).2 * 0.5)) := by
  refine ⟨if (scored.get ⟨i, hi⟩).2 < cfg.STRONGLY_NEGATIVE_THRESHOLD then 0.001
    else if (scored.get ⟨i, hi⟩).2 < 0 then cfg.NEGATIVE_SCORE_WEIGHT
    else Real.exp ((scored.get ⟨i, hi⟩).2 * 0.5), ?_, ?_, ?_, ?_⟩
  · unfold buildWeights
    rw [List.getElem?_map, List.getElem?_take, if_pos h20, List.getElem?_eq_getElem hi]
    rfl
  · intro h1
    rw [if_pos h1]
  · intro h1 h2
    rw [if_neg (not_lt.mpr h1), if_pos h2]
  · intro h0
    rw [if_neg (not_lt.mpr (le_of_lt (lt_of_lt_of_le hT h0))), if_neg (not_lt.mpr h0)]

/-- Witness for C9 at the shipped configuration: a single candidate with
score −30 (below the −20 threshold) receives weight `0.001`. -/
theorem C9_witness :
    shippedConfig.STRONGLY_NEGATIVE_THRESHOLD < 0 ∧
      ∃ w : ℝ, (buildWeights shippedConfig [((0, 0), -30)])[0]? = some w ∧
        w = 0.001 := by
  have hT : shippedConfig.STRONGLY_NEGATIVE_THRESHOLD < 0 := by
    unfold shippedConfig
    norm_num
  obtain ⟨w, hw, hcase, -, -⟩ := C9_sampling_weights shippedConfig [((0, 0), -30)] 0 hT
    (by decide) (by decide)
  refine ⟨hT, w, hw, hcase ?_⟩
  show (-30 : ℝ) < shippedConfig.STRONGLY_NEGATIVE_THRESHOLD
  unfold shippedConfig
  norm_num

/-! ## Pruning (`GrowthEngine._prune_to_max`, source lines 2494–2533)

The loop body is modelled as a step function: `none` means the `while`
condition failed or the loop hit `break`; `some g'` is the grid entering the
next iteration.  The source stable-sorts the non-seed alive cells by alive
4-neighbour count and takes `sorted[0]`; the head of a stable sort by key is
exactly the first element of the original (row-major) order achieving the
minimal key, which is what `pruneCandidate` computes. -/

/-- `cells_with_neighbors.sort(key=count)[0]` of `_prune_to_max`: the first
alive non-seed cell, in `get_all_alive_cells` order, with the fewest alive
4-neighbours. -/
def pruneCandidate (e : GrowthEngine) (g : Grid) : Option Cell :=
  match (g.get_all_alive_cells).filter (fun c => decide (c ∉ e.start_cells)) with
  | [] => none
  | c :: cs =>
      some (cs.foldl
        (fun best d =>
          if g.count_alive_neighbors_4 d.1 d.2 < g.count_alive_neighbors_4 best.1 best.2
          then d else best) c)

/-- One iteration of `_prune_to_max`'s `while` loop. -/
def prune_step (e : GrowthEngine) (max_cells : ℕ) (g : Grid) : Option Grid :=
  if g.alive_count ≤ max_cells then none
  else
    match pruneCandidate e g with
    | none => none
    | some c =>
        if e.start_cells ≠ [] then
          match e.start_cells.find?
              (fun s => (g.set c.1 c.2 false).is_alive s.1 s.2) with
          | none => some (g.set c.1 c.2 false)
          | some st =>
              if ((g.set c.1 c.2 false).get_component st.1 st.2).card =
                  ((g.set c.1 c.2 false).get_all_alive_cells).length
              then some (g.set c.1 c.2 false)
              else some ((g.set c.1 c.2 false).set c.1 c.2 true)
        else some (g.set c.1 c.2 false)

/-- `GrowthEngine._prune_to_max`, run for `fuel` iterations (the source has
no fuel: it loops until `prune_step` signals `none`). -/
def prune_to_max_fuel (e : GrowthEngine) (max_cells : ℕ) : ℕ → Grid → Grid
  | 0, g => g
  | fuel + 1, g =>
      match prune_step e max_cells g with
      | none => g
      | some g' => prune_to_max_fuel e max_cells fuel g'

/-- The dumbbell counterexample for C7: a 2×2 block anchored at the start
cell `(0,0)` plus a detached two-cell column at `(3,3)`–`(3,4)`. -/
def dumbbellGrid : Grid :=
  ⟨5, 5,
   [[true,  true,  false, false, false],
    [true,  true,  false, false, false],
    [false, false, false, false, false],
    [false, false, false, true,  false],
    [false, false, false, true,  false]]⟩

noncomputable def pruneEngine : GrowthEngine :=
  ⟨shippedConfig, openConstraints, ∅, [], [(0, 0)], [[(0, 0)]], [], "Living",
    livingPreset⟩

/-- **C7 (counterexample).** On `dumbbellGrid` with `max_cells = 5` the cell
count (6) exceeds the maximum, the minimum-neighbour candidate is the
detached cell `(3,3)`, its removal breaks the anchor-component count check,
and the loop body reverts it and `continue`s — recomputing the *same*
candidate.  One loop iteration maps the grid to itself while the count still
exceeds the maximum, so `_prune_to_max` never terminates here: it does not
move on to another candidate, and no amount of iterations completes the
pruning. -/
theorem C7_prune_retries_same_candidate_forever :
    5 < dumbbellGrid.alive_count ∧
      pruneCandidate pruneEngine dumbbellGrid = some (3, 3) ∧
      prune_step pruneEngine 5 dumbbellGrid = some dumbbellGrid ∧
      ∀ n : ℕ, prune_to_max_fuel pruneEngine 5 n dumbbellGrid = dumbbellGrid := by
  have hstep : prune_step pruneEngine 5 dumbbellGrid = some dumbbellGrid := by decide
  refine ⟨by decide, by decide, hstep, ?_⟩
  intro n
  induction n with
  | zero => rfl
  | succ m ih =>
      show (match prune_step pruneEngine 5 dumbbellGrid with
        | none => dumbbellGrid
        | some g' => prune_to_max_fuel pruneEngine 5 m g') = dumbbellGrid
      rw [hstep]
      exact ih

/-! ## Layer pipeline connectivity (claim C1)

The claim concerns the whole per-layer pipeline of
`Simulation._run_simulation_single_group` / `_run_simulation_multi_group`
(source lines 3193–3364): place the start cells, apply tracked vertical
holes, run `grow_layer` (frontier growth, minimum top-up, pruning), remove
isolated cells, re-enforce the start cells, and re-apply the vertical
holes.  The invariant is that every alive cell stays 4-connected to some
start cell through alive cells. -/

/-- A write outside the grid is a no-op. -/
theorem set_oob_eq (g : Grid) (x y : ℤ) (v : Bool) (h : ¬g.in_bounds x y) :
    g.set x y v = g := by
  unfold Grid.set
  rw [if_neg h]

theorem get_true_in_bounds {g : Grid} {x y : ℤ} (h : g.get x y = true) :
    g.in_bounds x y := by
  unfold Grid.get at h
  by_contra hb
  rw [if_neg hb] at h
  exact Bool.false_ne_true h

/-- Reading after writing `true`: the old value, or the written position. -/
theorem get_set_true_iff {g : Grid} (hwf : g.Wf) (x y a b : ℤ) :
    (g.set x y true).get a b = true ↔
      (g.get a b = true ∨ (a = x ∧ b = y ∧ g.in_bounds x y)) := by
  by_cases hb : g.in_bounds x y
  · by_cases hab : a = x ∧ b = y
    · obtain ⟨rfl, rfl⟩ := hab
      rw [get_set_self hwf hb]
      simp [hb]
    · rw [get_set_ne g x y true a b hab]
      constructor
      · exact Or.inl
      · rintro (h | ⟨rfl, rfl, -⟩)
        · exact h
        · exact absurd ⟨rfl, rfl⟩ hab
  · rw [set_oob_eq g x y true hb]
    constructor
    · exact Or.inl
    · rintro (h | ⟨-, -, hbb⟩)
      · exact h
      · exact absurd hbb hb

/-- Reading after writing `false`: the old value away from the written
position, never the written position itself. -/
theorem get_set_false_iff {g : Grid} (hwf : g.Wf) (x y a b : ℤ) :
    (g.set x y false).get a b = true ↔
      (g.get a b = true ∧ ¬(a = x ∧ b = y)) := by
  by_cases hb : g.in_bounds x y
  · by_cases hab : a = x ∧ b = y
    · obtain ⟨rfl, rfl⟩ := hab
      rw [get_set_self hwf hb]
      simp
    · rw [get_set_ne g x y false a b hab]
      simp [hab]
  · rw [set_oob_eq g x y false hb]
    constructor
    · intro h
      refine ⟨h, ?_⟩
      rintro ⟨rfl, rfl⟩
      exact hb (get_true_in_bounds h)
    · exact fun h => h.1

theorem alive_set_true_iff {g : Grid} (hwf : g.Wf) (x y a b : ℤ) :
    (g.set x y true).is_alive a b = true ↔
      (g.is_alive a b = true ∨ (a = x ∧ b = y ∧ g.in_bounds x y)) := by
  rw [is_alive_iff, is_alive_iff, in_bounds_set, get_set_true_iff hwf]
  constructor
  · rintro ⟨hab, h | h⟩
    · exact Or.inl ⟨hab, h⟩
    · exact Or.inr h
  · rintro (⟨hab, h⟩ | h)
    · exact ⟨hab, Or.inl h⟩
    · obtain ⟨rfl, rfl, hbb⟩ := h
      exact ⟨hbb, Or.inr ⟨rfl, rfl, hbb⟩⟩

theorem alive_set_false_iff {g : Grid} (hwf : g.Wf) (x y a b : ℤ) :
    (g.set x y false).is_alive a b = true ↔
      (g.is_alive a b = true ∧ ¬(a = x ∧ b = y)) := by
  rw [is_alive_iff, is_alive_iff, in_bounds_set, get_set_false_iff hwf]
  tauto

theorem alive_set_true_mono {g : Grid} (hwf : g.Wf) (x y a b : ℤ)
    (h : g.is_alive a b = true) : (g.set x y true).is_alive a b = true :=
  (alive_set_true_iff hwf x y a b).mpr (Or.inl h)

theorem in_bounds_congr {g g' : Grid} (hc : g'.cols = g.cols)
    (hr : g'.rows = g.rows) (x y : ℤ) : g'.in_bounds x y ↔ g.in_bounds x y := by
  unfold Grid.in_bounds
  rw [hc, hr]

/-- The neighbour lists only depend on the grid dimensions. -/
theorem neighbors_4_congr {g g' : Grid} (hc : g'.cols = g.cols)
    (hr : g'.rows = g.rows) (x y : ℤ) :
    g'.neighbors_4 x y = g.neighbors_4 x y := by
  unfold Grid.neighbors_4
  have hfn : (fun d : ℤ × ℤ =>
      if g'.in_bounds (x + d.1) (y + d.2) then some ((x + d.1, y + d.2) : Cell) else none) =
      (fun d : ℤ × ℤ =>
      if g.in_bounds (x + d.1) (y + d.2) then some ((x + d.1, y + d.2) : Cell) else none) := by
    funext d
    by_cases hbb : g.in_bounds (x + d.1) (y + d.2)
    · rw [if_pos hbb, if_pos ((in_bounds_congr hc hr _ _).mpr hbb)]
    · rw [if_neg hbb, if_neg (fun hh => hbb ((in_bounds_congr hc hr _ _).mp hh))]
  rw [hfn]

/-- Reachability is monotone in the pass predicate and transports across
grids with equal dimensions. -/
theorem reach_mono_transport {g g' : Grid} (hc : g'.cols = g.cols)
    (hr : g'.rows = g.rows) {ok ok' : Cell → Bool}
    (hok : ∀ c : Cell, ok c = true → ok' c = true)
    {a c : Cell} (h : ReachThrough g ok a c) : ReachThrough g' ok' a c := by
  induction h with
  | refl => exact Relation.ReflTransGen.refl
  | tail hstep hedge ih =>
      exact ih.tail ⟨by rw [neighbors_4_congr hc hr]; exact hedge.1, hok _ hedge.2⟩

theorem reach_ok_end {g : Grid} {ok : Cell → Bool} {a c : Cell}
    (h : ReachThrough g ok a c) : c = a ∨ ok c = true := by
  induction h with
  | refl => exact Or.inl rfl
  | tail hstep hedge ih => exact Or.inr hedge.2

/-- Restricting the pass predicate keeps a path alive as long as every
passed cell with a passed neighbour still passes: only isolated cells can
drop out, and interior path cells always have a passed neighbour. -/
theorem reach_restrict {g : Grid} {ok ok' : Cell → Bool}
    (hok : ∀ c : Cell, ok' c = true → ok c = true)
    (hkeep : ∀ c : Cell, ok c = true →
      (∃ d ∈ g.neighbors_4 c.1 c.2, ok d = true) → ok' c = true)
    {a c : Cell} (ha : ok' a = true) (h : ReachThrough g ok a c) :
    ok' c = true → ReachThrough g ok' a c := by
  induction h with
  | refl => exact fun _ => Relation.ReflTransGen.refl
  | tail hstep hedge ih =>
      intro hc'
      rename_i b c'
      have hokb : b = _ ∨ ok b = true := reach_ok_end hstep
      have hok'b : ok' b = true := by
        rcases hokb with rfl | hokb
        · exact ha
        · exact hkeep b hokb ⟨c', hedge.1, hedge.2⟩
      exact (ih hok'b).tail ⟨hedge.1, hc'⟩

/-- The connectivity invariant of claim C1: every alive cell of `g` is
reachable from some alive anchor cell through alive 4-connected cells. -/
def Anchored (anchors : List Cell) (g : Grid) : Prop :=
  ∀ c : Cell, g.is_alive c.1 c.2 = true →
    ∃ s ∈ anchors, g.is_alive s.1 s.2 = true ∧
      ReachThrough g (fun d => g.is_alive d.1 d.2) s c

/-- No alive cell sits on a tracked vertical hole. -/
def HoleFree (e : GrowthEngine) (g : Grid) : Prop :=
  ∀ c : Cell, c ∈ e.vertical_holes_tracker → g.is_alive c.1 c.2 = false

theorem anchored_sublist {A A' : List Cell} (h : ∀ c ∈ A, c ∈ A') {g : Grid}
    (ha : Anchored A g) : Anchored A' g := by
  intro c hc
  obtain ⟨s, hs, hal, hr⟩ := ha c hc
  exact ⟨s, h s hs, hal, hr⟩

/-! ### Folded cell writes

The pipeline phases all mutate the grid through `for` loops of `Grid.set`
calls; these three lemmas characterise the resulting cell values. -/

/-- Characterisation of a loop writing `true` at every listed cell passing a
test `P` that only depends on the grid dimensions (the shape of
`enforce_start_cells` and of the filtered start-cell placement). -/
theorem foldl_cond_set_char (P : Grid → Cell → Bool)
    (hP : ∀ g g' : Grid, g.cols = g'.cols → g.rows = g'.rows → ∀ c, P g c = P g' c) :
    ∀ (L : List Cell) (g : Grid), g.Wf →
      (L.foldl (fun a c => if P a c then a.set c.1 c.2 true else a) g).cols = g.cols ∧
      (L.foldl (fun a c => if P a c then a.set c.1 c.2 true else a) g).rows = g.rows ∧
      (L.foldl (fun a c => if P a c then a.set c.1 c.2 true else a) g).Wf ∧
      ∀ x y : ℤ,
        (L.foldl (fun a c => if P a c then a.set c.1 c.2 true else a) g).get x y = true ↔
          (g.get x y = true ∨ ((x, y) ∈ L ∧ P g (x, y) = true ∧ g.in_bounds x y)) := by
  intro L
  induction L with
  | nil =>
      intro g hwf
      exact ⟨rfl, rfl, hwf, fun x y => by simp⟩
  | cons c L ih =>
      intro g hwf
      simp only [List.foldl_cons]
      by_cases hPc : P g c = true
      · rw [if_pos hPc]
        obtain ⟨hc1, hr1, hw1, hget1⟩ := ih (g.set c.1 c.2 true) (Grid.wf_set hwf _ _ _)
        refine ⟨by rw [hc1, Grid.cols_set], by rw [hr1, Grid.rows_set], hw1, ?_⟩
        intro x y
        rw [hget1 x y, get_set_true_iff hwf,
          hP (g.set c.1 c.2 true) g (Grid.cols_set _ _ _ _) (Grid.rows_set _ _ _ _) (x, y),
          in_bounds_set, List.mem_cons, Prod.ext_iff]
        constructor
        · rintro ((h | ⟨rfl, rfl, hbb⟩) | ⟨hmem, hPg, hbb⟩)
          · exact Or.inl h
          · exact Or.inr ⟨Or.inl ⟨rfl, rfl⟩, by rwa [show ((c.1, c.2) : Cell) = c from rfl], hbb⟩
          · exact Or.inr ⟨Or.inr hmem, hPg, hbb⟩
        · rintro (h | ⟨heq | hmem, hPg, hbb⟩)
          · exact Or.inl (Or.inl h)
          · obtain ⟨h1, h2⟩ := heq
            exact Or.inl (Or.inr ⟨h1, h2, by rwa [← h1, ← h2]⟩)
          · exact Or.inr ⟨hmem, hPg, hbb⟩
      · rw [if_neg hPc]
        obtain ⟨hc1, hr1, hw1, hget1⟩ := ih g hwf
        refine ⟨hc1, hr1, hw1, ?_⟩
        intro x y
        rw [hget1 x y, List.mem_cons, Prod.ext_iff]
        constructor
        · rintro (h | ⟨hmem, hPg, hbb⟩)
          · exact Or.inl h
          · exact Or.inr ⟨Or.inr hmem, hPg, hbb⟩
        · rintro (h | ⟨heq | hmem, hPg, hbb⟩)
          · exact Or.inl h
          · exfalso
            apply hPc
            obtain ⟨h1, h2⟩ := heq
            have hceq : c = ((x, y) : Cell) := Prod.ext h1.symm h2.symm
            rwa [hceq]
          · exact Or.inr ⟨hmem, hPg, hbb⟩

/-- The unconditional start-cell placement loop of layer 0 (source lines
3200–3201 and 3291–3292). -/
def setCellsTrue (L : List Cell) (g : Grid) : Grid :=
  L.foldl (fun a c => a.set c.1 c.2 true) g

theorem setCellsTrue_char : ∀ (L : List Cell) (g : Grid), g.Wf →
    (setCellsTrue L g).cols = g.cols ∧ (setCellsTrue L g).rows = g.rows ∧
    (setCellsTrue L g).Wf ∧
    ∀ x y : ℤ, (setCellsTrue L g).get x y = true ↔
      (g.get x y = true ∨ ((x, y) ∈ L ∧ g.in_bounds x y)) := by
  intro L
  induction L with
  | nil =>
      intro g hwf
      exact ⟨rfl, rfl, hwf, fun x y => by simp [setCellsTrue]⟩
  | cons c L ih =>
      intro g hwf
      unfold setCellsTrue at *
      simp only [List.foldl_cons]
      obtain ⟨hc1, hr1, hw1, hget1⟩ := ih (g.set c.1 c.2 true) (Grid.wf_set hwf _ _ _)
      refine ⟨by rw [hc1, Grid.cols_set], by rw [hr1, Grid.rows_set], hw1, ?_⟩
      intro x y
      rw [hget1 x y, get_set_true_iff hwf, in_bounds_set, List.mem_cons, Prod.ext_iff]
      constructor
      · rintro ((h | ⟨rfl, rfl, hbb⟩) | ⟨hmem, hbb⟩)
        · exact Or.inl h
        · exact Or.inr ⟨Or.inl ⟨rfl, rfl⟩, hbb⟩
        · exact Or.inr ⟨Or.inr hmem, hbb⟩
      · rintro (h | ⟨heq | hmem, hbb⟩)
        · exact Or.inl (Or.inl h)
        · obtain ⟨h1, h2⟩ := heq
          exact Or.inl (Or.inr ⟨h1, h2, by rwa [← h1, ← h2]⟩)
        · exact Or.inr ⟨hmem, hbb⟩

/-- A loop writing `false` at every listed cell (the removal loop of
`remove_isolated` and the vertical-hole application loops). -/
def clearCells (L : List Cell) (g : Grid) : Grid :=
  L.foldl (fun a c => a.set c.1 c.2 false) g

theorem clearCells_char : ∀ (L : List Cell) (g : Grid), g.Wf →
    (clearCells L g).cols = g.cols ∧ (clearCells L g).rows = g.rows ∧
    (clearCells L g).Wf ∧
    ∀ x y : ℤ, (clearCells L g).get x y = true ↔
      (g.get x y = true ∧ (x, y) ∉ L) := by
  intro L
  induction L with
  | nil =>
      intro g hwf
      exact ⟨rfl, rfl, hwf, fun x y => by simp [clearCells]⟩
  | cons c L ih =>
      intro g hwf
      unfold clearCells at *
      simp only [List.foldl_cons]
      obtain ⟨hc1, hr1, hw1, hget1⟩ := ih (g.set c.1 c.2 false) (Grid.wf_set hwf _ _ _)
      refine ⟨by rw [hc1, Grid.cols_set], by rw [hr1, Grid.rows_set], hw1, ?_⟩
      intro x y
      rw [hget1 x y, get_set_false_iff hwf, List.mem_cons, Prod.ext_iff]
      constructor
      · rintro ⟨⟨h, hne⟩, hmem⟩
        refine ⟨h, ?_⟩
        rintro (heq | hm)
        · exact hne ⟨heq.1, heq.2⟩
        · exact hmem hm
      · rintro ⟨h, hnot⟩
        refine ⟨⟨h, fun heq => hnot (Or.inl ⟨heq.1, heq.2⟩)⟩, fun hm => hnot (Or.inr hm)⟩

theorem clearCells_alive {L : List Cell} {g : Grid} (hwf : g.Wf) (x y : ℤ) :
    (clearCells L g).is_alive x y = true ↔
      (g.is_alive x y = true ∧ ((x, y) : Cell) ∉ L) := by
  obtain ⟨hc, hr, -, hget⟩ := clearCells_char L g hwf
  rw [is_alive_iff, is_alive_iff, in_bounds_congr hc hr, hget]
  tauto

/-! ### The cleanup phases of the pipeline -/

theorem get_init (cols rows : ℕ) (x y : ℤ) :
    (Grid.init cols rows).get x y = false := by
  unfold Grid.init Grid.get
  split_ifs with hb
  · simp only [List.getD_eq_getElem?_getD, List.getElem?_replicate]
    by_cases h1 : y.toNat < rows
    · rw [if_pos h1]
      simp only [Option.getD_some, List.getD_eq_getElem?_getD, List.getElem?_replicate]
      by_cases h2 : x.toNat < cols
      · rw [if_pos h2]
        rfl
      · rw [if_neg h2]
        rfl
    · rw [if_neg h1]
      simp only [Option.getD_none, List.getElem?_nil]
  · rfl

theorem alive_init (cols rows : ℕ) (x y : ℤ) :
    (Grid.init cols rows).is_alive x y = false := by
  unfold Grid.is_alive
  rw [get_init]
  exact Bool.and_false _

/-- `GrowthEngine.remove_isolated` (source lines 2535–2544): collect the
alive non-start cells without alive 4-neighbours, then clear them. -/
def GrowthEngine.remove_isolated (e : GrowthEngine) (g : Grid) : Grid :=
  clearCells
    (g.get_all_alive_cells.filter fun c =>
      decide (g.count_alive_neighbors_4 c.1 c.2 = 0) && decide (c ∉ e.start_cells)) g

/-- `GrowthEngine.enforce_start_cells` (source lines 2546–2550). -/
def GrowthEngine.enforce_start_cells (e : GrowthEngine) (g : Grid) : Grid :=
  e.start_cells.foldl
    (fun a c =>
      if decide (a.in_bounds c.1 c.2) && e.constraints.is_allowed c.1 c.2 then
        a.set c.1 c.2 true
      else a) g

/-- The vertical-hole application loops of the simulation (source lines
3254–3256, 3264–3266 and 3347–3349): clear every tracked hole cell. -/
noncomputable def applyVerticalHoles (tracker : Finset Cell) (g : Grid) : Grid :=
  clearCells tracker.toList g

/-- The filtered start-cell placement of the deeper layers (source lines
3250–3252 and 3333–3337). -/
def placeStartAllowed (cs : Constraints) (L : List Cell) (g : Grid) : Grid :=
  L.foldl (fun a c => if cs.is_allowed c.1 c.2 then a.set c.1 c.2 true else a) g

theorem applyVerticalHoles_alive {tracker : Finset Cell} {g : Grid}
    (hwf : g.Wf) (x y : ℤ) :
    (applyVerticalHoles tracker g).is_alive x y = true ↔
      (g.is_alive x y = true ∧ ((x, y) : Cell) ∉ tracker) := by
  unfold applyVerticalHoles
  rw [clearCells_alive hwf, Finset.mem_toList]

theorem applyVerticalHoles_dims {tracker : Finset Cell} {g : Grid} (hwf : g.Wf) :
    (applyVerticalHoles tracker g).cols = g.cols ∧
      (applyVerticalHoles tracker g).rows = g.rows ∧
      (applyVerticalHoles tracker g).Wf := by
  obtain ⟨h1, h2, h3, -⟩ := clearCells_char tracker.toList g hwf
  exact ⟨h1, h2, h3⟩

theorem enforce_start_cells_char (e : GrowthEngine) (g : Grid) (hwf : g.Wf) :
    (e.enforce_start_cells g).cols = g.cols ∧
      (e.enforce_start_cells g).rows = g.rows ∧
      (e.enforce_start_cells g).Wf ∧
      ∀ x y : ℤ, (e.enforce_start_cells g).is_alive x y = true ↔
        (g.is_alive x y = true ∨
          (((x, y) : Cell) ∈ e.start_cells ∧
            e.constraints.is_allowed x y = true ∧ g.in_bounds x y)) := by
  have hP : ∀ g1 g2 : Grid, g1.cols = g2.cols → g1.rows = g2.rows →
      ∀ c : Cell, (decide (g1.in_bounds c.1 c.2) && e.constraints.is_allowed c.1 c.2) =
        (decide (g2.in_bounds c.1 c.2) && e.constraints.is_allowed c.1 c.2) := by
    intro g1 g2 hc hr c
    have hib : g1.in_bounds c.1 c.2 ↔ g2.in_bounds c.1 c.2 :=
      in_bounds_congr hc hr c.1 c.2
    rw [decide_eq_decide.mpr hib]
  obtain ⟨h1, h2, h3, h4⟩ := foldl_cond_set_char
    (fun a c => decide (a.in_bounds c.1 c.2) && e.constraints.is_allowed c.1 c.2)
    hP e.start_cells g hwf
  unfold GrowthEngine.enforce_start_cells
  refine ⟨h1, h2, h3, ?_⟩
  intro x y
  rw [is_alive_iff, is_alive_iff, in_bounds_congr h1 h2, h4 x y]
  constructor
  · rintro ⟨hib, h | ⟨hmem, hcond, hib2⟩⟩
    · exact Or.inl ⟨hib, h⟩
    · rcases Bool.and_eq_true _ _ |>.mp hcond with ⟨-, hallow⟩
      exact Or.inr ⟨hmem, hallow, hib2⟩
  · rintro (⟨hib, h⟩ | ⟨hmem, hallow, hib⟩)
    · exact ⟨hib, Or.inl h⟩
    · exact ⟨hib, Or.inr ⟨hmem, by
        rw [Bool.and_eq_true, decide_eq_true_iff]
        exact ⟨hib, hallow⟩, hib⟩⟩

/-- Re-enforcing the start cells preserves the connectivity invariant: old
cells keep their old paths, and every re-added cell is itself a start
anchor. -/
theorem enforce_anchored (e : GrowthEngine) {g : Grid} (hwf : g.Wf)
    (h : Anchored e.start_cells g) :
    Anchored e.start_cells (e.enforce_start_cells g) := by
  obtain ⟨h1, h2, h3, hchar⟩ := enforce_start_cells_char e g hwf
  have hmono : ∀ d : Cell, g.is_alive d.1 d.2 = true →
      (e.enforce_start_cells g).is_alive d.1 d.2 = true := fun d hd =>
    (hchar d.1 d.2).mpr (Or.inl hd)
  intro c hc
  rcases (hchar c.1 c.2).mp hc with hold | ⟨hmem, -, -⟩
  · obtain ⟨s, hs, hsal, hreach⟩ := h c hold
    exact ⟨s, hs, hmono s hsal,
      reach_mono_transport h1 h2 (fun d hd => hmono d hd) hreach⟩
  · rw [Prod.mk.eta] at hmem
    exact ⟨c, hmem, hc, Relation.ReflTransGen.refl⟩

theorem count_alive_neighbors_4_pos {g : Grid} {x y : ℤ} {d : Cell}
    (hd : d ∈ g.neighbors_4 x y) (hal : g.is_alive d.1 d.2 = true) :
    g.count_alive_neighbors_4 x y ≠ 0 := by
  unfold Grid.count_alive_neighbors_4
  intro hzero
  rw [List.countP_eq_zero] at hzero
  have hdf := hzero d hd
  simp only [] at hdf
  rw [hal] at hdf
  exact hdf rfl

/-- `remove_isolated` preserves the connectivity invariant for any anchor
list: removed cells have no alive neighbours, so they can border no path,
and a path's interior cells always have an alive neighbour. -/
theorem remove_isolated_pres (e : GrowthEngine) (A : List Cell) {g : Grid}
    (hwf : g.Wf) :
    (e.remove_isolated g).cols = g.cols ∧ (e.remove_isolated g).rows = g.rows ∧
      (e.remove_isolated g).Wf ∧
      (Anchored A g → Anchored A (e.remove_isolated g)) ∧
      (HoleFree e g → HoleFree e (e.remove_isolated g)) := by
  unfold GrowthEngine.remove_isolated
  obtain ⟨h1, h2, h3, -⟩ := clearCells_char
    (g.get_all_alive_cells.filter fun c =>
      decide (g.count_alive_neighbors_4 c.1 c.2 = 0) && decide (c ∉ e.start_cells)) g hwf
  have hchar : ∀ u : Cell,
      (clearCells (g.get_all_alive_cells.filter fun c =>
        decide (g.count_alive_neighbors_4 c.1 c.2 = 0) && decide (c ∉ e.start_cells)) g).is_alive u.1 u.2 = true ↔
      (g.is_alive u.1 u.2 = true ∧
        u ∉ (g.get_all_alive_cells.filter fun c =>
          decide (g.count_alive_neighbors_4 c.1 c.2 = 0) && decide (c ∉ e.start_cells))) := by
    intro u
    rw [clearCells_alive hwf, Prod.mk.eta]
  have hnotR : ∀ u : Cell, g.count_alive_neighbors_4 u.1 u.2 ≠ 0 →
      u ∉ (g.get_all_alive_cells.filter fun c =>
        decide (g.count_alive_neighbors_4 c.1 c.2 = 0) && decide (c ∉ e.start_cells)) := by
    intro u hcnt hmem
    obtain ⟨-, hcond⟩ := List.mem_filter.mp hmem
    obtain ⟨hc0, -⟩ := Bool.and_eq_true _ _ |>.mp hcond
    exact hcnt (of_decide_eq_true hc0)
  refine ⟨h1, h2, h3, ?_, ?_⟩
  · intro hanch c hc
    obtain ⟨hcal, hcR⟩ := (hchar c).mp hc
    obtain ⟨s, hs, hsal, hreach⟩ := hanch c hcal
    by_cases hsR : s ∈ (g.get_all_alive_cells.filter fun c =>
        decide (g.count_alive_neighbors_4 c.1 c.2 = 0) && decide (c ∉ e.start_cells))
    · exfalso
      obtain ⟨-, hcond⟩ := List.mem_filter.mp hsR
      obtain ⟨hc0, -⟩ := Bool.and_eq_true _ _ |>.mp hcond
      have hs0 : g.count_alive_neighbors_4 s.1 s.2 = 0 := of_decide_eq_true hc0
      rcases Relation.ReflTransGen.cases_head hreach with heq | ⟨b, hedge, -⟩
      · exact hcR (heq ▸ hsR)
      · exact count_alive_neighbors_4_pos hedge.1 hedge.2 hs0
    · have hsal2 := (hchar s).mpr ⟨hsal, hsR⟩
      refine ⟨s, hs, hsal2, ?_⟩
      have hrestrict := @reach_restrict g
        (fun d => g.is_alive d.1 d.2)
        (fun d => (clearCells (g.get_all_alive_cells.filter fun c =>
          decide (g.count_alive_neighbors_4 c.1 c.2 = 0) && decide (c ∉ e.start_cells)) g).is_alive d.1 d.2)
        (fun d hd => ((hchar d).mp hd).1)
        (fun d hd hex => hex.elim fun u hu =>
          (hchar d).mpr ⟨hd, hnotR d (count_alive_neighbors_4_pos hu.1 hu.2)⟩)
        s c hsal2 hreach hc
      exact reach_mono_transport h1 h2 (fun d hd => hd) hrestrict
  · intro hhf u hu
    by_contra hne2
    rw [Bool.not_eq_false] at hne2
    have hal := ((hchar u).mp hne2).1
    rw [hhf u hu] at hal
    exact Bool.false_ne_true hal

/-! ### Pruning preserves the invariant -/

theorem foldl_min_choice_mem (f : Cell → ℕ) :
    ∀ (cs : List Cell) (c : Cell),
      cs.foldl (fun best d => if f d < f best then d else best) c ∈ c :: cs := by
  intro cs
  induction cs with
  | nil => intro c; exact List.mem_singleton.mpr rfl
  | cons d cs ih =>
      intro c
      simp only [List.foldl_cons]
      by_cases hdc : f d < f c
      · rw [if_pos hdc]
        rcases List.mem_cons.mp (ih d) with h | h
        · exact List.mem_cons.mpr (Or.inr (List.mem_cons.mpr (Or.inl h)))
        · exact List.mem_cons.mpr (Or.inr (List.mem_cons.mpr (Or.inr h)))
      · rw [if_neg hdc]
        rcases List.mem_cons.mp (ih c) with h | h
        · exact List.mem_cons.mpr (Or.inl h)
        · exact List.mem_cons.mpr (Or.inr (List.mem_cons.mpr (Or.inr h)))

/-- The pruning candidate is an alive non-start cell. -/
theorem pruneCandidate_spec {e : GrowthEngine} {g : Grid} {c : Cell}
    (h : pruneCandidate e g = some c) :
    g.is_alive c.1 c.2 = true ∧ c ∉ e.start_cells := by
  unfold pruneCandidate at h
  cases hfil : (g.get_all_alive_cells).filter (fun c => decide (c ∉ e.start_cells)) with
  | nil =>
      rw [hfil] at h
      cases h
  | cons c0 cs =>
      rw [hfil] at h
      have hmem : (cs.foldl
          (fun best d =>
            if g.count_alive_neighbors_4 d.1 d.2 < g.count_alive_neighbors_4 best.1 best.2
            then d else best) c0) ∈ c0 :: cs :=
        foldl_min_choice_mem (fun u => g.count_alive_neighbors_4 u.1 u.2) cs c0
      obtain rfl := Option.some_inj.mp h
      rw [← hfil] at hmem
      obtain ⟨hal, hns⟩ := List.mem_filter.mp hmem
      exact ⟨mem_get_all_alive_cells.mp hal, of_decide_eq_true hns⟩

theorem get_component_alive {g : Grid} {sx sy : ℤ} {c : Cell}
    (h : c ∈ g.get_component sx sy) : g.is_alive c.1 c.2 = true := by
  unfold Grid.get_component at h
  split_ifs at h with hs
  · unfold flood at h
    exact flood_iter_ok g _ _ _ c h
  · exact absurd h (Finset.not_mem_empty c)

/-- One pruning iteration keeps the grid well-formed, keeps every alive cell
anchored to a start cell, and never revives a tracked hole.  The unchecked
removal path (no alive start cell found) is unreachable: the candidate
itself is alive and anchored, and its anchor survives the removal. -/
theorem prune_step_pres (e : GrowthEngine) (max_cells : ℕ) {g g' : Grid}
    (hwf : g.Wf) (hanch : Anchored e.start_cells g) (hne : e.start_cells ≠ [])
    (hstep : prune_step e max_cells g = some g') :
    g'.cols = g.cols ∧ g'.rows = g.rows ∧ g'.Wf ∧ Anchored e.start_cells g' ∧
      (HoleFree e g → HoleFree e g') := by
  unfold prune_step at hstep
  by_cases hcnt : g.alive_count ≤ max_cells
  · rw [if_pos hcnt] at hstep
    cases hstep
  · rw [if_neg hcnt] at hstep
    cases hcand : pruneCandidate e g with
    | none =>
        have hstep2 : (none : Option Grid) = some g' := by
          rw [hcand] at hstep
          exact hstep
        cases hstep2
    | some c =>
        have hstep2 : (if e.start_cells ≠ [] then
            match e.start_cells.find? (fun s => (g.set c.1 c.2 false).is_alive s.1 s.2) with
            | none => some (g.set c.1 c.2 false)
            | some st =>
                if ((g.set c.1 c.2 false).get_component st.1 st.2).card =
                    ((g.set c.1 c.2 false).get_all_alive_cells).length
                then some (g.set c.1 c.2 false)
                else some ((g.set c.1 c.2 false).set c.1 c.2 true)
          else some (g.set c.1 c.2 false)) = some g' := by
          rw [hcand] at hstep
          exact hstep
        rw [if_pos hne] at hstep2
        obtain ⟨hcal, hcns⟩ := pruneCandidate_spec hcand
        obtain ⟨s0, hs0mem, hs0al, -⟩ := hanch c hcal
        have hs0ne : ¬(s0.1 = c.1 ∧ s0.2 = c.2) := by
          rintro ⟨h1, h2⟩
          exact hcns (by rw [← Prod.ext h1 h2]; exact hs0mem)
        have hs0al' : (g.set c.1 c.2 false).is_alive s0.1 s0.2 = true :=
          (alive_set_false_iff hwf c.1 c.2 s0.1 s0.2).mpr ⟨hs0al, hs0ne⟩
        obtain ⟨st, hst⟩ : ∃ st,
            e.start_cells.find? (fun s => (g.set c.1 c.2 false).is_alive s.1 s.2) = some st :=
          Option.isSome_iff_exists.mp (List.find?_isSome.mpr ⟨s0, hs0mem, hs0al'⟩)
        have hstep3 : (if ((g.set c.1 c.2 false).get_component st.1 st.2).card =
              ((g.set c.1 c.2 false).get_all_alive_cells).length
            then some (g.set c.1 c.2 false)
            else some ((g.set c.1 c.2 false).set c.1 c.2 true)) = some g' := by
          rw [hst] at hstep2
          exact hstep2
        by_cases hcard : ((g.set c.1 c.2 false).get_component st.1 st.2).card =
            ((g.set c.1 c.2 false).get_all_alive_cells).length
        · rw [if_pos hcard] at hstep3
          obtain rfl := Option.some_inj.mp hstep3
          have hstal : (g.set c.1 c.2 false).is_alive st.1 st.2 = true := by
            have := List.find?_some hst
            simpa using this
          have hstmem : st ∈ e.start_cells := List.mem_of_find?_eq_some hst
          refine ⟨Grid.cols_set _ _ _ _, Grid.rows_set _ _ _ _, Grid.wf_set hwf _ _ _, ?_, ?_⟩
          · intro d hdal
            have hdmem : d ∈ (g.set c.1 c.2 false).get_all_alive_cells :=
              mem_get_all_alive_cells.mpr hdal
            have hsub : (g.set c.1 c.2 false).get_component st.1 st.2 ⊆
                ((g.set c.1 c.2 false).get_all_alive_cells).toFinset := by
              intro u hu
              exact List.mem_toFinset.mpr (mem_get_all_alive_cells.mpr (get_component_alive hu))
            have heq : (g.set c.1 c.2 false).get_component st.1 st.2 =
                ((g.set c.1 c.2 false).get_all_alive_cells).toFinset := by
              refine Finset.eq_of_subset_of_card_le hsub ?_
              rw [hcard]
              exact List.toFinset_card_le _
            have hdin : d ∈ (g.set c.1 c.2 false).get_component st.1 st.2 := by
              rw [heq]
              exact List.mem_toFinset.mpr hdmem
            obtain ⟨hstal2, hreach⟩ := (get_component_spec _ st.1 st.2 d).mp hdin
            refine ⟨st, hstmem, hstal2, ?_⟩
            have : ((st.1, st.2) : Cell) = st := Prod.mk.eta
            rwa [this] at hreach
          · intro hhf u hu
            by_contra hne2
            rw [Bool.not_eq_false] at hne2
            have h2 := ((alive_set_false_iff hwf c.1 c.2 u.1 u.2).mp hne2).1
            rw [hhf u hu] at h2
            exact Bool.false_ne_true h2
        · rw [if_neg hcard] at hstep3
          obtain rfl := Option.some_inj.mp hstep3
          have hget : g.get c.1 c.2 = true := (is_alive_iff.mp hcal).2
          rw [set_set_restore g c.1 c.2 false true hget]
          exact ⟨rfl, rfl, hwf, hanch, fun h => h⟩

/-- `_prune_to_max`, for any number of iterations, preserves well-formedness,
anchoring and hole-freedom. -/
theorem prune_to_max_pres (e : GrowthEngine) (max_cells : ℕ)
    (hne : e.start_cells ≠ []) :
    ∀ (fuel : ℕ) (g : Grid), g.Wf → Anchored e.start_cells g →
      (prune_to_max_fuel e max_cells fuel g).cols = g.cols ∧
      (prune_to_max_fuel e max_cells fuel g).rows = g.rows ∧
      (prune_to_max_fuel e max_cells fuel g).Wf ∧
      Anchored e.start_cells (prune_to_max_fuel e max_cells fuel g) ∧
      (HoleFree e g → HoleFree e (prune_to_max_fuel e max_cells fuel g)) := by
  intro fuel
  induction fuel with
  | zero =>
      intro g hwf hanch
      exact ⟨rfl, rfl, hwf, hanch, fun h => h⟩
  | succ n ih =>
      intro g hwf hanch
      have hunf : prune_to_max_fuel e max_cells (n + 1) g =
          match prune_step e max_cells g with
          | none => g
          | some g1 => prune_to_max_fuel e max_cells n g1 := rfl
      cases hstep : prune_step e max_cells g with
      | none =>
          rw [hunf, hstep]
          exact ⟨rfl, rfl, hwf, hanch, fun h => h⟩
      | some g1 =>
          rw [hunf, hstep]
          obtain ⟨p1, p2, p3, p4, p5⟩ := prune_step_pres e max_cells hwf hanch hne hstep
          obtain ⟨k1, k2, k3, k4, k5⟩ := ih g1 p3 p4
          exact ⟨k1.trans p1, k2.trans p2, k3, k4, fun h => k5 (p5 h)⟩

/-! ### The frontier growth loop

`grow_layer` (source lines 2257–2350) scores the frontier candidates,
filters the unplaceable and hard-vetoed ones, stable-sorts by score and
draws one of the top 20 by weighted random choice.  The random draw
`random.random()` and `random.shuffle` are abstracted as an oracle; the
weighted cumulative-sum selection itself is modelled exactly. -/

/-- What `grow_layer` extracts from `can_place` for the connectivity
argument: the candidate is no tracked hole, is empty, touches an alive
cell, and passed the anchor-connectivity test. -/
theorem can_place_true_parts {e : GrowthEngine} {g : Grid} {x y : ℤ}
    {layer_index : ℕ} {lower_grid : Option Grid}
    (h : e.can_place g x y layer_index lower_grid = true) :
    ((x, y) : Cell) ∉ e.vertical_holes_tracker ∧ g.is_alive x y = false ∧
      g.has_alive_neighbor_4 x y = true ∧
      (e.check_connectivity_st g x y).1 = true := by
  unfold GrowthEngine.can_place at h
  by_cases h1 : e.constraints.is_allowed x y = false
  · rw [if_pos h1] at h
    cases h
  · rw [if_neg h1] at h
    by_cases h2 : ((x, y) : Cell) ∈ e.vertical_holes_tracker
    · rw [if_pos h2] at h
      cases h
    · rw [if_neg h2] at h
      by_cases h3 : g.is_alive x y = true
      · rw [if_pos h3] at h
        cases h
      · rw [if_neg h3] at h
        by_cases h4 : g.has_alive_neighbor_4 x y = false
        · rw [if_pos h4] at h
          cases h
        · rw [if_neg h4] at h
          by_cases h5 : strict_support_blocks e lower_grid x y = true
          · rw [if_pos h5] at h
            cases h
          · rw [if_neg h5] at h
            by_cases h6 : (e.check_connectivity_st g x y).1 = false
            · rw [if_pos h6] at h
              cases h
            · rw [Bool.not_eq_true] at h3
              rw [Bool.not_eq_false] at h4 h6
              exact ⟨h2, h3, h4, h6⟩

/-- Placing a candidate that passed `can_place` keeps every alive cell
anchored: the old cells keep their paths, and the connectivity check
certifies a path from the live anchor to the new cell. -/
theorem place_candidate_anchored {e : GrowthEngine} {g : Grid} {x y : ℤ}
    {layer_index : ℕ} {lower_grid : Option Grid} (hwf : g.Wf)
    (hanch : Anchored e.checkCells g)
    (hcp : e.can_place g x y layer_index lower_grid = true) :
    Anchored e.checkCells (g.set x y true) := by
  obtain ⟨hhole, hnal, hnb, hconn⟩ := can_place_true_parts hcp
  obtain ⟨d, hd, hdal⟩ : ∃ d ∈ g.neighbors_4 x y, g.is_alive d.1 d.2 = true := by
    unfold Grid.has_alive_neighbor_4 at hnb
    rw [List.any_eq_true] at hnb
    obtain ⟨d, hd, hdp⟩ := hnb
    exact ⟨d, hd, by simpa using hdp⟩
  obtain ⟨s0, hs0A, hs0al, -⟩ := hanch d hdal
  unfold GrowthEngine.check_connectivity_st at hconn
  rw [if_neg (List.ne_nil_of_mem hs0A)] at hconn
  obtain ⟨a, ha⟩ : ∃ a, e.checkCells.find? (fun s => g.is_alive s.1 s.2) = some a :=
    Option.isSome_iff_exists.mp (List.find?_isSome.mpr ⟨s0, hs0A, hs0al⟩)
  rw [ha] at hconn
  have hconn2 : decide (((x, y) : Cell) ∈ (g.set x y true).get_component a.1 a.2) = true :=
    hconn
  have hmem2 : ((x, y) : Cell) ∈ (g.set x y true).get_component a.1 a.2 :=
    of_decide_eq_true hconn2
  obtain ⟨haal, hreach⟩ := (get_component_spec _ a.1 a.2 (x, y)).mp hmem2
  have haA : a ∈ e.checkCells := List.mem_of_find?_eq_some ha
  intro c hc
  rcases (alive_set_true_iff hwf x y c.1 c.2).mp hc with hold | ⟨hcx, hcy, hbb⟩
  · obtain ⟨s, hsA, hsal, hr⟩ := hanch c hold
    exact ⟨s, hsA, alive_set_true_mono hwf x y s.1 s.2 hsal,
      reach_mono_transport (Grid.cols_set g x y true) (Grid.rows_set g x y true)
        (fun u hu => alive_set_true_mono hwf x y u.1 u.2 hu) hr⟩
  · have hceq : c = ((x, y) : Cell) := Prod.ext hcx hcy
    refine ⟨a, haA, haal, ?_⟩
    rw [hceq]
    have heta : ((a.1, a.2) : Cell) = a := Prod.mk.eta
    rwa [heta] at hreach

/-- Placing a `can_place`-approved candidate cannot revive a tracked hole:
the hole test is one of the checks. -/
theorem place_candidate_holefree {e : GrowthEngine} {g : Grid} {x y : ℤ}
    {layer_index : ℕ} {lower_grid : Option Grid} (hwf : g.Wf)
    (hcp : e.can_place g x y layer_index lower_grid = true)
    (hhf : HoleFree e g) : HoleFree e (g.set x y true) := by
  obtain ⟨hhole, -, -, -⟩ := can_place_true_parts hcp
  intro u hu
  by_contra hne2
  rw [Bool.not_eq_false] at hne2
  rcases (alive_set_true_iff hwf x y u.1 u.2).mp hne2 with hold | ⟨h1, h2, -⟩
  · rw [hhf u hu] at hold
    exact Bool.false_ne_true hold
  · apply hhole
    have : u = ((x, y) : Cell) := Prod.ext h1 h2
    rwa [this] at hu

/-- The offsets scanned by `get_frontier_candidates` (`dy` outer, `dx`
inner, skipping `(0,0)`), source order. -/
def frontierOffsets (radius : ℤ) : List (ℤ × ℤ) :=
  (List.range (2 * radius.toNat + 1)).flatMap fun dy =>
    (List.range (2 * radius.toNat + 1)).filterMap fun dx =>
      if ((dx : ℤ) - radius) = 0 ∧ ((dy : ℤ) - radius) = 0 then none
      else some ((dx : ℤ) - radius, (dy : ℤ) - radius)

/-- `GrowthEngine.get_frontier_candidates` (source lines 2240–2255): empty
allowed non-hole cells within `FRONTIER_RADIUS` of an alive cell.  The
source collects them in a Python `set`, whose iteration order is
unspecified; the duplicate-free list in first-occurrence order represents
it (the random pick downstream absorbs the order). -/
def GrowthEngine.get_frontier_candidates (e : GrowthEngine) (g : Grid) : List Cell :=
  ((g.get_all_alive_cells).flatMap fun c =>
    (frontierOffsets e.config.FRONTIER_RADIUS).filterMap fun d =>
      if g.is_empty (c.1 + d.1) (c.2 + d.2) &&
          e.constraints.is_allowed (c.1 + d.1) (c.2 + d.2) &&
          !decide ((c.1 + d.1, c.2 + d.2) ∈ e.vertical_holes_tracker)
      then some (c.1 + d.1, c.2 + d.2) else none).dedup

/-- The scored candidate list of `grow_layer` (source lines 2282–2286):
every frontier candidate passing `can_place`, with its score (`none` is the
`-inf` sentinel). -/
noncomputable def GrowthEngine.scoredCandidates (e : GrowthEngine) (g : Grid)
    (layer_index : ℕ) (lower_grid : Option Grid) : List (Cell × Option ℝ) :=
  (e.get_frontier_candidates g).filterMap fun c =>
    if e.can_place g c.1 c.2 layer_index lower_grid
    then some (c, e.score_candidate g c.1 c.2 layer_index lower_grid) else none

/-- Source line 2293: drop the `-inf` scores. -/
noncomputable def GrowthEngine.scoredFinite (e : GrowthEngine) (g : Grid)
    (layer_index : ℕ) (lower_grid : Option Grid) : List (Cell × Option ℝ) :=
  (e.scoredCandidates g layer_index lower_grid).filter fun cs => cs.2.isSome

/-- Source line 2300: stable sort by score, descending. -/
noncomputable def GrowthEngine.sortedScored (e : GrowthEngine) (g : Grid)
    (layer_index : ℕ) (lower_grid : Option Grid) : List (Cell × Option ℝ) :=
  (e.scoredFinite g layer_index lower_grid).mergeSort fun a b =>
    decide ((b.2.getD 0) ≤ (a.2.getD 0))

/-- The sorted list with the (present) scores unwrapped, as fed to the
weight computation. -/
noncomputable def GrowthEngine.scoredReals (e : GrowthEngine) (g : Grid)
    (layer_index : ℕ) (lower_grid : Option Grid) : List (Cell × ℝ) :=
  (e.sortedScored g layer_index lower_grid).map fun cs => (cs.1, cs.2.getD 0)

/-- The cumulative-sum scan of the weighted random choice (source lines
2326–2330): index of the first weight whose cumulative sum reaches `r`. -/
noncomputable def firstHit (r : ℝ) : ℝ → List ℝ → Option ℕ
  | _, [] => none
  | acc, w :: ws => if r ≤ acc + w then some 0 else (firstHit r (acc + w) ws).map Nat.succ

/-- The weighted selection of `grow_layer` (source lines 2318–2330):
`scored[0]` when the total weight is non-positive or no cumulative sum is
reached, otherwise the first index whose cumulative weight sum reaches the
scaled draw. -/
noncomputable def weightedPick (r : ℝ) (scored : List (Cell × ℝ)) (ws : List ℝ) : Cell :=
  if ws.sum ≤ 0 then (scored.headD ((0, 0), 0)).1
  else
    match firstHit (r * ws.sum) 0 ws with
    | none => (scored.headD ((0, 0), 0)).1
    | some i => (scored.getD i ((0, 0), 0)).1

/-- One full selection of the growth loop, driven by the abstract draw
`r = random.random()`. -/
noncomputable def GrowthEngine.pickCell (e : GrowthEngine) (g : Grid)
    (layer_index : ℕ) (lower_grid : Option Grid) (r : ℝ) : Cell :=
  weightedPick r (e.scoredReals g layer_index lower_grid)
    (buildWeights e.config (e.scoredReals g layer_index lower_grid))

theorem firstHit_lt (r : ℝ) :
    ∀ (ws : List ℝ) (acc : ℝ) (i : ℕ), firstHit r acc ws = some i → i < ws.length := by
  intro ws
  induction ws with
  | nil =>
      intro acc i h
      cases h
  | cons w ws ih =>
      intro acc i h
      unfold firstHit at h
      split at h
      · cases h
        simp
      · rw [Option.map_eq_some'] at h
        obtain ⟨j, hj, rfl⟩ := h
        simpa using Nat.succ_lt_succ (ih _ _ hj)

theorem weightedPick_mem (r : ℝ) (scored : List (Cell × ℝ)) (ws : List ℝ)
    (hne : scored ≠ []) (hlen : ws.length ≤ scored.length) :
    ∃ cs ∈ scored, weightedPick r scored ws = cs.1 := by
  unfold weightedPick
  cases scored with
  | nil => exact absurd rfl hne
  | cons c0 rest =>
      split_ifs with hsum
      · exact ⟨c0, List.mem_cons_self _ _, rfl⟩
      · cases hfh : firstHit (r * ws.sum) 0 ws with
        | none => exact ⟨c0, List.mem_cons_self _ _, rfl⟩
        | some i =>
            have hi : i < ws.length := firstHit_lt (r * ws.sum) ws 0 i hfh
            exact ⟨(c0 :: rest).getD i ((0, 0), 0),
              List.getD_mem _ _ _ (lt_of_lt_of_le hi hlen), rfl⟩

theorem scored_can_place {e : GrowthEngine} {g : Grid} {layer_index : ℕ}
    {lower_grid : Option Grid} {cs : Cell × Option ℝ}
    (h : cs ∈ e.scoredCandidates g layer_index lower_grid) :
    e.can_place g cs.1.1 cs.1.2 layer_index lower_grid = true := by
  unfold GrowthEngine.scoredCandidates at h
  rw [List.mem_filterMap] at h
  obtain ⟨c, hc, hfc⟩ := h
  by_cases hcp : e.can_place g c.1 c.2 layer_index lower_grid = true
  · rw [if_pos hcp] at hfc
    obtain heq := Option.some_inj.mp hfc
    rw [← heq]
    exact hcp
  · rw [if_neg hcp] at hfc
    cases hfc

theorem sortedScored_sub {e : GrowthEngine} {g : Grid} {layer_index : ℕ}
    {lower_grid : Option Grid} {cs : Cell × Option ℝ}
    (h : cs ∈ e.sortedScored g layer_index lower_grid) :
    cs ∈ e.scoredCandidates g layer_index lower_grid := by
  unfold GrowthEngine.sortedScored at h
  have h2 := List.mem_mergeSort.mp h
  unfold GrowthEngine.scoredFinite at h2
  exact (List.mem_filter.mp h2).1

/-- Whatever the random draw, the picked cell passed `can_place`. -/
theorem pickCell_can_place {e : GrowthEngine} {g : Grid} {layer_index : ℕ}
    {lower_grid : Option Grid} (r : ℝ)
    (hne : e.sortedScored g layer_index lower_grid ≠ []) :
    e.can_place g (e.pickCell g layer_index lower_grid r).1
      (e.pickCell g layer_index lower_grid r).2 layer_index lower_grid = true := by
  unfold GrowthEngine.pickCell
  have hlen : (buildWeights e.config (e.scoredReals g layer_index lower_grid)).length ≤
      (e.scoredReals g layer_index lower_grid).length := by
    unfold buildWeights
    rw [List.length_map, List.length_take]
    exact min_le_right _ _
  have hne2 : e.scoredReals g layer_index lower_grid ≠ [] := by
    unfold GrowthEngine.scoredReals
    intro hnil
    exact hne (List.map_eq_nil_iff.mp hnil)
  obtain ⟨cs, hcs, heq⟩ := weightedPick_mem r _ _ hne2 hlen
  rw [heq]
  unfold GrowthEngine.scoredReals at hcs
  rw [List.mem_map] at hcs
  obtain ⟨cs0, hcs0, hmapeq⟩ := hcs
  have hcp := scored_can_place (sortedScored_sub hcs0)
  rw [← hmapeq]
  exact hcp

/-- The abstraction of Python's `random`: a stream of draws in `[0,1)` and a
shuffling function, indexed by an abstract time. -/
structure RandomOracle where
  rand : ℕ → ℝ
  shuffle : ℕ → List Cell → List Cell

/-- The main frontier growth loop of `grow_layer` (source lines 2272–2335).
The state is `(grid, placed, attempts, time)`; a successful placement
resets `attempts`.  The source's three `attempts += 1; continue` paths (no
placeable candidate, all scores `-inf`, and the vacuous empty-weights
check) collapse into the single `sortedScored = []` test, which increments
`attempts` exactly once, as each of them does. -/
noncomputable def growMain (e : GrowthEngine) (ow : RandomOracle) (layer_index : ℕ)
    (lower_grid : Option Grid) (grow_count : ℕ) (g : Grid)
    (placed attempts t : ℕ) : Grid × ℕ :=
  if h : placed < grow_count ∧ attempts < e.config.MAX_GROW_ATTEMPTS then
    if e.get_frontier_candidates g = [] then (g, t)
    else if e.sortedScored g layer_index lower_grid = [] then
      growMain e ow layer_index lower_grid grow_count g placed (attempts + 1) (t + 1)
    else
      growMain e ow layer_index lower_grid grow_count
        (g.set (e.pickCell g layer_index lower_grid (ow.rand t)).1
          (e.pickCell g layer_index lower_grid (ow.rand t)).2 true)
        (placed + 1) 0 (t + 1)
  else (g, t)
  termination_by (grow_count - placed, e.config.MAX_GROW_ATTEMPTS - attempts)

/-- `GrowthEngine._grow_extra` (source lines 2472–2492): shuffle the
frontier, try the first ten candidates, place the first placeable one. -/
noncomputable def growExtra (e : GrowthEngine) (ow : RandomOracle) (layer_index : ℕ)
    (lower_grid : Option Grid) (count : ℕ) (g : Grid) (placed attempts t : ℕ) :
    (ℕ × Grid) × ℕ :=
  if h : placed < count ∧ attempts < 500 then
    if e.get_frontier_candidates g = [] then ((placed, g), t)
    else
      match ((ow.shuffle t (e.get_frontier_candidates g)).take 10).find?
          (fun c => e.can_place g c.1 c.2 layer_index lower_grid) with
      | some c =>
          growExtra e ow layer_index lower_grid count (g.set c.1 c.2 true)
            (placed + 1) (attempts + 1) (t + 1)
      | none => growExtra e ow layer_index lower_grid count g placed (attempts + 1) (t + 1)
  else ((placed, g), t)
  termination_by 500 - attempts

/-- The minimum-cell top-up loop of `grow_layer` (source lines 2337–2344):
call `_grow_extra` until the minimum is reached, nothing grew, or ten
rounds passed. -/
noncomputable def growToMin (e : GrowthEngine) (ow : RandomOracle) (layer_index : ℕ)
    (lower_grid : Option Grid) (min_cells : ℕ) (g : Grid) (ea t : ℕ) : Grid × ℕ :=
  if h : g.alive_count < min_cells ∧ ea < 10 then
    if (growExtra e ow layer_index lower_grid (min_cells - g.alive_count) g 0 0 t).1.1 = 0 then
      ((growExtra e ow layer_index lower_grid (min_cells - g.alive_count) g 0 0 t).1.2,
       (growExtra e ow layer_index lower_grid (min_cells - g.alive_count) g 0 0 t).2)
    else
      growToMin e ow layer_index lower_grid min_cells
        (growExtra e ow layer_index lower_grid (min_cells - g.alive_count) g 0 0 t).1.2
        (ea + 1)
        (growExtra e ow layer_index lower_grid (min_cells - g.alive_count) g 0 0 t).2
  else (g, t)
  termination_by 10 - ea

/-- The main growth loop preserves dimensions, well-formedness, anchoring
and hole-freedom: the only grid mutation is the placement of a
`can_place`-approved pick. -/
theorem growMain_pres (e : GrowthEngine) (ow : RandomOracle) (layer_index : ℕ)
    (lower_grid : Option Grid) (grow_count : ℕ) :
    ∀ (N placed attempts t : ℕ) (g : Grid),
      (grow_count - placed) * (e.config.MAX_GROW_ATTEMPTS + 1) +
        (e.config.MAX_GROW_ATTEMPTS - attempts) ≤ N →
      g.Wf → Anchored e.checkCells g →
      (growMain e ow layer_index lower_grid grow_count g placed attempts t).1.cols = g.cols ∧
      (growMain e ow layer_index lower_grid grow_count g placed attempts t).1.rows = g.rows ∧
      (growMain e ow layer_index lower_grid grow_count g placed attempts t).1.Wf ∧
      Anchored e.checkCells (growMain e ow layer_index lower_grid grow_count g placed attempts t).1 ∧
      (HoleFree e g →
        HoleFree e (growMain e ow layer_index lower_grid grow_count g placed attempts t).1) := by
  intro N
  induction N with
  | zero =>
      intro placed attempts t g hN hwf hanch
      have hcond : ¬(placed < grow_count ∧ attempts < e.config.MAX_GROW_ATTEMPTS) := by
        rintro ⟨h1, h2⟩
        have hge : 1 ≤ (grow_count - placed) * (e.config.MAX_GROW_ATTEMPTS + 1) := by
          have hm := Nat.mul_le_mul (show 1 ≤ grow_count - placed by omega)
            (show 1 ≤ e.config.MAX_GROW_ATTEMPTS + 1 by omega)
          simpa using hm
        generalize hA : (grow_count - placed) * (e.config.MAX_GROW_ATTEMPTS + 1) = A at hN hge
        omega
      rw [growMain, dif_neg hcond]
      exact ⟨rfl, rfl, hwf, hanch, fun hh => hh⟩
  | succ n ih =>
      intro placed attempts t g hN hwf hanch
      rw [growMain]
      split
      · rename_i hlt
        split
        · exact ⟨rfl, rfl, hwf, hanch, fun hh => hh⟩
        · split
          · apply ih
            · generalize hA : (grow_count - placed) * (e.config.MAX_GROW_ATTEMPTS + 1) = A at hN ⊢
              omega
            · exact hwf
            · exact hanch
          · rename_i hfront hsort
            have hcp := pickCell_can_place (ow.rand t) hsort
            have hmeas : (grow_count - (placed + 1)) * (e.config.MAX_GROW_ATTEMPTS + 1) +
                (e.config.MAX_GROW_ATTEMPTS - 0) ≤ n := by
              have hexp : (grow_count - placed) * (e.config.MAX_GROW_ATTEMPTS + 1) =
                  (grow_count - (placed + 1)) * (e.config.MAX_GROW_ATTEMPTS + 1) +
                    (e.config.MAX_GROW_ATTEMPTS + 1) := by
                have h1 : grow_count - placed = (grow_count - (placed + 1)) + 1 := by omega
                rw [h1, Nat.add_mul, Nat.one_mul]
              rw [hexp] at hN
              generalize hA : (grow_count - (placed + 1)) * (e.config.MAX_GROW_ATTEMPTS + 1) = A
                at hN ⊢
              omega
            obtain ⟨q1, q2, q3, q4, q5⟩ := ih (placed + 1) 0 (t + 1)
              (g.set (e.pickCell g layer_index lower_grid (ow.rand t)).1
                (e.pickCell g layer_index lower_grid (ow.rand t)).2 true)
              hmeas (Grid.wf_set hwf _ _ _) (place_candidate_anchored hwf hanch hcp)
            exact ⟨q1.trans (Grid.cols_set _ _ _ _), q2.trans (Grid.rows_set _ _ _ _), q3, q4,
              fun hh => q5 (place_candidate_holefree hwf hcp hh)⟩
      · exact ⟨rfl, rfl, hwf, hanch, fun hh => hh⟩

/-- `_grow_extra` preserves the invariant: every placement passed
`can_place`. -/
theorem growExtra_pres (e : GrowthEngine) (ow : RandomOracle) (layer_index : ℕ)
    (lower_grid : Option Grid) (count : ℕ) :
    ∀ (N placed attempts t : ℕ) (g : Grid), 500 - attempts ≤ N →
      g.Wf → Anchored e.checkCells g →
      (growExtra e ow layer_index lower_grid count g placed attempts t).1.2.cols = g.cols ∧
      (growExtra e ow layer_index lower_grid count g placed attempts t).1.2.rows = g.rows ∧
      (growExtra e ow layer_index lower_grid count g placed attempts t).1.2.Wf ∧
      Anchored e.checkCells (growExtra e ow layer_index lower_grid count g placed attempts t).1.2 ∧
      (HoleFree e g →
        HoleFree e (growExtra e ow layer_index lower_grid count g placed attempts t).1.2) := by
  intro N
  induction N with
  | zero =>
      intro placed attempts t g hN hwf hanch
      have hcond : ¬(placed < count ∧ attempts < 500) := by
        rintro ⟨h1, h2⟩
        omega
      rw [growExtra, dif_neg hcond]
      exact ⟨rfl, rfl, hwf, hanch, fun hh => hh⟩
  | succ n ih =>
      intro placed attempts t g hN hwf hanch
      rw [growExtra]
      split
      · rename_i hlt
        split
        · exact ⟨rfl, rfl, hwf, hanch, fun hh => hh⟩
        · split
          · rename_i c hfind
            have hcp : e.can_place g c.1 c.2 layer_index lower_grid = true := by
              have := List.find?_some hfind
              simpa using this
            obtain ⟨q1, q2, q3, q4, q5⟩ := ih (placed + 1) (attempts + 1) (t + 1)
              (g.set c.1 c.2 true) (by omega) (Grid.wf_set hwf _ _ _)
              (place_candidate_anchored hwf hanch hcp)
            exact ⟨q1.trans (Grid.cols_set _ _ _ _), q2.trans (Grid.rows_set _ _ _ _), q3, q4,
              fun hh => q5 (place_candidate_holefree hwf hcp hh)⟩
          · exact ih placed (attempts + 1) (t + 1) g (by omega) hwf hanch
      · exact ⟨rfl, rfl, hwf, hanch, fun hh => hh⟩

/-- The minimum-cell top-up loop preserves the invariant. -/
theorem growToMin_pres (e : GrowthEngine) (ow : RandomOracle) (layer_index : ℕ)
    (lower_grid : Option Grid) (min_cells : ℕ) :
    ∀ (N ea t : ℕ) (g : Grid), 10 - ea ≤ N →
      g.Wf → Anchored e.checkCells g →
      (growToMin e ow layer_index lower_grid min_cells g ea t).1.cols = g.cols ∧
      (growToMin e ow layer_index lower_grid min_cells g ea t).1.rows = g.rows ∧
      (growToMin e ow layer_index lower_grid min_cells g ea t).1.Wf ∧
      Anchored e.checkCells (growToMin e ow layer_index lower_grid min_cells g ea t).1 ∧
      (HoleFree e g →
        HoleFree e (growToMin e ow layer_index lower_grid min_cells g ea t).1) := by
  intro N
  induction N with
  | zero =>
      intro ea t g hN hwf hanch
      have hcond : ¬(g.alive_count < min_cells ∧ ea < 10) := by
        rintro ⟨h1, h2⟩
        omega
      rw [growToMin, dif_neg hcond]
      exact ⟨rfl, rfl, hwf, hanch, fun hh => hh⟩
  | succ n ih =>
      intro ea t g hN hwf hanch
      rw [growToMin]
      split
      · rename_i hlt
        obtain ⟨p1, p2, p3, p4, p5⟩ := growExtra_pres e ow layer_index lower_grid
          (min_cells - g.alive_count) 500 0 0 t g (by omega) hwf hanch
        split
        · exact ⟨p1, p2, p3, p4, p5⟩
        · obtain ⟨q1, q2, q3, q4, q5⟩ := ih (ea + 1)
            (growExtra e ow layer_index lower_grid (min_cells - g.alive_count) g 0 0 t).2
            (growExtra e ow layer_index lower_grid (min_cells - g.alive_count) g 0 0 t).1.2
            (by omega) p3 p4
          exact ⟨q1.trans p1, q2.trans p2, q3, q4, fun hh => q5 (p5 hh)⟩
      · exact ⟨rfl, rfl, hwf, hanch, fun hh => hh⟩

/-! ### `grow_layer` and the per-layer pipelines -/

/-- The per-layer parameter lookup of `grow_layer` (source lines 2262–2270):
the indexed entry, falling back to the last entry. -/
def layerParam (l : List ℕ) (i : ℕ) : ℕ :=
  if i < l.length then l.getD i 0 else l.getLastD 0

/-- `GrowthEngine.grow_layer` (source lines 2257–2350) as a grid
transformer: the main loop, then the minimum top-up, then pruning when the
count exceeds the per-layer maximum.  The returned `placed` count is
ignored by every caller.  `pruneFuel` bounds the prune loop, which the
source runs unboundedly. -/
noncomputable def GrowthEngine.grow_layer (e : GrowthEngine) (ow : RandomOracle)
    (g : Grid) (layer_index : ℕ) (lower_grid : Option Grid) (pruneFuel : ℕ) : Grid :=
  if layerParam e.config.MAX_CELLS_LAYER layer_index <
      (growToMin e ow layer_index lower_grid (layerParam e.config.MIN_CELLS_LAYER layer_index)
        (growMain e ow layer_index lower_grid
          (layerParam e.config.GROW_PER_GEN_LAYER layer_index) g 0 0 0).1
        0
        (growMain e ow layer_index lower_grid
          (layerParam e.config.GROW_PER_GEN_LAYER layer_index) g 0 0 0).2).1.alive_count
  then
    prune_to_max_fuel e (layerParam e.config.MAX_CELLS_LAYER layer_index) pruneFuel
      (growToMin e ow layer_index lower_grid (layerParam e.config.MIN_CELLS_LAYER layer_index)
        (growMain e ow layer_index lower_grid
          (layerParam e.config.GROW_PER_GEN_LAYER layer_index) g 0 0 0).1
        0
        (growMain e ow layer_index lower_grid
          (layerParam e.config.GROW_PER_GEN_LAYER layer_index) g 0 0 0).2).1
  else
    (growToMin e ow layer_index lower_grid (layerParam e.config.MIN_CELLS_LAYER layer_index)
      (growMain e ow layer_index lower_grid
        (layerParam e.config.GROW_PER_GEN_LAYER layer_index) g 0 0 0).1
      0
      (growMain e ow layer_index lower_grid
        (layerParam e.config.GROW_PER_GEN_LAYER layer_index) g 0 0 0).2).1

/-- The composite `grow_layer` preserves the invariant: growth anchors to
`checkCells`, pruning re-anchors to `start_cells`. -/
theorem grow_layer_pres (e : GrowthEngine) (ow : RandomOracle) (g : Grid)
    (layer_index : ℕ) (lower_grid : Option Grid) (pruneFuel : ℕ)
    (hwf : g.Wf) (hanch : Anchored e.checkCells g)
    (hsub : ∀ c ∈ e.checkCells, c ∈ e.start_cells) (hne : e.start_cells ≠ []) :
    (e.grow_layer ow g layer_index lower_grid pruneFuel).cols = g.cols ∧
    (e.grow_layer ow g layer_index lower_grid pruneFuel).rows = g.rows ∧
    (e.grow_layer ow g layer_index lower_grid pruneFuel).Wf ∧
    Anchored e.start_cells (e.grow_layer ow g layer_index lower_grid pruneFuel) ∧
    (HoleFree e g → HoleFree e (e.grow_layer ow g layer_index lower_grid pruneFuel)) := by
  obtain ⟨a1, a2, a3, a4, a5⟩ := growMain_pres e ow layer_index lower_grid
    (layerParam e.config.GROW_PER_GEN_LAYER layer_index)
    ((layerParam e.config.GROW_PER_GEN_LAYER layer_index - 0) *
      (e.config.MAX_GROW_ATTEMPTS + 1) + (e.config.MAX_GROW_ATTEMPTS - 0))
    0 0 0 g le_rfl hwf hanch
  obtain ⟨b1, b2, b3, b4, b5⟩ := growToMin_pres e ow layer_index lower_grid
    (layerParam e.config.MIN_CELLS_LAYER layer_index) 10 0
    (growMain e ow layer_index lower_grid
      (layerParam e.config.GROW_PER_GEN_LAYER layer_index) g 0 0 0).2
    (growMain e ow layer_index lower_grid
      (layerParam e.config.GROW_PER_GEN_LAYER layer_index) g 0 0 0).1
    (by omega) a3 a4
  unfold GrowthEngine.grow_layer
  split_ifs with hmax
  · obtain ⟨c1, c2, c3, c4, c5⟩ := prune_to_max_pres e
      (layerParam e.config.MAX_CELLS_LAYER layer_index) hne pruneFuel _ b3
      (anchored_sublist hsub b4)
    exact ⟨c1.trans (b1.trans a1), c2.trans (b2.trans a2), c3, c4,
      fun hh => c5 (b5 (a5 hh))⟩
  · exact ⟨b1.trans a1, b2.trans a2, b3, anchored_sublist hsub b4, fun hh => b5 (a5 hh)⟩

theorem checkCells_eq_start {e : GrowthEngine} (h : e.current_group_start = []) :
    e.checkCells = e.start_cells := by
  unfold GrowthEngine.checkCells
  rw [h]
  rw [if_neg (fun hc => hc rfl)]

theorem checkCells_sub {e : GrowthEngine}
    (hsub : ∀ c ∈ e.current_group_start, c ∈ e.start_cells) :
    ∀ c ∈ e.checkCells, c ∈ e.start_cells := by
  unfold GrowthEngine.checkCells
  split_ifs with h
  · exact hsub
  · exact fun c hc => hc

/-- A start grid in which every alive cell is itself listed is anchored. -/
theorem startGrid_anchored {A : List Cell} {g : Grid}
    (hchar : ∀ c : Cell, g.is_alive c.1 c.2 = true → c ∈ A) : Anchored A g :=
  fun c hc => ⟨c, hchar c hc, hc, Relation.ReflTransGen.refl⟩

theorem placeStartAllowed_char (cs : Constraints) (L : List Cell) (g : Grid)
    (hwf : g.Wf) :
    (placeStartAllowed cs L g).cols = g.cols ∧
      (placeStartAllowed cs L g).rows = g.rows ∧
      (placeStartAllowed cs L g).Wf ∧
      ∀ x y : ℤ, (placeStartAllowed cs L g).get x y = true ↔
        (g.get x y = true ∨
          (((x, y) : Cell) ∈ L ∧ cs.is_allowed x y = true ∧ g.in_bounds x y)) :=
  foldl_cond_set_char (fun _ c => cs.is_allowed c.1 c.2)
    (fun _ _ _ _ _ => rfl) L g hwf

/-- The final pipeline step of the deeper layers: re-enforce the start
cells, then mask the tracked holes.  Hole-freedom *before* the enforcement
guarantees the masking only strips re-added start cells, whose loss breaks
no other cell's path. -/
theorem enforce_mask_anchored (e : GrowthEngine) {g : Grid} (hwf : g.Wf)
    (hanch : Anchored e.start_cells g) (hhf : HoleFree e g) :
    Anchored e.start_cells
      (applyVerticalHoles e.vertical_holes_tracker (e.enforce_start_cells g)) := by
  obtain ⟨e1, e2, e3, echar⟩ := enforce_start_cells_char e g hwf
  obtain ⟨m1, m2, m3⟩ := @applyVerticalHoles_dims e.vertical_holes_tracker _ e3
  have hsurv : ∀ d : Cell, g.is_alive d.1 d.2 = true →
      (applyVerticalHoles e.vertical_holes_tracker
        (e.enforce_start_cells g)).is_alive d.1 d.2 = true := by
    intro d hd
    rw [applyVerticalHoles_alive e3]
    refine ⟨(echar d.1 d.2).mpr (Or.inl hd), ?_⟩
    rw [Prod.mk.eta]
    intro hdT
    rw [hhf d hdT] at hd
    exact Bool.false_ne_true hd
  intro c hc
  have hc2 := (applyVerticalHoles_alive e3 c.1 c.2).mp hc
  rw [Prod.mk.eta] at hc2
  obtain ⟨hcen, hcT⟩ := hc2
  rcases (echar c.1 c.2).mp hcen with hold | ⟨hmem, -, -⟩
  · obtain ⟨s, hs, hsal, hr⟩ := hanch c hold
    refine ⟨s, hs, hsurv s hsal, ?_⟩
    exact reach_mono_transport (m1.trans e1) (m2.trans e2) (fun u hu => hsurv u hu) hr
  · rw [Prod.mk.eta] at hmem
    exact ⟨c, hmem, hc, Relation.ReflTransGen.refl⟩

/-- Layer 0 of `_run_simulation_single_group` (source lines 3197–3214):
unfiltered start cells, growth, isolated-cell removal, start-cell
enforcement. -/
noncomputable def finalize_layer0_single (e : GrowthEngine) (ow : RandomOracle)
    (pruneFuel : ℕ) : Grid :=
  e.enforce_start_cells (e.remove_isolated
    (e.grow_layer ow
      (setCellsTrue e.start_cells (Grid.init e.constraints.cols e.constraints.rows))
      0 none pruneFuel))

/-- A deeper layer of `_run_simulation_single_group` (source lines
3246–3266): allowed start cells, hole masking, growth against the previous
layer, cleanup, re-enforcement, final hole masking. -/
noncomputable def finalize_layerN_single (e : GrowthEngine) (ow : RandomOracle)
    (layer_index : ℕ) (prev : Grid) (pruneFuel : ℕ) : Grid :=
  applyVerticalHoles e.vertical_holes_tracker
    (e.enforce_start_cells (e.remove_isolated
      (e.grow_layer ow
        (applyVerticalHoles e.vertical_holes_tracker
          (placeStartAllowed e.constraints e.start_cells
            (Grid.init e.constraints.cols e.constraints.rows)))
        layer_index (some prev) pruneFuel)))

/-! ### The multi-group pipeline (`grow_layer_multi_group`, source lines
2352–2470, and `_run_simulation_multi_group`, lines 3282–3364) -/

/-- Source lines 2464–2468: union of all group grids into a fresh grid. -/
def combineGrids (cols rows : ℕ) (gs : List Grid) : Grid :=
  gs.foldl (fun acc g => setCellsTrue g.get_all_alive_cells acc) (Grid.init cols rows)

theorem foldl_union_char (cols rows : ℕ) :
    ∀ (gs : List Grid) (acc : Grid), acc.Wf → acc.cols = cols → acc.rows = rows →
      (∀ g ∈ gs, g.cols = cols ∧ g.rows = rows) →
      (gs.foldl (fun a g => setCellsTrue g.get_all_alive_cells a) acc).cols = cols ∧
      (gs.foldl (fun a g => setCellsTrue g.get_all_alive_cells a) acc).rows = rows ∧
      (gs.foldl (fun a g => setCellsTrue g.get_all_alive_cells a) acc).Wf ∧
      ∀ c : Cell,
        (gs.foldl (fun a g => setCellsTrue g.get_all_alive_cells a) acc).is_alive c.1 c.2 = true ↔
          (acc.is_alive c.1 c.2 = true ∨ ∃ g ∈ gs, g.is_alive c.1 c.2 = true) := by
  intro gs
  induction gs with
  | nil =>
      intro acc hwf hc hr hdims
      refine ⟨hc, hr, hwf, fun c => ?_⟩
      simp
  | cons g0 gs ih =>
      intro acc hwf hc hr hdims
      simp only [List.foldl_cons]
      obtain ⟨s1, s2, s3, schar⟩ := setCellsTrue_char g0.get_all_alive_cells acc hwf
      obtain ⟨k1, k2, k3, kchar⟩ := ih (setCellsTrue g0.get_all_alive_cells acc) s3
        (s1.trans hc) (s2.trans hr) (fun g hg => hdims g (List.mem_cons_of_mem _ hg))
      have hg0dims := hdims g0 (List.mem_cons_self _ _)
      have hstep : ∀ c : Cell,
          (setCellsTrue g0.get_all_alive_cells acc).is_alive c.1 c.2 = true ↔
            (acc.is_alive c.1 c.2 = true ∨ g0.is_alive c.1 c.2 = true) := by
        intro c
        constructor
        · intro h
          obtain ⟨hib, hget⟩ := is_alive_iff.mp h
          rw [in_bounds_congr s1 s2] at hib
          rcases (schar c.1 c.2).mp hget with hacc | ⟨hmem, -⟩
          · exact Or.inl (is_alive_iff.mpr ⟨hib, hacc⟩)
          · rw [Prod.mk.eta] at hmem
            exact Or.inr (mem_get_all_alive_cells.mp hmem)
        · intro h
          rcases h with hacc | hg0
          · obtain ⟨hib, hget⟩ := is_alive_iff.mp hacc
            exact is_alive_iff.mpr ⟨(in_bounds_congr s1 s2 c.1 c.2).mpr hib,
              (schar c.1 c.2).mpr (Or.inl hget)⟩
          · have hib0 : g0.in_bounds c.1 c.2 := is_alive_in_bounds hg0
            have hibacc : acc.in_bounds c.1 c.2 :=
              (in_bounds_congr (hc.trans hg0dims.1.symm) (hr.trans hg0dims.2.symm)
                c.1 c.2).mpr hib0
            have hmem' : ((c.1, c.2) : Cell) ∈ g0.get_all_alive_cells := by
              rw [Prod.mk.eta]
              exact mem_get_all_alive_cells.mpr hg0
            exact is_alive_iff.mpr ⟨(in_bounds_congr s1 s2 c.1 c.2).mpr hibacc,
              (schar c.1 c.2).mpr (Or.inr ⟨hmem', hibacc⟩)⟩
      refine ⟨k1, k2, k3, fun c => ?_⟩
      rw [kchar c, hstep c]
      constructor
      · rintro ((h | h) | ⟨g, hg, hal⟩)
        · exact Or.inl h
        · exact Or.inr ⟨g0, List.mem_cons_self _ _, h⟩
        · exact Or.inr ⟨g, List.mem_cons_of_mem _ hg, hal⟩
      · rintro (h | ⟨g, hg, hal⟩)
        · exact Or.inl (Or.inl h)
        · rcases List.mem_cons.mp hg with rfl | hg2
          · exact Or.inl (Or.inr hal)
          · exact Or.inr ⟨g, hg2, hal⟩

theorem combineGrids_char (cols rows : ℕ) (gs : List Grid)
    (hdims : ∀ g ∈ gs, g.cols = cols ∧ g.rows = rows) :
    (combineGrids cols rows gs).cols = cols ∧
      (combineGrids cols rows gs).rows = rows ∧
      (combineGrids cols rows gs).Wf ∧
      ∀ c : Cell, (combineGrids cols rows gs).is_alive c.1 c.2 = true ↔
        ∃ g ∈ gs, g.is_alive c.1 c.2 = true := by
  obtain ⟨k1, k2, k3, kchar⟩ := foldl_union_char cols rows gs (Grid.init cols rows)
    (Grid.wf_init _ _) rfl rfl hdims
  unfold combineGrids
  refine ⟨k1, k2, k3, fun c => ?_⟩
  rw [kchar c, alive_init]
  simp

/-- The union grid inherits the anchoring of its parts. -/
theorem combineGrids_anchored (A : List Cell) (cols rows : ℕ) (gs : List Grid)
    (hdims : ∀ g ∈ gs, g.cols = cols ∧ g.rows = rows)
    (hanch : ∀ g ∈ gs, Anchored A g) :
    Anchored A (combineGrids cols rows gs) := by
  obtain ⟨k1, k2, -, kchar⟩ := combineGrids_char cols rows gs hdims
  intro c hc
  obtain ⟨g, hg, hal⟩ := (kchar c).mp hc
  obtain ⟨s, hs, hsal, hr⟩ := hanch g hg c hal
  have hmono : ∀ d : Cell, g.is_alive d.1 d.2 = true →
      (combineGrids cols rows gs).is_alive d.1 d.2 = true := fun d hd =>
    (kchar d).mpr ⟨g, hg, hd⟩
  exact ⟨s, hs, hmono s hsal,
    reach_mono_transport (k1.trans (hdims g hg).1.symm) (k2.trans (hdims g hg).2.symm)
      hmono hr⟩

theorem combineGrids_holefree (e : GrowthEngine) (cols rows : ℕ) (gs : List Grid)
    (hdims : ∀ g ∈ gs, g.cols = cols ∧ g.rows = rows)
    (hhf : ∀ g ∈ gs, HoleFree e g) : HoleFree e (combineGrids cols rows gs) := by
  obtain ⟨-, -, -, kchar⟩ := combineGrids_char cols rows gs hdims
  intro u hu
  by_contra hne2
  rw [Bool.not_eq_false] at hne2
  obtain ⟨g, hg, hal⟩ := (kchar u).mp hne2
  rw [hhf g hg u hu] at hal
  exact Bool.false_ne_true hal

/-- The per-group growth loop of `grow_layer_multi_group` (source lines
2377–2459): every group grid grows through the same `grow_layer` body with
`current_group_start` set to its group.  `i` indexes the per-group random
streams. -/
noncomputable def growGroupGrids (e : GrowthEngine) (ows : ℕ → RandomOracle)
    (layer_index pruneFuel : ℕ) (lowers : ℕ → Option Grid) :
    ℕ → List (List Cell × Grid) → List Grid
  | _, [] => []
  | i, pg :: rest =>
      GrowthEngine.grow_layer { e with current_group_start := pg.1 } (ows i) pg.2
          layer_index (lowers i) pruneFuel ::
        growGroupGrids e ows layer_index pruneFuel lowers (i + 1) rest

theorem growGroupGrids_pres (e : GrowthEngine) (ows : ℕ → RandomOracle)
    (layer_index pruneFuel : ℕ) (lowers : ℕ → Option Grid)
    (hne : e.start_cells ≠ []) :
    ∀ (items : List (List Cell × Grid)) (i : ℕ),
      (∀ pg ∈ items, pg.2.Wf ∧ pg.2.cols = e.constraints.cols ∧
        pg.2.rows = e.constraints.rows ∧
        Anchored (GrowthEngine.checkCells { e with current_group_start := pg.1 }) pg.2 ∧
        (∀ c ∈ pg.1, c ∈ e.start_cells)) →
      ∀ g' ∈ growGroupGrids e ows layer_index pruneFuel lowers i items,
        g'.Wf ∧ g'.cols = e.constraints.cols ∧ g'.rows = e.constraints.rows ∧
          Anchored e.start_cells g' ∧
          ((∀ pg ∈ items, HoleFree e pg.2) → HoleFree e g') := by
  intro items
  induction items with
  | nil =>
      intro i hitems g' hg'
      exact absurd hg' (List.not_mem_nil g')
  | cons pg rest ih =>
      intro i hitems g' hg'
      rcases List.mem_cons.mp hg' with rfl | hg2
      · obtain ⟨hwf, hcols, hrows, hanch, hsub⟩ := hitems pg (List.mem_cons_self _ _)
        obtain ⟨p1, p2, p3, p4, p5⟩ := grow_layer_pres
          { e with current_group_start := pg.1 } (ows i) pg.2 layer_index (lowers i)
          pruneFuel hwf hanch (checkCells_sub hsub) hne
        exact ⟨p3, p1.trans hcols, p2.trans hrows, p4,
          fun hhf => p5 (hhf pg (List.mem_cons_self _ _))⟩
      · obtain ⟨q1, q2, q3, q4, q5⟩ :=
          ih (i + 1) (fun q hq => hitems q (List.mem_cons_of_mem _ hq)) g' hg2
        exact ⟨q1, q2, q3, q4, fun hhf => q5 (fun q hq => hhf q (List.mem_cons_of_mem _ hq))⟩

/-- The layer-0 group grid (source lines 3289–3293): unfiltered group
cells. -/
def mkGroupGrid0 (cs : Constraints) (grp : List Cell) : Grid :=
  setCellsTrue grp (Grid.init cs.cols cs.rows)

/-- The deeper-layer group grid (source lines 3333–3338): group cells
passing `is_allowed`. -/
def mkGroupGridN (cs : Constraints) (grp : List Cell) : Grid :=
  placeStartAllowed cs grp (Grid.init cs.cols cs.rows)

theorem mkGroupGrid0_props (cs : Constraints) (grp : List Cell) :
    (mkGroupGrid0 cs grp).Wf ∧ (mkGroupGrid0 cs grp).cols = cs.cols ∧
      (mkGroupGrid0 cs grp).rows = cs.rows := by
  obtain ⟨h1, h2, h3, -⟩ := setCellsTrue_char grp (Grid.init cs.cols cs.rows)
    (Grid.wf_init _ _)
  exact ⟨h3, h1, h2⟩

theorem mkGroupGrid0_alive (cs : Constraints) (grp : List Cell) (c : Cell)
    (h : (mkGroupGrid0 cs grp).is_alive c.1 c.2 = true) : c ∈ grp := by
  obtain ⟨-, -, -, hchar⟩ := setCellsTrue_char grp (Grid.init cs.cols cs.rows)
    (Grid.wf_init _ _)
  obtain ⟨-, hget⟩ := is_alive_iff.mp h
  rcases (hchar c.1 c.2).mp hget with hinit | ⟨hmem, -⟩
  · rw [get_init] at hinit
    exact absurd hinit Bool.false_ne_true
  · rwa [Prod.mk.eta] at hmem

theorem mkGroupGridN_props (cs : Constraints) (grp : List Cell) :
    (mkGroupGridN cs grp).Wf ∧ (mkGroupGridN cs grp).cols = cs.cols ∧
      (mkGroupGridN cs grp).rows = cs.rows := by
  obtain ⟨h1, h2, h3, -⟩ := placeStartAllowed_char cs grp (Grid.init cs.cols cs.rows)
    (Grid.wf_init _ _)
  exact ⟨h3, h1, h2⟩

theorem mkGroupGridN_alive (cs : Constraints) (grp : List Cell) (c : Cell)
    (h : (mkGroupGridN cs grp).is_alive c.1 c.2 = true) :
    c ∈ grp ∧ cs.is_allowed c.1 c.2 = true := by
  obtain ⟨-, -, -, hchar⟩ := placeStartAllowed_char cs grp (Grid.init cs.cols cs.rows)
    (Grid.wf_init _ _)
  obtain ⟨-, hget⟩ := is_alive_iff.mp h
  rcases (hchar c.1 c.2).mp hget with hinit | ⟨hmem, hallow, -⟩
  · rw [get_init] at hinit
    exact absurd hinit Bool.false_ne_true
  · rw [Prod.mk.eta] at hmem
    exact ⟨hmem, hallow⟩

/-- A group start grid is anchored to the group's `checkCells`: either the
group is the anchor list, or the group is empty and the grid has no alive
cells. -/
theorem groupStart_anchored {e' : GrowthEngine} {g : Grid}
    (hchar : ∀ c : Cell, g.is_alive c.1 c.2 = true → c ∈ e'.current_group_start) :
    Anchored e'.checkCells g := by
  unfold GrowthEngine.checkCells
  split_ifs with h
  · exact startGrid_anchored hchar
  · intro c hc
    have hmem := hchar c hc
    rw [not_ne_iff.mp h] at hmem
    exact absurd hmem (List.not_mem_nil c)

/-- `GrowthEngine.grow_layer_multi_group` (source lines 2352–2470): grow
each group, then union the group grids. -/
noncomputable def grow_layer_multi_group (e : GrowthEngine) (ows : ℕ → RandomOracle)
    (layer_index pruneFuel : ℕ) (lowers : ℕ → Option Grid)
    (items : List (List Cell × Grid)) : Grid :=
  combineGrids e.constraints.cols e.constraints.rows
    (growGroupGrids e ows layer_index pruneFuel lowers 0 items)

/-- Layer 0 of `_run_simulation_multi_group` (source lines 3288–3306). -/
noncomputable def finalize_layer0_multi (e : GrowthEngine) (ows : ℕ → RandomOracle)
    (groups : List (List Cell)) (pruneFuel : ℕ) : Grid :=
  e.enforce_start_cells (e.remove_isolated
    (grow_layer_multi_group e ows 0 pruneFuel (fun _ => none)
      (groups.map fun grp => (grp, mkGroupGrid0 e.constraints grp))))

/-- A deeper layer of `_run_simulation_multi_group` (source lines
3331–3349). -/
noncomputable def finalize_layerN_multi (e : GrowthEngine) (ows : ℕ → RandomOracle)
    (groups : List (List Cell)) (layer_index : ℕ) (lowers : ℕ → Option Grid)
    (pruneFuel : ℕ) : Grid :=
  applyVerticalHoles e.vertical_holes_tracker
    (e.enforce_start_cells (e.remove_isolated
      (grow_layer_multi_group e ows layer_index pruneFuel lowers
        (groups.map fun grp => (grp, mkGroupGridN e.constraints grp)))))

/-- **C1.** In every run with a non-empty start-cell list, each finalized
layer keeps every alive cell reachable from some start cell through a path
of alive 4-connected cells.  The invariant is established by the start-cell
placement, preserved by the growth loop (every placement passes the
anchor-connectivity test of `can_place`), by the minimum top-up, by the
pruning loop (a removal is only committed when the anchor component covers
all remaining alive cells, and reverted otherwise), by `remove_isolated`
(only neighbourless non-start cells are dropped), by
`enforce_start_cells`, and by the final vertical-hole masking (growth never
places on a tracked hole, so the masking only strips re-added start
cells).  All four pipeline variants of the simulation are covered: layer 0
and deeper layers, single-group and multi-group. -/
theorem C1_finalized_layers_anchored (e : GrowthEngine) (ow : RandomOracle)
    (ows : ℕ → RandomOracle) (groups : List (List Cell))
    (layer_index pruneFuel : ℕ) (prev : Grid) (lowers : ℕ → Option Grid)
    (hgs : e.current_group_start = [])
    (hne : e.start_cells ≠ [])
    (hsub : ∀ grp ∈ groups, ∀ c ∈ grp, c ∈ e.start_cells)
    (hnh : ∀ grp ∈ groups, ∀ c ∈ grp,
      e.constraints.is_allowed c.1 c.2 = true → c ∉ e.vertical_holes_tracker) :
    Anchored e.start_cells (finalize_layer0_single e ow pruneFuel) ∧
    Anchored e.start_cells (finalize_layerN_single e ow layer_index prev pruneFuel) ∧
    Anchored e.start_cells (finalize_layer0_multi e ows groups pruneFuel) ∧
    Anchored e.start_cells (finalize_layerN_multi e ows groups layer_index lowers pruneFuel) := by
  have hsub0 : ∀ c ∈ e.checkCells, c ∈ e.start_cells := by
    rw [checkCells_eq_start hgs]
    exact fun c hc => hc
  refine ⟨?_, ?_, ?_, ?_⟩
  · -- single group, layer 0
    unfold finalize_layer0_single
    obtain ⟨g01, g02, g03, g0char⟩ := setCellsTrue_char e.start_cells
      (Grid.init e.constraints.cols e.constraints.rows) (Grid.wf_init _ _)
    have hg0mem : ∀ c : Cell,
        (setCellsTrue e.start_cells
          (Grid.init e.constraints.cols e.constraints.rows)).is_alive c.1 c.2 = true →
        c ∈ e.start_cells := by
      intro c hc
      obtain ⟨-, hget⟩ := is_alive_iff.mp hc
      rcases (g0char c.1 c.2).mp hget with hinit | ⟨hmem, -⟩
      · rw [get_init] at hinit
        exact absurd hinit Bool.false_ne_true
      · rwa [Prod.mk.eta] at hmem
    have hanch0 : Anchored e.checkCells
        (setCellsTrue e.start_cells (Grid.init e.constraints.cols e.constraints.rows)) := by
      rw [checkCells_eq_start hgs]
      exact startGrid_anchored hg0mem
    obtain ⟨p1, p2, p3, p4, -⟩ := grow_layer_pres e ow
      (setCellsTrue e.start_cells (Grid.init e.constraints.cols e.constraints.rows))
      0 none pruneFuel g03 hanch0 hsub0 hne
    obtain ⟨-, -, r3, r4, -⟩ := remove_isolated_pres e e.start_cells p3
    exact enforce_anchored e r3 (r4 p4)
  · -- single group, deeper layer
    unfold finalize_layerN_single
    obtain ⟨q1, q2, q3, qchar⟩ := placeStartAllowed_char e.constraints e.start_cells
      (Grid.init e.constraints.cols e.constraints.rows) (Grid.wf_init _ _)
    obtain ⟨m1, m2, m3⟩ := @applyVerticalHoles_dims e.vertical_holes_tracker _ q3
    have hmalive : ∀ c : Cell,
        (applyVerticalHoles e.vertical_holes_tracker
          (placeStartAllowed e.constraints e.start_cells
            (Grid.init e.constraints.cols e.constraints.rows))).is_alive c.1 c.2 = true →
        c ∈ e.start_cells ∧ c ∉ e.vertical_holes_tracker := by
      intro c hc
      rw [applyVerticalHoles_alive q3, Prod.mk.eta] at hc
      obtain ⟨hal, hnt⟩ := hc
      obtain ⟨-, hget⟩ := is_alive_iff.mp hal
      rcases (qchar c.1 c.2).mp hget with hinit | ⟨hmem, -, -⟩
      · rw [get_init] at hinit
        exact absurd hinit Bool.false_ne_true
      · rw [Prod.mk.eta] at hmem
        exact ⟨hmem, hnt⟩
    have hanchN : Anchored e.checkCells
        (applyVerticalHoles e.vertical_holes_tracker
          (placeStartAllowed e.constraints e.start_cells
            (Grid.init e.constraints.cols e.constraints.rows))) := by
      rw [checkCells_eq_start hgs]
      exact startGrid_anchored (fun c hc => (hmalive c hc).1)
    have hhfN : HoleFree e
        (applyVerticalHoles e.vertical_holes_tracker
          (placeStartAllowed e.constraints e.start_cells
            (Grid.init e.constraints.cols e.constraints.rows))) := by
      intro u hu
      by_contra hne2
      rw [Bool.not_eq_false] at hne2
      exact (hmalive u hne2).2 hu
    obtain ⟨p1, p2, p3, p4, p5⟩ := grow_layer_pres e ow
      (applyVerticalHoles e.vertical_holes_tracker
        (placeStartAllowed e.constraints e.start_cells
          (Grid.init e.constraints.cols e.constraints.rows)))
      layer_index (some prev) pruneFuel m3 hanchN hsub0 hne
    obtain ⟨-, -, r3, r4, r5⟩ := remove_isolated_pres e e.start_cells p3
    exact enforce_mask_anchored e r3 (r4 p4) (r5 (p5 hhfN))
  · -- multi group, layer 0
    unfold finalize_layer0_multi
    have hitems0 : ∀ pg ∈ (groups.map fun grp => (grp, mkGroupGrid0 e.constraints grp)),
        pg.2.Wf ∧ pg.2.cols = e.constraints.cols ∧ pg.2.rows = e.constraints.rows ∧
          Anchored (GrowthEngine.checkCells { e with current_group_start := pg.1 }) pg.2 ∧
          (∀ c ∈ pg.1, c ∈ e.start_cells) := by
      intro pg hpg
      rw [List.mem_map] at hpg
      obtain ⟨grp, hgrp, rfl⟩ := hpg
      obtain ⟨w1, w2, w3⟩ := mkGroupGrid0_props e.constraints grp
      exact ⟨w1, w2, w3,
        groupStart_anchored (fun c hc => mkGroupGrid0_alive e.constraints grp c hc),
        hsub grp hgrp⟩
    have hgrown := growGroupGrids_pres e ows 0 pruneFuel (fun _ => none) hne
      (groups.map fun grp => (grp, mkGroupGrid0 e.constraints grp)) 0 hitems0
    have hcombanch : Anchored e.start_cells
        (grow_layer_multi_group e ows 0 pruneFuel (fun _ => none)
          (groups.map fun grp => (grp, mkGroupGrid0 e.constraints grp))) := by
      unfold grow_layer_multi_group
      exact combineGrids_anchored e.start_cells _ _ _
        (fun g' hg' => ⟨(hgrown g' hg').2.1, (hgrown g' hg').2.2.1⟩)
        (fun g' hg' => (hgrown g' hg').2.2.2.1)
    have hcombwf : (grow_layer_multi_group e ows 0 pruneFuel (fun _ => none)
        (groups.map fun grp => (grp, mkGroupGrid0 e.constraints grp))).Wf := by
      unfold grow_layer_multi_group
      obtain ⟨-, -, cb3, -⟩ := combineGrids_char e.constraints.cols e.constraints.rows _
        (fun g' hg' => ⟨(hgrown g' hg').2.1, (hgrown g' hg').2.2.1⟩)
      exact cb3
    obtain ⟨-, -, r3, r4, -⟩ := remove_isolated_pres e e.start_cells hcombwf
    exact enforce_anchored e r3 (r4 hcombanch)
  · -- multi group, deeper layer
    unfold finalize_layerN_multi
    have hitemsN : ∀ pg ∈ (groups.map fun grp => (grp, mkGroupGridN e.constraints grp)),
        pg.2.Wf ∧ pg.2.cols = e.constraints.cols ∧ pg.2.rows = e.constraints.rows ∧
          Anchored (GrowthEngine.checkCells { e with current_group_start := pg.1 }) pg.2 ∧
          (∀ c ∈ pg.1, c ∈ e.start_cells) := by
      intro pg hpg
      rw [List.mem_map] at hpg
      obtain ⟨grp, hgrp, rfl⟩ := hpg
      obtain ⟨w1, w2, w3⟩ := mkGroupGridN_props e.constraints grp
      exact ⟨w1, w2, w3,
        groupStart_anchored (fun c hc => (mkGroupGridN_alive e.constraints grp c hc).1),
        hsub grp hgrp⟩
    have hitemshf : ∀ pg ∈ (groups.map fun grp => (grp, mkGroupGridN e.constraints grp)),
        HoleFree e pg.2 := by
      intro pg hpg
      rw [List.mem_map] at hpg
      obtain ⟨grp, hgrp, rfl⟩ := hpg
      intro u hu
      by_contra hne2
      rw [Bool.not_eq_false] at hne2
      obtain ⟨hmem, hallow⟩ := mkGroupGridN_alive e.constraints grp u hne2
      exact hnh grp hgrp u hmem hallow hu
    have hgrown := growGroupGrids_pres e ows layer_index pruneFuel lowers hne
      (groups.map fun grp => (grp, mkGroupGridN e.constraints grp)) 0 hitemsN
    have hcombanch : Anchored e.start_cells
        (grow_layer_multi_group e ows layer_index pruneFuel lowers
          (groups.map fun grp => (grp, mkGroupGridN e.constraints grp))) := by
      unfold grow_layer_multi_group
      exact combineGrids_anchored e.start_cells _ _ _
        (fun g' hg' => ⟨(hgrown g' hg').2.1, (hgrown g' hg').2.2.1⟩)
        (fun g' hg' => (hgrown g' hg').2.2.2.1)
    have hcombwf : (grow_layer_multi_group e ows layer_index pruneFuel lowers
        (groups.map fun grp => (grp, mkGroupGridN e.constraints grp))).Wf := by
      unfold grow_layer_multi_group
      obtain ⟨-, -, cb3, -⟩ := combineGrids_char e.constraints.cols e.constraints.rows _
        (fun g' hg' => ⟨(hgrown g' hg').2.1, (hgrown g' hg').2.2.1⟩)
      exact cb3
    have hcombhf : HoleFree e
        (grow_layer_multi_group e ows layer_index pruneFuel lowers
          (groups.map fun grp => (grp, mkGroupGridN e.constraints grp))) := by
      unfold grow_layer_multi_group
      exact combineGrids_holefree e e.constraints.cols e.constraints.rows _
        (fun g' hg' => ⟨(hgrown g' hg').2.1, (hgrown g' hg').2.2.1⟩)
        (fun g' hg' => (hgrown g' hg').2.2.2.2 hitemshf)
    obtain ⟨-, -, r3, r4, r5⟩ := remove_isolated_pres e e.start_cells hcombwf
    exact enforce_mask_anchored e r3 (r4 hcombanch) (r5 hcombhf)

/-- The trivial oracle: all draws `0`, shuffling is the identity. -/
noncomputable def zeroOracle : RandomOracle :=
  ⟨fun _ => 0, fun _ l => l⟩

/-- Witness for C1 on the concrete Living engine (one start cell `(1,1)`,
one group, empty hole tracker). -/
theorem C1_witness :
    livingEngine.current_group_start = [] ∧ livingEngine.start_cells ≠ [] ∧
      Anchored livingEngine.start_cells (finalize_layer0_single livingEngine zeroOracle 3) ∧
      Anchored livingEngine.start_cells
        (finalize_layerN_single livingEngine zeroOracle 1 (Grid.init 6 6) 3) ∧
      Anchored livingEngine.start_cells
        (finalize_layer0_multi livingEngine (fun _ => zeroOracle) [[(1, 1)]] 3) ∧
      Anchored livingEngine.start_cells
        (finalize_layerN_multi livingEngine (fun _ => zeroOracle) [[(1, 1)]] 1
          (fun _ => none) 3) := by
  have h := C1_finalized_layers_anchored livingEngine zeroOracle (fun _ => zeroOracle)
    [[(1, 1)]] 1 3 (Grid.init 6 6) (fun _ => none) rfl (by decide) (by decide)
    (fun grp _ c _ _ => Finset.not_mem_empty c)
  exact ⟨rfl, by decide, h.1, h.2.1, h.2.2.1, h.2.2.2⟩

end GrowthSim
